import Mathlib

/-!
# storj-IPFS connector: cipher, chunked upload pipeline and download pipeline

A shallow embedding of `storj-ipfs-connector/storj-ipfs.go`, `storj-ipfs/storj/storj.go`
and `storj-ipfs/ipfs/ipfs.go`.

Go byte slices and Go strings are both sequences of bytes; they are embedded as
`List (Fin 256)`.  The external collaborators (AES block function, random source, IPFS
content addressing, the object-store client) are parameters of the embedding.
-/

namespace StorjIPFS

/-- One byte. -/
abbrev Byte := Fin 256

/-- A Go `[]byte` or `string`. -/
abbrev Bytes := List Byte

/-- Go error values that the embedded code can produce or receive. -/
inductive GoError where
  /-- `io.ErrShortBuffer` -/
  | errShortBuffer
  /-- `aes.KeySizeError(n)` -/
  | keySize (n : Nat)
  /-- `errors.New("ciphertext too short")` -/
  | ciphertextTooShort
  /-- `base64.CorruptInputError` (the offset it carries is not modelled) -/
  | corruptInput
  /-- `io.EOF` -/
  | eof
  /-- an error made by `errors.New` or `fmt.Errorf`, identified by the start of its text -/
  | message (text : String)
  /-- any other error value, identified by a number -/
  | other (code : Nat)
  deriving DecidableEq, Repr

/-! ## encoding/base64, `StdEncoding` -/

/-- The table `encodeStd`: the character of a 6-bit value. -/
def encodeStd (v : Nat) : Byte :=
  if v < 26 then Fin.ofNat (65 + v)
  else if v < 52 then Fin.ofNat (71 + v)
  else if v < 62 then Fin.ofNat (v - 4)
  else if v = 62 then 43
  else 47

/-- The table `decodeMap`: `none` stands for the entry `0xff`. -/
def decodeMap (c : Byte) : Option Nat :=
  if 65 ≤ c.val ∧ c.val ≤ 90 then some (c.val - 65)
  else if 97 ≤ c.val ∧ c.val ≤ 122 then some (c.val - 71)
  else if 48 ≤ c.val ∧ c.val ≤ 57 then some (c.val + 4)
  else if c.val = 43 then some 62
  else if c.val = 47 then some 63
  else none

/-- The padding character `=`. -/
def padChar : Byte := 61

/-- `Encoding.Encode` for `StdEncoding`: three bytes give four characters, a remainder of
one or two bytes is padded with `=`. -/
def base64Encode : Bytes → Bytes
  | a :: b :: c :: rest =>
    let val := a.val * 65536 + b.val * 256 + c.val
    encodeStd (val / 262144 % 64) :: encodeStd (val / 4096 % 64) ::
      encodeStd (val / 64 % 64) :: encodeStd (val % 64) :: base64Encode rest
  | [a, b] =>
    let val := a.val * 65536 + b.val * 256
    [encodeStd (val / 262144 % 64), encodeStd (val / 4096 % 64), encodeStd (val / 64 % 64),
      padChar]
  | [a] =>
    let val := a.val * 65536
    [encodeStd (val / 262144 % 64), encodeStd (val / 4096 % 64), padChar, padChar]
  | [] => []

/-- A line feed or carriage return: `Decode` skips both. -/
def isNewline (c : Byte) : Bool := c.val = 10 || c.val = 13

/-- The loop `for si < len(src) && (src[si] == '\n' || src[si] == '\r')`. -/
def skipNewlines : Bytes → Bytes
  | [] => []
  | c :: rest => if isNewline c then skipNewlines rest else c :: rest

/-- The conversion of the collected 6-bit values `dbuf[0..dlen)` into `dlen - 1` bytes at
the end of `decodeQuantum` (non-strict: the unused low bits are not checked). -/
def quantumBytes (dbuf : List Nat) : Bytes :=
  let val := dbuf.getD 0 0 * 262144 + dbuf.getD 1 0 * 4096 + dbuf.getD 2 0 * 64 + dbuf.getD 3 0
  ([Fin.ofNat (val / 65536), Fin.ofNat (val / 256), Fin.ofNat val] : Bytes).take
    (dbuf.length - 1)

/-- `Encoding.Decode` for `StdEncoding` (its loop over `decodeQuantum`), reading the input
from left to right; `dbuf` holds the 6-bit values of the quantum being read. -/
def base64DecodeFrom : Bytes → List Nat → Except GoError Bytes
  | [], dbuf => if dbuf = [] then .ok [] else .error .corruptInput
  | c :: rest, dbuf =>
    match decodeMap c with
    | some v =>
      if dbuf.length = 3 then
        match base64DecodeFrom rest [] with
        | .ok out => .ok (quantumBytes (dbuf ++ [v]) ++ out)
        | .error e => .error e
      else base64DecodeFrom rest (dbuf ++ [v])
    | none =>
      if isNewline c then base64DecodeFrom rest dbuf
      else if c ≠ padChar then .error .corruptInput
      else if dbuf.length = 2 then
        match skipNewlines rest with
        | [] => .error .corruptInput
        | p :: rest2 =>
          if p ≠ padChar then .error .corruptInput
          else if skipNewlines rest2 = [] then .ok (quantumBytes dbuf)
          else .error .corruptInput
      else if dbuf.length = 3 then
        if skipNewlines rest = [] then .ok (quantumBytes dbuf) else .error .corruptInput
      else .error .corruptInput

/-- `base64.StdEncoding.DecodeString`. -/
def base64Decode (s : Bytes) : Except GoError Bytes := base64DecodeFrom s []

/-! ## crypto/aes and crypto/cipher (CFB mode) -/

/-- The AES block size. -/
def aesBlockSize : Nat := 16

/-- `aes.NewCipher`: the key length must be 16, 24 or 32; `aes key` is the block
encryption function of the key. -/
def NewCipher (aes : Bytes → Bytes → Bytes) (key : Bytes) : Except GoError (Bytes → Bytes) :=
  if key.length = 16 ∨ key.length = 24 ∨ key.length = 32 then .ok (aes key)
  else .error (.keySize key.length)

/-- The state of a `cipher.cfb` stream. -/
structure CFB where
  /-- the block function `b.Encrypt` -/
  b : Bytes → Bytes
  /-- the feedback register -/
  next : Bytes
  /-- the current key-stream block -/
  out : Bytes
  /-- how many bytes of `out` are used -/
  outUsed : Nat
  /-- `NewCFBDecrypter` rather than `NewCFBEncrypter` -/
  decrypt : Bool

/-- `cipher.NewCFBEncrypter(block, iv)`. -/
def NewCFBEncrypter (block : Bytes → Bytes) (iv : Bytes) : CFB :=
  { b := block, next := iv, out := List.replicate aesBlockSize 0, outUsed := aesBlockSize,
    decrypt := false }

/-- `cipher.NewCFBDecrypter(block, iv)`. -/
def NewCFBDecrypter (block : Bytes → Bytes) (iv : Bytes) : CFB :=
  { b := block, next := iv, out := List.replicate aesBlockSize 0, outUsed := aesBlockSize,
    decrypt := true }

/-- `cfb.XORKeyStream(dst, src)`, one byte at a time: a new key-stream block is computed
from the feedback register when the current one is used up, the source byte is xored with
the key stream, and the ciphertext byte is stored in the feedback register. -/
def XORKeyStream (x : CFB) : Bytes → Bytes
  | [] => []
  | s :: src =>
    let out := if x.outUsed = aesBlockSize then x.b x.next else x.out
    let used := if x.outUsed = aesBlockSize then 0 else x.outUsed
    let d : Byte := s ^^^ out.getD used 0
    let fb : Byte := if x.decrypt then s else d
    d :: XORKeyStream { x with out := out, outUsed := used + 1, next := x.next.set used fb } src

/-- `encrypt` of storj-ipfs.go; `rnd` is the result of `io.ReadFull(rand.Reader, iv)`, the
16 bytes read or an error. -/
def encrypt (aes : Bytes → Bytes → Bytes) (rnd : Except GoError Bytes) (key text : Bytes) :
    Except GoError Bytes :=
  match NewCipher aes key with
  | .error e => .error e
  | .ok block =>
    let b := base64Encode text
    match rnd with
    | .error e => .error e
    | .ok iv => .ok (iv ++ XORKeyStream (NewCFBEncrypter block iv) b)

/-- `decrypt` of storj.go. -/
def decrypt (aes : Bytes → Bytes → Bytes) (key text : Bytes) : Except GoError Bytes :=
  match NewCipher aes key with
  | .error e => .error e
  | .ok block =>
    if text.length < aesBlockSize then .error .ciphertextTooShort
    else
      let iv := text.take aesBlockSize
      let text := text.drop aesBlockSize
      let text := XORKeyStream (NewCFBDecrypter block iv) text
      match base64Decode text with
      | .error e => .error e
      | .ok data => .ok data

/-! ## strings and bytes helpers -/

/-- The bytes of an ASCII string literal. -/
def ofString (s : String) : Bytes := s.toList.map (fun c => Fin.ofNat c.toNat)

/-- The byte `,`. -/
def comma : Byte := 44

/-- The byte `/`. -/
def slash : Byte := 47

/-- The string `".txt"`. -/
def dotTxt : Bytes := ofString ".txt"

/-- `strings.Split(s, sep)` for a separator of one byte: the fields between the
separators, one more than there are separators. -/
def Split (sep : Byte) : Bytes → List Bytes
  | [] => [[]]
  | c :: rest =>
    if c = sep then [] :: Split sep rest
    else
      match Split sep rest with
      | f :: fs => (c :: f) :: fs
      | [] => [[c]]

/-- `strings.TrimSuffix(s, suffix)`. -/
def TrimSuffix (s suffix : Bytes) : Bytes :=
  if suffix.isSuffixOf s then s.take (s.length - suffix.length) else s

/-- A `bytes.Reader`: the bytes and the read offset. -/
structure Reader where
  /-- the underlying bytes -/
  s : Bytes
  /-- the current reading index -/
  i : Nat

/-- `bytes.NewReader`. -/
def NewReader (b : Bytes) : Reader := { s := b, i := 0 }

/-- `(*bytes.Reader).Read` into a buffer of `n` bytes: the bytes copied (`b[0:n]` for the
returned count `n`), the error and the reader afterwards. -/
def Reader.Read (r : Reader) (n : Nat) : Bytes × Option GoError × Reader :=
  if r.s.length ≤ r.i then ([], some .eof, r)
  else
    let b := (r.s.drop r.i).take n
    (b, none, { r with i := r.i + b.length })

/-- How a piece of Go code ends. -/
inductive Outcome (α : Type) where
  /-- it returns a value -/
  | returned (a : α)
  /-- `log.Fatal`: the process exits -/
  | fatal
  /-- a run-time panic -/
  | panicked
  /-- it has not ended within the given number of loop rounds -/
  | running
  deriving DecidableEq, Repr

/-! ## The object store and `ConnectUpload` (storj.go) -/

/-- The fields of `ConfigStorj` that the embedded code reads. -/
structure ConfigStorj where
  /-- `bucketName` -/
  Bucket : Bytes
  /-- `uploadPath` -/
  UploadPath : Bytes
  /-- `key` -/
  Key : Bytes
  deriving DecidableEq, Repr

/-- One call of `bucket.UploadObject`. -/
structure UploadCall where
  /-- the bucket of the handle -/
  bucket : Bytes
  /-- the object path -/
  path : Bytes
  /-- the bytes sent -/
  data : Bytes
  /-- the error returned, `none` for `nil` -/
  err : Option GoError
  deriving DecidableEq, Repr

/-- The contents of the object store: bucket and object path to stored bytes. -/
abbrev Objects := Bytes → Bytes → Option Bytes

/-- The store after a successful upload: the object is replaced. -/
def Objects.put (o : Objects) (bucket path data : Bytes) : Objects :=
  fun b p => if b = bucket ∧ p = path then some data else o b p

/-- The return of one call of `ConnectUpload`. -/
structure ConnectReturn where
  /-- the object name `databaseName` -/
  name : Bytes
  /-- the returned flag `uploadComplete` -/
  uploadComplete : Bool
  /-- how many calls of `UploadObject` the run had made when it returned -/
  uploadsMade : Nat
  deriving DecidableEq, Repr

/-- What a run of the store command has done to the outside world. -/
structure World where
  /-- the object store -/
  objects : Objects
  /-- the calls of `UploadObject` so far, oldest first -/
  uploads : List UploadCall
  /-- the calls of `ConnectUpload` that returned, oldest first -/
  connects : List ConnectReturn
  /-- the byte strings added to IPFS by `sh.Add` (without `OnlyHash`) -/
  added : List Bytes
  /-- the values printed after `Shareable Hash:` -/
  shareable : List Bytes

/-- The end of a piece of code together with the world it leaves. -/
structure Run (α : Type) where
  /-- how the code ended -/
  exit : Outcome α
  /-- the world at that point -/
  world : World

/-- One call `bucket.UploadObject(ctx, path, data, nil)`; `client n` is the error that the
object-store client returns for its `n`-th call (`none` for `nil`). A successful call
stores the object. -/
def UploadObject (client : Nat → Option GoError) (w : World) (bucket path data : Bytes) :
    Option GoError × World :=
  match client w.uploads.length with
  | some e => (some e, { w with uploads := w.uploads ++ [⟨bucket, path, data, some e⟩] })
  | none =>
    (none, { w with uploads := w.uploads ++ [⟨bucket, path, data, none⟩],
                    objects := w.objects.put bucket path data })

/-- The loop `for retryCount < 5` of `ConnectUpload`; the first argument is
`5 - retryCount`. It gives `err` and `uploadComplete` after the loop. -/
def retryLoop (client : Nat → Option GoError) (bucket path data : Bytes) :
    Nat → World → Option GoError → Bool → Option GoError × Bool × World
  | 0, w, err, uploadComplete => (err, uploadComplete, w)
  | n + 1, w, _, uploadComplete =>
    match UploadObject client w bucket path data with
    | (some e, w1) => retryLoop client bucket path data n w1 (some e) uploadComplete
    | (none, w1) => (none, true, w1)

/-- The check `UploadPath[len(UploadPath)-1:] != "/"`: `none` when the slice expression
panics (empty path), otherwise the path with a `/` at its end. -/
def checkSlash (uploadPath : Bytes) : Option Bytes :=
  if uploadPath = [] then none
  else if uploadPath.getLast? ≠ some slash then some (uploadPath ++ [slash])
  else some uploadPath

/-- The loop `for err = io.ErrShortBuffer; err == io.ErrShortBuffer;` of `ConnectUpload`;
`fuel` bounds the number of rounds. It gives `err`, `file` and `uploadComplete`. -/
def uploadRounds (client : Nat → Option GoError) (DEBUG : Bool)
    (bucket data databaseName : Bytes) :
    Nat → Bytes → World → List Bytes → Bool → Run (Option GoError × List Bytes × Bool)
  | 0, _, w, _, _ => ⟨.running, w⟩
  | fuel + 1, uploadPath, w, file, uploadComplete =>
    match checkSlash uploadPath with
    | none => ⟨.panicked, w⟩
    | some uploadPath =>
      match retryLoop client bucket (uploadPath ++ databaseName) data 5 w
          (some .errShortBuffer) uploadComplete with
      | (err, uploadComplete, w1) =>
        let file := if DEBUG then file ++ [databaseName] else file
        if err = some .errShortBuffer then
          uploadRounds client DEBUG bucket data databaseName fuel uploadPath w1 file
            uploadComplete
        else ⟨.returned (err, file, uploadComplete), w1⟩

/-- `ConnectUpload` of storj.go. `bucket` is the name of the bucket of the handle; the
result is the pair `(file, uploadComplete)`, with `[]` for the `nil` slice. -/
def ConnectUpload (client : Nat → Option GoError) (DEBUG : Bool) (fuel : Nat) (w : World)
    (bucket data databaseName : Bytes) (fileNamesDEBUG : List Bytes)
    (configStorj : ConfigStorj) : Run (List Bytes × Bool) :=
  match uploadRounds client DEBUG bucket data databaseName fuel configStorj.UploadPath w
      fileNamesDEBUG false with
  | ⟨.returned (err, file, uploadComplete), w1⟩ =>
    let w2 := { w1 with connects :=
      w1.connects ++ [⟨databaseName, uploadComplete, w1.uploads.length⟩] }
    if err ≠ none then ⟨.returned ([], uploadComplete), w2⟩
    else ⟨.returned (file, uploadComplete), w2⟩
  | ⟨.fatal, w1⟩ => ⟨.fatal, w1⟩
  | ⟨.panicked, w1⟩ => ⟨.panicked, w1⟩
  | ⟨.running, w1⟩ => ⟨.running, w1⟩

/-- The manifest as the download code reads it: `TrimSuffix` of one `,`, then `Split`. -/
def parseManifest (receivedContentsMeta : Bytes) : List Bytes :=
  Split comma (TrimSuffix receivedContentsMeta [comma])

/-- The loop `for _, filename := range downloadFileNamesDEBUG` of `Debug`: every object
is opened (`log.Fatal` when it cannot be), its bytes are decrypted (the error is dropped)
and written to `debug/` + `lastFileName`; `debugFileOK` tells whether that file can be
opened and written (the result of `os.OpenFile` is dropped, and `log.Fatal` follows a
failed `Write`). -/
def debugLoop (objects : Objects) (bucket objectPrefix : Bytes) (debugFileOK : Bool) :
    List Bytes → Outcome Unit
  | [] => .returned ()
  | filename :: rest =>
    match objects bucket (objectPrefix ++ filename) with
    | none => .fatal
    | some _ =>
      if debugFileOK then debugLoop objects bucket objectPrefix debugFileOK rest
      else .fatal

/-- `Debug` of storj.go: with `DEBUG` set it reads the manifest and every object it lists
back from the bucket and writes the decrypted bytes to `debug/` + `lastFileName`; it ends
the process when an object cannot be opened or the debug file cannot be written. -/
def Debug (DEBUG : Bool) (objects : Objects) (bucket metaFileName : Bytes)
    (configStorj : ConfigStorj) (debugFileOK : Bool) : Outcome Unit :=
  if DEBUG then
    let baseCID := (Split slash metaFileName).headD []
    match checkSlash configStorj.UploadPath with
    | none => .panicked
    | some uploadPath =>
      match objects bucket (uploadPath ++ metaFileName) with
      | none => .fatal
      | some receivedContentsMeta =>
        debugLoop objects bucket (uploadPath ++ baseCID ++ [slash]) debugFileOK
          (parseManifest receivedContentsMeta)
  else .returned ()

/-! ## The store command (storj-ipfs.go) -/

/-- The key of the chunk cipher, `"This is a storj ipfs private key"`. -/
def chunkKey : Bytes := ofString "This is a storj ipfs private key"

/-- What the store command is run with, once `ConnectStorjReadUploadData` and
`ConnectToIPFSStorj` have returned. -/
structure StoreEnv where
  /-- the AES block function of a key -/
  aes : Bytes → Bytes → Bytes
  /-- the result of the `n`-th read of 16 bytes from `rand.Reader` -/
  rand : Nat → Except GoError Bytes
  /-- the error the object-store client returns for its `n`-th `UploadObject` -/
  client : Nat → Option GoError
  /-- the content address `Sh.Add` computes for a byte string (`""` when it fails) -/
  cid : Bytes → Bytes
  /-- the Storj configuration file -/
  configStorj : ConfigStorj
  /-- `errr`, the error returned by `ConnectStorjReadUploadData` (`none` when the bucket
  was opened) -/
  errr : Option GoError
  /-- the bytes of the file at `ipfsData.FilePath` -/
  file : Bytes
  /-- the file name part of `ipfsData.FilePath` -/
  lastFileName : Bytes
  /-- `ipfsData.ChunkSize` -/
  ChunkSize : Nat
  /-- the flag `DEBUG` -/
  DEBUG : Bool
  /-- whether `debug/` + `lastFileName` can be opened and written by `Debug` -/
  debugFileOK : Bool

/-- The expression `int(fileSize/ipfsData.ChunkSize) + 1`. -/
def noOfChunkFiles (fileSize ChunkSize : Nat) : Nat := fileSize / ChunkSize + 1

/-- `chunker.NewSizeSplitter(file, size)`: the splitter keeps `uint32(size)` of the
`int64` it is given; the result is the size of the slices its `NextBytes` returns. -/
def NewSizeSplitter (size : Nat) : Nat := size % 2 ^ 32

/-- `chunkFile.NextBytes()` of a size splitter that keeps the size `size`: the next at
most `size` unread bytes (nothing at the end of the stream) and the bytes left unread. -/
def NextBytes (size : Nat) (unread : Bytes) : Bytes × Bytes :=
  (unread.take size, unread.drop size)

/-- The slices the chunk loop `for i := 0; i < noOfChunkFiles; i++` takes from the
splitter when no iteration leaves the loop, and the bytes left unread after it. -/
def chunkSlices (size : Nat) : Nat → Bytes → List Bytes × Bytes
  | 0, unread => ([], unread)
  | n + 1, unread =>
    match NextBytes size unread with
    | (storeChunkFile, unread1) =>
      match chunkSlices size n unread1 with
      | (slices, rest) => (storeChunkFile :: slices, rest)

/-- How the chunk loop ends: all iterations done, with the manifest text and
`fileNamesDEBUG`, or the store command left from inside the loop. -/
inductive LoopEnd where
  /-- the loop ran to its end -/
  | done (metadataBytes : Bytes) (fileNamesDEBUG : List Bytes)
  /-- the command ended inside the loop -/
  | stop (exit : Outcome (Option GoError))

/-- The chunk loop of the store command. The arguments after `encryptCID` are the number
of iterations left, the index `i`, the unread bytes of the file, the contents of
`./metadata.txt` and `fileNamesDEBUG`. -/
def chunkLoop (env : StoreEnv) (fuel : Nat) (encryptCID : Bytes) :
    Nat → Nat → Bytes → Bytes → List Bytes → World → LoopEnd × World
  | 0, _, _, metadata, files, w => (.done metadata files, w)
  | n + 1, i, unread, metadata, files, w =>
    match NextBytes (NewSizeSplitter env.ChunkSize) unread with
    | (storeChunkFile, unread1) =>
      match encrypt env.aes (env.rand i) chunkKey storeChunkFile with
      | .error _ => (.stop .fatal, w)
      | .ok encryptData =>
        let encryptChunkCID := env.cid encryptData
        let fileName := encryptCID ++ [slash] ++ encryptChunkCID
        match ConnectUpload env.client env.DEBUG fuel w env.configStorj.Bucket encryptData
            fileName files env.configStorj with
        | ⟨.returned (files1, uploadStatus), w1⟩ =>
          if uploadStatus ≠ true then (.stop (.returned env.errr), w1)
          else
            chunkLoop env fuel encryptCID n (i + 1) unread1
              (metadata ++ encryptChunkCID ++ [comma]) files1 w1
        | ⟨.fatal, w1⟩ => (.stop .fatal, w1)
        | ⟨.panicked, w1⟩ => (.stop .panicked, w1)
        | ⟨.running, w1⟩ => (.stop .running, w1)

/-- The locator token of the store command: `append(hash, storjEncryptData...)`. -/
def packLocator (encryptCID storjEncryptData : Bytes) : Bytes :=
  encryptCID ++ storjEncryptData

/-- The routing payload `configStorj.Bucket + "," + configStorj.UploadPath + "," +
lastFileName`. -/
def routingPayload (bucket uploadPath lastFileName : Bytes) : Bytes :=
  bucket ++ [comma] ++ uploadPath ++ [comma] ++ lastFileName

/-- The action of the `store` command, from the computation of the base address on. -/
def storeCommand (env : StoreEnv) (fuel : Nat) (w : World) : Run (Option GoError) :=
  let encryptCID := env.cid env.file
  let n := noOfChunkFiles env.file.length env.ChunkSize
  match chunkLoop env fuel encryptCID n 0 env.file [] [] w with
  | (.stop exit, w1) => ⟨exit, w1⟩
  | (.done metadataBytes fileNamesDEBUG, w1) =>
    let metaFileStoreName := encryptCID ++ [slash] ++ encryptCID ++ dotTxt
    match ConnectUpload env.client env.DEBUG fuel w1 env.configStorj.Bucket metadataBytes
        metaFileStoreName fileNamesDEBUG env.configStorj with
    | ⟨.fatal, w2⟩ => ⟨.fatal, w2⟩
    | ⟨.panicked, w2⟩ => ⟨.panicked, w2⟩
    | ⟨.running, w2⟩ => ⟨.running, w2⟩
    | ⟨.returned _, w2⟩ =>
      match Debug env.DEBUG w2.objects env.configStorj.Bucket metaFileStoreName
          env.configStorj env.debugFileOK with
      | .fatal => ⟨.fatal, w2⟩
      | .panicked => ⟨.panicked, w2⟩
      | .running => ⟨.running, w2⟩
      | .returned _ =>
        match checkSlash env.configStorj.UploadPath with
        | none => ⟨.panicked, w2⟩
        | some uploadPath =>
          let ipfsStorjData := routingPayload env.configStorj.Bucket uploadPath env.lastFileName
          match encrypt env.aes (env.rand n) env.configStorj.Key ipfsStorjData with
          | .error _ => ⟨.fatal, w2⟩
          | .ok storjEncryptData =>
            let encryptedStorjConfig := packLocator encryptCID storjEncryptData
            let configHash := env.cid encryptedStorjConfig
            ⟨.returned none,
              { w2 with added := w2.added ++ [encryptedStorjConfig],
                        shareable := w2.shareable ++ [configHash] }⟩

/-! ## `ConnectStorjReadDownloadData` (storj.go) -/

/-- How the connection part of the download (`NewUplink` up to `OpenBucket`) ends. -/
inductive Connection where
  /-- the bucket is open -/
  | opened
  /-- the function returns this error -/
  | failed (err : GoError)
  /-- `log.Fatal` -/
  | fatal
  deriving DecidableEq, Repr

/-- A call of the object-store client made by the download. -/
inductive StorjCall where
  /-- the calls from `NewUplink` to `OpenBucket`, for this bucket -/
  | connect (bucket : Bytes)
  /-- `bucket.OpenObject` for this object path -/
  | openObject (bucket path : Bytes)
  deriving DecidableEq, Repr

/-- What the download is run with. -/
structure DownloadEnv where
  /-- the AES block function of a key -/
  aes : Bytes → Bytes → Bytes
  /-- `downloadConfigStorj.Key` -/
  Key : Bytes
  /-- `downloadConfigStorj.DownloadPath` -/
  DownloadPath : Bytes
  /-- whether the download directory exists or can be made -/
  dirOK : Bool
  /-- how opening the bucket of a name ends -/
  connect : Bytes → Connection
  /-- the object store -/
  objects : Objects
  /-- the error of `os.OpenFile(name, O_APPEND|O_CREATE|O_WRONLY, 0644)`, `none` when the
  file opens -/
  openFile : Bytes → Option GoError
  /-- whether `Write` to the opened output file succeeds -/
  writeOK : Bool

/-- The local disk and the calls made, as the download changes them. -/
structure DownloadWorld where
  /-- the files on the local disk: path to contents -/
  disk : Bytes → Option Bytes
  /-- the object-store calls made so far, oldest first -/
  calls : List StorjCall

/-- The end of the download together with the world it leaves. -/
structure DownloadRun where
  /-- how the function ended, with the error it returned -/
  exit : Outcome (Option GoError)
  /-- the world at that point -/
  world : DownloadWorld

/-- The two reads of the locator at the start of `ConnectStorjReadDownloadData`: 46 bytes
into `makebuffer`, then `downloadFileSize-46` bytes into `restDataBuf`; `make` panics for
a negative length. -/
def readLocator (token : Bytes) : Outcome (Bytes × Bytes) :=
  match (NewReader token).Read 46 with
  | (data, _, readFile) =>
    if token.length < 46 then .panicked
    else
      match readFile.Read (token.length - 46) with
      | (dataEnc, _, _) => .returned (data, dataEnc)

/-- `os.OpenFile(name, O_APPEND|O_CREATE|O_WRONLY)` followed by `Write(dec)`. -/
def appendFile (disk : Bytes → Option Bytes) (name dec : Bytes) : Bytes → Option Bytes :=
  fun p => if p = name then some ((disk name).getD [] ++ dec) else disk p

/-- `os.Remove(name)`. -/
def removeFile (disk : Bytes → Option Bytes) (name : Bytes) : Bytes → Option Bytes :=
  fun p => if p = name then none else disk p

/-- The loop `for _, filename := range downloadFileNamesDEBUG` of the download. -/
def downloadLoop (env : DownloadEnv) (bucket objectPrefix fileNameDownload : Bytes) :
    List Bytes → DownloadWorld → DownloadRun
  | [], w => ⟨.returned none, w⟩
  | filename :: rest, w =>
    let w1 := { w with calls := w.calls ++ [.openObject bucket (objectPrefix ++ filename)] }
    match env.objects bucket (objectPrefix ++ filename) with
    | none => ⟨.returned (some (.message "Could not open object at")), w1⟩
    | some receivedContents =>
      match decrypt env.aes chunkKey receivedContents with
      | .error _ => ⟨.returned (some (.message "Could not decrypt received data")), w1⟩
      | .ok dec =>
        match env.openFile fileNameDownload with
        | some _ =>
          ⟨.returned (some (.message "Could not open file to write downloaded data")), w1⟩
        | none =>
          if env.writeOK then
            downloadLoop env bucket objectPrefix fileNameDownload rest
              { w1 with disk := appendFile w1.disk fileNameDownload dec }
          else ⟨.fatal, w1⟩

/-- `ConnectStorjReadDownloadData` of storj.go, on the bytes of the locator. -/
def ConnectStorjReadDownloadData (env : DownloadEnv) (w : DownloadWorld) (token : Bytes) :
    DownloadRun :=
  match readLocator token with
  | .fatal => ⟨.fatal, w⟩
  | .panicked => ⟨.panicked, w⟩
  | .running => ⟨.running, w⟩
  | .returned (downloadFileName, dataEnc) =>
    match decrypt env.aes env.Key dataEnc with
    | .error _ => ⟨.fatal, w⟩
    | .ok decryptData =>
      if env.dirOK = false then ⟨.fatal, w⟩
      else
        match Split comma decryptData with
        | downloadBucket :: downloadPath :: lastFileName :: _ =>
          let w1 := { w with calls := w.calls ++ [.connect downloadBucket] }
          match env.connect downloadBucket with
          | .fatal => ⟨.fatal, w1⟩
          | .failed err => ⟨.returned (some err), w1⟩
          | .opened =>
            let metaFileName := downloadFileName ++ [slash] ++ downloadFileName ++ dotTxt
            let w2 := { w1 with calls :=
              w1.calls ++ [.openObject downloadBucket (downloadPath ++ metaFileName)] }
            match env.objects downloadBucket (downloadPath ++ metaFileName) with
            | none => ⟨.fatal, w2⟩
            | some receivedContentsMeta =>
              let downloadFileNamesDEBUG := parseManifest receivedContentsMeta
              let fileNameDownload := env.DownloadPath ++ [slash] ++ lastFileName
              downloadLoop env downloadBucket (downloadPath ++ downloadFileName ++ [slash])
                fileNameDownload downloadFileNamesDEBUG
                { w2 with disk := removeFile w2.disk fileNameDownload }
        | _ => ⟨.panicked, w⟩

/-! ## The manifest text and example values -/

/-- The contents of `./metadata.txt` after the chunk loop has written the addresses
`encryptChunkCID + ","` one after the other in append mode. -/
def manifestText (addresses : List Bytes) : Bytes :=
  addresses.foldl (fun metadata encryptChunkCID => metadata ++ encryptChunkCID ++ [comma]) []

/-- An example block function: it mixes the key into the block. -/
def exampleAes (key block : Bytes) : Bytes :=
  List.zipWith (fun k b => k + 3 * b + 1) (key.take 16) block

/-- An example key of 16 bytes. -/
def exampleKey : Bytes := List.replicate 16 7

/-- An example content-address function: `Qm` and 44 letters made from the first bytes. -/
def exampleCid (x : Bytes) : Bytes :=
  ofString "Qm" ++
    ((x ++ List.replicate 44 0).take 44).map (fun (b : Byte) => (Fin.ofNat (65 + b.val % 16) : Byte))

/-- An example random source: the `i`-th IV is 16 times the byte `i + 1`. -/
def exampleRand (i : Nat) : Except GoError Bytes := .ok (List.replicate 16 (Fin.ofNat (i + 1)))

/-- The world before a run: an empty object store, nothing done. -/
def emptyWorld : World :=
  { objects := fun _ _ => none, uploads := [], connects := [], added := [], shareable := [] }

/-- An example run of the store command: bucket `b`, upload path `p`, file name `f.bin`,
the example cipher, random source and address function, no debug output. -/
def exampleEnv (file : Bytes) (ChunkSize : Nat) (client : Nat → Option GoError) : StoreEnv :=
  { aes := exampleAes, rand := exampleRand, client := client, cid := exampleCid,
    configStorj := { Bucket := ofString "b", UploadPath := ofString "p", Key := exampleKey },
    errr := none, file := file, lastFileName := ofString "f.bin", ChunkSize := ChunkSize,
    DEBUG := false, debugFileOK := true }

/-- An object-store client whose first five uploads fail with `io.ErrShortBuffer`. -/
def shortBufferClient (n : Nat) : Option GoError :=
  if n < 5 then some .errShortBuffer else none

/-- An object-store client whose first five uploads fail with some other error. -/
def failingClient (n : Nat) : Option GoError :=
  if n < 5 then some (.other 1) else none

/-- An object-store client that accepts three uploads and fails from the fourth on. -/
def manifestFailingClient (n : Nat) : Option GoError :=
  if n < 3 then none else some (.other 1)

/-- The ciphertexts of the chunks the chunk loop encrypts, in loop order, from the
iteration with index `i` on (up to the first failure of `encrypt`). -/
def chunkCiphertextsFrom (env : StoreEnv) : Nat → Nat → Bytes → List Bytes
  | 0, _, _ => []
  | n + 1, i, unread =>
    match encrypt env.aes (env.rand i) chunkKey (NextBytes (NewSizeSplitter env.ChunkSize) unread).1 with
    | .error _ => []
    | .ok encryptData =>
      encryptData :: chunkCiphertextsFrom env n (i + 1) (NextBytes (NewSizeSplitter env.ChunkSize) unread).2

/-- The chunk ciphertexts of a run of the store command. -/
def chunkCiphertexts (env : StoreEnv) : List Bytes :=
  chunkCiphertextsFrom env (noOfChunkFiles env.file.length env.ChunkSize) 0 env.file

/-- The object store after the chunk ciphertexts were uploaded one after the other under
`uploadPath ++ encryptCID ++ "/" ++ cid`. -/
def putChunks (cid : Bytes → Bytes) (bucket objectPrefix : Bytes) (o : Objects) :
    List Bytes → Objects
  | [] => o
  | ct :: rest => putChunks cid bucket objectPrefix (o.put bucket (objectPrefix ++ cid ct) ct) rest

/-- An address function with addresses of one byte, made from the first byte. -/
def shortCid (x : Bytes) : Bytes := [Fin.ofNat (65 + (x.headD 0).val % 16)]

/-- A download environment for the objects `o`: example cipher and key, download
directory `out`, a bucket that opens. -/
def exampleDownloadEnv (o : Objects) : DownloadEnv :=
  { aes := exampleAes, Key := exampleKey, DownloadPath := ofString "out", dirOK := true,
    connect := fun _ => .opened, objects := o, openFile := fun _ => none, writeOK := true }

/-- The local disk before a download: no files, no calls made. -/
def emptyDisk : DownloadWorld := { disk := fun _ => none, calls := [] }

/-! ## ipfs.go -/

deriving instance DecidableEq for Except

/-- How the IPFS daemon answers. -/
structure IPFSNode where
  /-- the error of `sh.Version()`, `none` for `nil` -/
  versionErr : Option GoError
  /-- the result of `sh.Cat(hash)`: the bytes stored under the hash or an error -/
  cat : Bytes → Except GoError Bytes

/-- A request sent to the IPFS daemon. -/
inductive IPFSCall where
  /-- `sh.Version()` -/
  | version
  /-- `sh.Cat(hash)` -/
  | cat (hash : Bytes)
  deriving DecidableEq, Repr

/-- The end of `ConnectToIPFSForDownload`: the pair it returns (the bytes of the reader,
`none` for a `nil` reader, and the error) and the requests it sent. -/
structure IPFSRun where
  /-- how the function ended -/
  exit : Outcome (Option Bytes × Option GoError)
  /-- the requests sent to the daemon, oldest first -/
  calls : List IPFSCall

/-- `ConnectToIPFSForDownload` of ipfs.go. The slice expression `hash[0:2]` panics for a
hash of fewer than two bytes; `ioutil.ReadAll` of the `nil` reader that a failed `sh.Cat`
returns panics as well. -/
def ConnectToIPFSForDownload (node : IPFSNode) (hash hostName : Bytes) : IPFSRun :=
  if hostName = ofString "ipfsHostName" ∨ hostName = [] then
    ⟨.returned (none, some (.message "Invalid HostName")), []⟩
  else if hash.length < 2 then ⟨.panicked, []⟩
  else if hash.take 2 ≠ ofString "Qm" ∨ hash.length ≠ 46 then
    ⟨.returned (none, some (.message "Invalid Shareable Hash")), []⟩
  else
    match node.versionErr with
    | some _ => ⟨.returned (none, some (.message "Could not find Daemon running")), [.version]⟩
    | none =>
      match node.cat hash with
      | .error _ => ⟨.panicked, [.version, .cat hash]⟩
      | .ok readbytes => ⟨.returned (some readbytes, none), [.version, .cat hash]⟩

/-- The largest `uint64`. -/
def maxUint64 : Nat := 2 ^ 64 - 1

/-- The digit loop of `strconv.ParseUint(s, 10, 64)`: a character that is not a decimal
digit ends it with `ErrSyntax` and 0; a value that leaves the range ends it with
`ErrRange` and the largest value, before the characters after it are looked at. -/
def parseUintLoop : Bytes → Nat → Nat × Option GoError
  | [], n => (n, none)
  | c :: rest, n =>
    if 48 ≤ c.val ∧ c.val ≤ 57 then
      if maxUint64 / 10 + 1 ≤ n then (maxUint64, some (.message "value out of range"))
      else
        let n1 := (n * 10 + (c.val - 48)) % 2 ^ 64
        if n1 < n * 10 ∨ maxUint64 < n1 then (maxUint64, some (.message "value out of range"))
        else parseUintLoop rest n1
    else (0, some (.message "invalid syntax"))

/-- `strconv.ParseUint(s, 10, 64)`. -/
def ParseUint (s : Bytes) : Nat × Option GoError :=
  if s = [] then (0, some (.message "invalid syntax")) else parseUintLoop s 0

/-- `strconv.ParseInt(s, 10, 64)`: the value and the error. -/
def ParseInt (s : Bytes) : Int × Option GoError :=
  if s = [] then (0, some (.message "invalid syntax"))
  else
    let neg := s.head? = some 45
    let s1 := if s.head? = some 43 ∨ s.head? = some 45 then s.tail else s
    match ParseUint s1 with
    | (un, err) =>
      if err = some (.message "invalid syntax") then (0, err)
      else if neg = false ∧ 2 ^ 63 ≤ un then (2 ^ 63 - 1, some (.message "value out of range"))
      else if neg = true ∧ 2 ^ 63 < un then (-(2 ^ 63), some (.message "value out of range"))
      else (if neg then -(un : Int) else (un : Int), none)

/-- The fields of `ConfigIPFS`. -/
structure ConfigIPFS where
  /-- `hostName` -/
  HostName : Bytes
  /-- `port` -/
  Port : Bytes
  /-- `path` -/
  Path : Bytes
  /-- `chunkSize` -/
  ChunkSize : Bytes
  deriving DecidableEq, Repr

/-- The fields of `IPFSdata` that are data (the shell and the file handle are left out). -/
structure IPFSdata where
  /-- `FilePath` -/
  FilePath : Bytes
  /-- `ChunkSize` -/
  ChunkSize : Int
  deriving DecidableEq, Repr

/-- `ConnectToIPFSStorj` of ipfs.go: `loaded` is the result of `LoadIPFSProperty`,
`versionErr` the error of `sh.Version()` and `openErr` the error of `os.Open` of the file
to upload. -/
def ConnectToIPFSStorj (loaded : Except GoError ConfigIPFS) (versionErr openErr : Option GoError) :
    Except GoError IPFSdata :=
  match loaded with
  | .error err => .error err
  | .ok configIPFS =>
    if configIPFS.HostName = ofString "ipfsHostName" ∨ configIPFS.HostName = [] then
      .error (.message "Invalid HostName")
    else if versionErr ≠ none then .error (.message "Could not find Daemon running")
    else if openErr ≠ none then .error (.message "Invalid File path entered")
    else
      let givenSize := (ParseInt configIPFS.ChunkSize).1
      if givenSize ≤ 0 then .error (.message "Invalid chunk size entered")
      else .ok { FilePath := configIPFS.Path, ChunkSize := givenSize }

/-! ## The download command (storj-ipfs.go) -/

/-- What the download command is run with. -/
structure DownloadCommandEnv where
  /-- the error of `DownloadStorjConfiguration`, `none` for `nil` -/
  configErr : Option GoError
  /-- `downloadConfigStorj.HostName` -/
  HostName : Bytes
  /-- `downloadConfigStorj.FileHash` -/
  FileHash : Bytes
  /-- the IPFS daemon -/
  node : IPFSNode
  /-- the rest of the configuration and the object store -/
  download : DownloadEnv

/-- The action of the `download` command: the result of `ConnectStorjReadDownloadData` is
not used, the command returns the error of `DownloadStorjConfiguration`. -/
def downloadCommand (env : DownloadCommandEnv) (w : DownloadWorld) : DownloadRun :=
  match (ConnectToIPFSForDownload env.node env.FileHash env.HostName).exit with
  | .fatal => ⟨.fatal, w⟩
  | .panicked => ⟨.panicked, w⟩
  | .running => ⟨.running, w⟩
  | .returned (_, some _) => ⟨.fatal, w⟩
  | .returned (none, none) => ⟨.panicked, w⟩
  | .returned (some reader, none) =>
    match ConnectStorjReadDownloadData env.download w reader with
    | ⟨.returned _, w1⟩ => ⟨.returned env.configErr, w1⟩
    | ⟨.fatal, w1⟩ => ⟨.fatal, w1⟩
    | ⟨.panicked, w1⟩ => ⟨.panicked, w1⟩
    | ⟨.running, w1⟩ => ⟨.running, w1⟩

/-- The object store with only the manifest of a store run left in it. -/
def onlyManifest (o : Objects) (manifestKey : Bytes) : Objects :=
  fun b p => if p = manifestKey then o b p else none

/-- The part of `ConnectStorjReadDownloadData` that follows the split of the routing data
(from `Configure the partner id` on), for the values `downloadFileName`,
`downloadBucket`, `downloadPath` and `lastFileName` it has recovered. -/
def downloadObjects (env : DownloadEnv) (w : DownloadWorld)
    (downloadFileName downloadBucket downloadPath lastFileName : Bytes) : DownloadRun :=
  let w1 := { w with calls := w.calls ++ [.connect downloadBucket] }
  match env.connect downloadBucket with
  | .fatal => ⟨.fatal, w1⟩
  | .failed err => ⟨.returned (some err), w1⟩
  | .opened =>
    let metaFileName := downloadFileName ++ [slash] ++ downloadFileName ++ dotTxt
    let w2 := { w1 with calls :=
      w1.calls ++ [.openObject downloadBucket (downloadPath ++ metaFileName)] }
    match env.objects downloadBucket (downloadPath ++ metaFileName) with
    | none => ⟨.fatal, w2⟩
    | some receivedContentsMeta =>
      let downloadFileNamesDEBUG := parseManifest receivedContentsMeta
      let fileNameDownload := env.DownloadPath ++ [slash] ++ lastFileName
      downloadLoop env downloadBucket (downloadPath ++ downloadFileName ++ [slash])
        fileNameDownload downloadFileNamesDEBUG
        { w2 with disk := removeFile w2.disk fileNameDownload }

/-- An example run of the store command whose upload path `a,b` holds a comma. -/
def commaPathEnv : StoreEnv :=
  { exampleEnv (ofString "0123") 4 (fun _ => none) with
    configStorj := { Bucket := ofString "b", UploadPath := ofString "a,b", Key := exampleKey } }

/-- The object keys under which the chunk loop uploads the chunks, in loop order:
`UploadPath + encryptCID + "/" + encryptChunkCID` with the path as `ConnectUpload`
normalises it. -/
def chunkObjectKeys (env : StoreEnv) : List Bytes :=
  match checkSlash env.configStorj.UploadPath with
  | none => []
  | some uploadPath =>
    (chunkCiphertexts env).map
      (fun encryptData => uploadPath ++ (env.cid env.file ++ [slash] ++ env.cid encryptData))

/-- A second example random source: the `i`-th IV is 16 times the byte `i + 101`. -/
def freshRand (i : Nat) : Except GoError Bytes := .ok (List.replicate 16 (Fin.ofNat (i + 101)))

/-- An example run of the store command on the file `0123` with chunk size 4 in which the
content address of a byte string is the byte string itself. -/
def idCidEnv (rand : Nat → Except GoError Bytes) : StoreEnv :=
  { exampleEnv (ofString "0123") 4 (fun _ => none) with rand := rand, cid := id }

/-- The last step of the store action, from `Get the configration data of storj` on: the
check `UploadPath[len(UploadPath)-1:]`, the routing payload, its encryption and the
locator that is added to IPFS. -/
def locatorStep (env : StoreEnv) (w2 : World) : Run (Option GoError) :=
  let encryptCID := env.cid env.file
  let n := noOfChunkFiles env.file.length env.ChunkSize
  match checkSlash env.configStorj.UploadPath with
  | none => ⟨.panicked, w2⟩
  | some uploadPath =>
    let ipfsStorjData := routingPayload env.configStorj.Bucket uploadPath env.lastFileName
    match encrypt env.aes (env.rand n) env.configStorj.Key ipfsStorjData with
    | .error _ => ⟨.fatal, w2⟩
    | .ok storjEncryptData =>
      let encryptedStorjConfig := packLocator encryptCID storjEncryptData
      let configHash := env.cid encryptedStorjConfig
      ⟨.returned none,
        { w2 with added := w2.added ++ [encryptedStorjConfig],
                  shareable := w2.shareable ++ [configHash] }⟩

/-! ## Cipher lemmas -/

theorem xor_xor_cancel (s k : Byte) : (s ^^^ k) ^^^ k = s := by
  apply Fin.ext
  have h1 : s.val ^^^ k.val < 256 := Nat.xor_lt_two_pow (n := 8) s.isLt k.isLt
  show ((s.val ^^^ k.val) % 256 ^^^ k.val) % 256 = s.val
  rw [Nat.mod_eq_of_lt h1, Nat.xor_assoc, Nat.xor_self, Nat.xor_zero, Nat.mod_eq_of_lt s.isLt]

theorem decodeMap_encodeStd (v : Nat) (h : v < 64) : decodeMap (encodeStd v) = some v := by
  interval_cases v <;> rfl

theorem XORKeyStream_length (x : CFB) (src : Bytes) : (XORKeyStream x src).length = src.length := by
  induction src generalizing x with
  | nil => rfl
  | cons s src ih => simp [XORKeyStream, ih]

/-- Decrypting a CFB stream from the same register state gives the source back. -/
theorem XORKeyStream_decrypt_encrypt (b : Bytes → Bytes) (next out : Bytes) (outUsed : Nat)
    (src : Bytes) :
    XORKeyStream { b := b, next := next, out := out, outUsed := outUsed, decrypt := true }
      (XORKeyStream { b := b, next := next, out := out, outUsed := outUsed, decrypt := false } src)
      = src := by
  induction src generalizing next out outUsed with
  | nil => rfl
  | cons s src ih =>
    simp only [XORKeyStream, xor_xor_cancel, Bool.false_eq_true, if_false, if_true]
    rw [ih]

theorem quantumBytes_four (a b c : Byte) :
    quantumBytes [(a.val * 65536 + b.val * 256 + c.val) / 262144 % 64,
      (a.val * 65536 + b.val * 256 + c.val) / 4096 % 64,
      (a.val * 65536 + b.val * 256 + c.val) / 64 % 64,
      (a.val * 65536 + b.val * 256 + c.val) % 64] = [a, b, c] := by
  have ha := a.isLt
  have hb := b.isLt
  have hc := c.isLt
  simp only [quantumBytes, List.getD_cons_zero, List.getD_cons_succ, List.length_cons,
    List.length_nil, Nat.reduceAdd, Nat.add_one_sub_one, List.take_succ_cons, List.take_zero,
    List.cons.injEq, and_true]
  refine ⟨?_, ?_, ?_⟩ <;> apply Fin.ext <;> simp only [Fin.ofNat, Fin.val_mk] <;> omega

theorem quantumBytes_three (a b : Byte) :
    quantumBytes [(a.val * 65536 + b.val * 256) / 262144 % 64,
      (a.val * 65536 + b.val * 256) / 4096 % 64,
      (a.val * 65536 + b.val * 256) / 64 % 64] = [a, b] := by
  have ha := a.isLt
  have hb := b.isLt
  simp only [quantumBytes, List.getD_cons_zero, List.getD_cons_succ, List.length_cons,
    List.length_nil, Nat.reduceAdd, Nat.add_one_sub_one, List.take_succ_cons, List.take_zero,
    List.cons.injEq, and_true, List.getD_nil]
  refine ⟨?_, ?_⟩ <;> apply Fin.ext <;> simp only [Fin.ofNat, Fin.val_mk] <;> omega

theorem quantumBytes_two (a : Byte) :
    quantumBytes [(a.val * 65536) / 262144 % 64, (a.val * 65536) / 4096 % 64] = [a] := by
  have ha := a.isLt
  simp only [quantumBytes, List.getD_cons_zero, List.getD_cons_succ, List.length_cons,
    List.length_nil, Nat.reduceAdd, Nat.add_one_sub_one, List.take_succ_cons, List.take_zero,
    List.cons.injEq, and_true, List.getD_nil]
  apply Fin.ext
  simp only [Fin.ofNat, Fin.val_mk]
  omega

theorem decodeMap_padChar : decodeMap padChar = none := by decide

theorem isNewline_padChar : isNewline padChar = false := by decide

/-- Standard base64: decoding an encoding gives the bytes back. -/
theorem base64Decode_encode (p : Bytes) : base64Decode (base64Encode p) = .ok p := by
  unfold base64Decode
  induction p using base64Encode.induct with
  | case1 a b c rest ih =>
    have h0 := decodeMap_encodeStd ((a.val * 65536 + b.val * 256 + c.val) / 262144 % 64)
      (Nat.mod_lt _ (by norm_num))
    have h1 := decodeMap_encodeStd ((a.val * 65536 + b.val * 256 + c.val) / 4096 % 64)
      (Nat.mod_lt _ (by norm_num))
    have h2 := decodeMap_encodeStd ((a.val * 65536 + b.val * 256 + c.val) / 64 % 64)
      (Nat.mod_lt _ (by norm_num))
    have h3 := decodeMap_encodeStd ((a.val * 65536 + b.val * 256 + c.val) % 64)
      (Nat.mod_lt _ (by norm_num))
    simp only [base64Encode, base64DecodeFrom, h0, h1, h2, h3, List.length_nil, List.nil_append,
      List.length_cons, List.cons_append, ih, quantumBytes_four]
    simp
  | case2 a b =>
    have h0 := decodeMap_encodeStd ((a.val * 65536 + b.val * 256) / 262144 % 64)
      (Nat.mod_lt _ (by norm_num))
    have h1 := decodeMap_encodeStd ((a.val * 65536 + b.val * 256) / 4096 % 64)
      (Nat.mod_lt _ (by norm_num))
    have h2 := decodeMap_encodeStd ((a.val * 65536 + b.val * 256) / 64 % 64)
      (Nat.mod_lt _ (by norm_num))
    simp only [base64Encode, base64DecodeFrom, h0, h1, h2, List.length_nil, List.nil_append,
      List.length_cons, List.cons_append, quantumBytes_three, decodeMap_padChar, skipNewlines,
      isNewline_padChar]
    simp
  | case3 a =>
    have h0 := decodeMap_encodeStd ((a.val * 65536) / 262144 % 64) (Nat.mod_lt _ (by norm_num))
    have h1 := decodeMap_encodeStd ((a.val * 65536) / 4096 % 64) (Nat.mod_lt _ (by norm_num))
    simp only [base64Encode, base64DecodeFrom, h0, h1, List.length_nil, List.nil_append,
      List.length_cons, List.cons_append, quantumBytes_two, decodeMap_padChar, skipNewlines,
      isNewline_padChar]
    simp [skipNewlines]
  | case4 => simp [base64Encode, base64DecodeFrom]

theorem encrypt_ok (aes : Bytes → Bytes → Bytes) (key text iv : Bytes)
    (hk : key.length = 16 ∨ key.length = 24 ∨ key.length = 32) :
    encrypt aes (.ok iv) key text
      = .ok (iv ++ XORKeyStream (NewCFBEncrypter (aes key) iv) (base64Encode text)) := by
  simp [encrypt, NewCipher, hk]

theorem decrypt_append (aes : Bytes → Bytes → Bytes) (key iv x : Bytes)
    (hk : key.length = 16 ∨ key.length = 24 ∨ key.length = 32) (hiv : iv.length = 16) :
    decrypt aes key (iv ++ x)
      = (match base64Decode (XORKeyStream (NewCFBDecrypter (aes key) iv) x) with
        | .error e => .error e
        | .ok data => .ok data) := by
  have h1 : ¬ (iv ++ x).length < aesBlockSize := by simp [aesBlockSize, hiv]
  have h2 : (iv ++ x).take aesBlockSize = iv := List.take_left' hiv
  have h3 : (iv ++ x).drop aesBlockSize = x := List.drop_left' hiv
  simp only [decrypt, NewCipher, hk, if_true, h1, if_false, h2, h3]

theorem decrypt_encrypted (aes : Bytes → Bytes → Bytes) (key text iv : Bytes)
    (hk : key.length = 16 ∨ key.length = 24 ∨ key.length = 32) (hiv : iv.length = 16) :
    decrypt aes key (iv ++ XORKeyStream (NewCFBEncrypter (aes key) iv) (base64Encode text))
      = .ok text := by
  rw [decrypt_append aes key iv _ hk hiv]
  simp only [NewCFBDecrypter, NewCFBEncrypter, XORKeyStream_decrypt_encrypt,
    base64Decode_encode]

/-! ## C1: cipher round trip -/

/-- C1. For every key of length 16, 24 or 32, every plaintext `P` and every 16-byte IV
that `encrypt` draws, `encrypt` succeeds and `decrypt` of its output returns exactly `P`
and no error. -/
theorem cipher_round_trip (aes : Bytes → Bytes → Bytes) (key P iv : Bytes)
    (hk : key.length = 16 ∨ key.length = 24 ∨ key.length = 32) (hiv : iv.length = 16) :
    ∃ c, encrypt aes (.ok iv) key P = .ok c ∧ decrypt aes key c = .ok P :=
  ⟨_, encrypt_ok aes key P iv hk, decrypt_encrypted aes key P iv hk hiv⟩

theorem cipher_round_trip_witness :
    (exampleKey.length = 16 ∨ exampleKey.length = 24 ∨ exampleKey.length = 32) ∧
    (List.replicate 16 (9 : Byte)).length = 16 ∧
    ∃ c, encrypt exampleAes (.ok (List.replicate 16 9)) exampleKey [1, 2, 3, 4] = .ok c ∧
      decrypt exampleAes exampleKey c = .ok [1, 2, 3, 4] :=
  ⟨by decide, by decide,
    cipher_round_trip exampleAes exampleKey [1, 2, 3, 4] (List.replicate 16 9) (by decide)
      (by decide)⟩

/-! ## C3: manifest order fidelity -/

theorem Split_ne_nil (sep : Byte) (s : Bytes) : Split sep s ≠ [] := by
  induction s with
  | nil => simp [Split]
  | cons c rest ih =>
    unfold Split
    split
    · simp
    · split <;> simp

theorem Split_of_not_mem (sep : Byte) (a : Bytes) (h : sep ∉ a) : Split sep a = [a] := by
  induction a with
  | nil => rfl
  | cons c rest ih =>
    have hc : c ≠ sep := fun e => h (by simp [e])
    have hr : sep ∉ rest := fun e => h (by simp [e])
    simp [Split, hc, ih hr]

theorem Split_append_sep (sep : Byte) (a rest : Bytes) (h : sep ∉ a) :
    Split sep (a ++ sep :: rest) = a :: Split sep rest := by
  induction a with
  | nil => simp [Split]
  | cons c a ih =>
    have hc : c ≠ sep := fun e => h (by simp [e])
    have hr : sep ∉ a := fun e => h (by simp [e])
    simp [Split, hc, ih hr]

theorem TrimSuffix_append_comma (t : Bytes) : TrimSuffix (t ++ [comma]) [comma] = t := by
  have h : ([comma] : Bytes).isSuffixOf (t ++ [comma]) = true := by
    rw [List.isSuffixOf_iff_suffix]
    exact List.suffix_append t [comma]
  simp [TrimSuffix, h]

theorem manifestText_foldl (start : Bytes) (addresses : List Bytes) :
    addresses.foldl (fun metadata encryptChunkCID => metadata ++ encryptChunkCID ++ [comma]) start
      = start ++ manifestText addresses := by
  induction addresses generalizing start with
  | nil => simp [manifestText]
  | cons a rest ih =>
    simp only [manifestText, List.foldl_cons, List.nil_append]
    rw [ih (start ++ a ++ [comma]), ih (a ++ [comma])]
    simp

theorem manifestText_cons (a : Bytes) (rest : List Bytes) :
    manifestText (a :: rest) = a ++ comma :: manifestText rest := by
  simp only [manifestText, List.foldl_cons, List.nil_append]
  rw [manifestText_foldl]
  simp [manifestText]

theorem manifestText_snoc (addresses : List Bytes) (a : Bytes) :
    manifestText (addresses ++ [a]) = manifestText addresses ++ a ++ [comma] := by
  simp [manifestText]

/-- The manifest text without its last comma splits into the addresses. -/
theorem Split_manifestText (a : Bytes) (rest : List Bytes)
    (h : ∀ x ∈ a :: rest, comma ∉ x) :
    ∃ t, manifestText (a :: rest) = t ++ [comma] ∧ Split comma t = a :: rest := by
  induction rest generalizing a with
  | nil =>
    refine ⟨a, by simp [manifestText], Split_of_not_mem comma a (h a (by simp))⟩
  | cons b rest ih =>
    obtain ⟨t, ht, hs⟩ := ih b (fun x hx => h x (by simp at hx ⊢; tauto))
    refine ⟨a ++ comma :: t, ?_, ?_⟩
    · rw [manifestText_cons, ht]; simp
    · rw [Split_append_sep comma a t (h a (by simp)), hs]

theorem parseManifest_manifestText (addresses : List Bytes) (hne : addresses ≠ [])
    (hc : ∀ a ∈ addresses, comma ∉ a) :
    parseManifest (manifestText addresses) = addresses := by
  cases addresses with
  | nil => exact absurd rfl hne
  | cons a rest =>
    obtain ⟨t, ht, hs⟩ := Split_manifestText a rest hc
    rw [parseManifest, ht, TrimSuffix_append_comma, hs]

/-- C3. For every non-empty list of chunk addresses without `,` (empty addresses
included), the manifest text the store command writes is parsed by the download code
(`TrimSuffix` of one `,`, then `Split`) into exactly that list, in the same order. -/
theorem manifest_order_fidelity (addresses : List Bytes) (hne : addresses ≠ [])
    (hc : ∀ a ∈ addresses, comma ∉ a) :
    parseManifest (manifestText addresses) = addresses :=
  parseManifest_manifestText addresses hne hc

theorem manifest_order_fidelity_witness :
    ([ofString "Qa", [], ofString "Qb"] : List Bytes) ≠ [] ∧
    (∀ a ∈ ([ofString "Qa", [], ofString "Qb"] : List Bytes), comma ∉ a) ∧
    parseManifest (manifestText [ofString "Qa", [], ofString "Qb"])
      = [ofString "Qa", [], ofString "Qb"] :=
  ⟨by decide, by decide,
    manifest_order_fidelity [ofString "Qa", [], ofString "Qb"] (by decide) (by decide)⟩

/-! ## C4: locator round trip -/

theorem readLocator_packLocator (baseAddress c : Bytes) (h : baseAddress.length = 46) :
    readLocator (packLocator baseAddress c) = .returned (baseAddress, c) := by
  have h1 : ¬ (baseAddress ++ c).length ≤ 0 := by simp [h]
  have h2 : ¬ (baseAddress ++ c).length < 46 := by simp [h]
  have h3 : (baseAddress ++ c).take 46 = baseAddress := List.take_left' h
  have h4 : (baseAddress ++ c).drop 46 = c := List.drop_left' h
  simp only [readLocator, packLocator, NewReader, Reader.Read, h1, if_false, List.drop_zero,
    h2, h3, h, Nat.zero_add, h4]
  by_cases hc : (baseAddress ++ c).length ≤ 46
  · have hlen : c.length = 0 := by
      rw [List.length_append, h] at hc
      omega
    have hnil : c = [] := List.length_eq_zero.mp hlen
    subst hnil
    simp [h]
  · have hne : c ≠ [] := by
      intro e
      subst e
      simp [h] at hc
    simp [h, hne]

/-- C4. For every base address of exactly 46 bytes and every ciphertext `c` (the empty
one included), the two reads of `ConnectStorjReadDownloadData` on the token
`baseAddress ++ c` that the store command builds give exactly `(baseAddress, c)`. -/
theorem locator_round_trip (baseAddress c : Bytes) (h : baseAddress.length = 46) :
    readLocator (packLocator baseAddress c) = .returned (baseAddress, c) :=
  readLocator_packLocator baseAddress c h

theorem locator_round_trip_witness :
    (exampleCid []).length = 46 ∧
    readLocator (packLocator (exampleCid []) [1, 2, 3]) = .returned (exampleCid [], [1, 2, 3]) :=
  ⟨by decide, locator_round_trip (exampleCid []) [1, 2, 3] (by decide)⟩

/-! ## C5: chunk count -/

set_option maxRecDepth 1000000

/-- C5, at the file length 8 with chunk size 4: the store command makes
`8 / 4 + 1 = 3` chunks (the third is empty), uploads them and lists three addresses in the
manifest, where `ceil(8 / 4)` is 2. -/
theorem chunk_count_evenly_divisible :
    noOfChunkFiles (ofString "01234567").length 4 = 3 ∧ (8 + 4 - 1) / 4 = 2 ∧
    (chunkSlices 4 (noOfChunkFiles 8 4) (ofString "01234567")).1
      = [ofString "0123", ofString "4567", []] ∧
    (storeCommand (exampleEnv (ofString "01234567") 4 (fun _ => none)) 1 emptyWorld).exit
      = .returned none ∧
    ((storeCommand (exampleEnv (ofString "01234567") 4 (fun _ => none)) 1
      emptyWorld).world.connects.map (fun c => c.uploadComplete)) = [true, true, true, true] ∧
    ((storeCommand (exampleEnv (ofString "01234567") 4 (fun _ => none)) 1
      emptyWorld).world.uploads.getLast?.map (fun u => (parseManifest u.data).length)) = some 3 := by
  decide

/-! ## C6: chunking completeness -/

theorem chunkSlices_append (size n : Nat) (unread : Bytes) :
    (chunkSlices size n unread).1.flatten ++ (chunkSlices size n unread).2 = unread ∧
    (chunkSlices size n unread).2 = unread.drop (n * size) ∧
    ∀ s ∈ (chunkSlices size n unread).1, s.length ≤ size := by
  induction n generalizing unread with
  | zero => simp [chunkSlices]
  | succ n ih =>
    obtain ⟨h1, h2, h3⟩ := ih (unread.drop size)
    simp only [chunkSlices, NextBytes]
    refine ⟨?_, ?_, ?_⟩
    · simp only [List.flatten_cons, List.append_assoc, h1, List.take_append_drop]
    · rw [h2, List.drop_drop]
      congr 1
      ring
    · intro s hs
      simp only [List.mem_cons] at hs
      rcases hs with rfl | hs
      · simp [List.length_take]
      · exact h3 s hs

theorem chunkSlices_noOfChunkFiles (file : Bytes) (S : Nat) (hS : 0 < S) :
    (chunkSlices S (noOfChunkFiles file.length S) file).1.flatten = file ∧
    (chunkSlices S (noOfChunkFiles file.length S) file).2 = [] ∧
    ∀ s ∈ (chunkSlices S (noOfChunkFiles file.length S) file).1, s.length ≤ S := by
  obtain ⟨h1, h2, h3⟩ := chunkSlices_append S (noOfChunkFiles file.length S) file
  have hrest : (chunkSlices S (noOfChunkFiles file.length S) file).2 = [] := by
    rw [h2]
    apply List.drop_eq_nil_of_le
    unfold noOfChunkFiles
    have := Nat.lt_div_mul_add hS (a := file.length)
    calc file.length ≤ file.length / S * S + S := by omega
      _ = (file.length / S + 1) * S := by ring
  refine ⟨?_, hrest, h3⟩
  rw [hrest, List.append_nil] at h1
  exact h1

/-! ## C7: bounded retry -/

theorem retryLoop_all_fail (client : Nat → Option GoError) (bucket path data : Bytes) (n : Nat)
    (w : World) (err : Option GoError) (c : Bool) (hn : 0 < n)
    (hfail : ∀ j < n, client (w.uploads.length + j) ≠ none) :
    ∃ w1, retryLoop client bucket path data n w err c
        = (client (w.uploads.length + n - 1), c, w1) ∧
      w1.uploads.length = w.uploads.length + n ∧ w1.objects = w.objects ∧
      w1.connects = w.connects ∧ w1.added = w.added ∧ w1.shareable = w.shareable := by
  induction n generalizing w err with
  | zero => exact absurd hn (lt_irrefl 0)
  | succ n ih =>
    have h0 := hfail 0 (Nat.succ_pos n)
    rw [Nat.add_zero] at h0
    obtain ⟨e, he⟩ := Option.ne_none_iff_exists'.mp h0
    by_cases hz : n = 0
    · subst hz
      refine ⟨{ w with uploads := w.uploads ++ [⟨bucket, path, data, some e⟩] }, ?_, ?_⟩
      · simp [retryLoop, UploadObject, he]
      · simp
    · have hfail1 : ∀ j < n,
          client (({ w with uploads := w.uploads ++ [⟨bucket, path, data, some e⟩] } :
            World).uploads.length + j) ≠ none := by
        intro j hj
        have := hfail (j + 1) (Nat.succ_lt_succ hj)
        simpa [Nat.add_assoc, Nat.add_comm 1 j] using this
      obtain ⟨w1, h1, h2, h3, h4, h5, h6⟩ :=
        ih { w with uploads := w.uploads ++ [⟨bucket, path, data, some e⟩] } (some e)
          (Nat.pos_of_ne_zero hz) hfail1
      refine ⟨w1, ?_, ?_, h3, h4, h5, h6⟩
      · simp only [retryLoop, UploadObject, he]
        rw [h1]
        simp only [List.length_append, List.length_singleton]
        congr 2
        omega
      · rw [h2]
        simp only [List.length_append, List.length_singleton]
        omega

theorem retryLoop_success (client : Nat → Option GoError) (bucket path data : Bytes)
    (n k : Nat) (w : World) (err : Option GoError) (c : Bool) (hk : k < n)
    (hfail : ∀ j < k, client (w.uploads.length + j) ≠ none)
    (hsucc : client (w.uploads.length + k) = none) :
    ∃ w1, retryLoop client bucket path data n w err c = (none, true, w1) ∧
      w1.uploads.length = w.uploads.length + k + 1 ∧
      w1.objects = w.objects.put bucket path data ∧
      w1.connects = w.connects ∧ w1.added = w.added ∧ w1.shareable = w.shareable := by
  induction n generalizing w err k with
  | zero => exact absurd hk (Nat.not_lt_zero k)
  | succ n ih =>
    cases k with
    | zero =>
      rw [Nat.add_zero] at hsucc
      refine ⟨{ w with uploads := w.uploads ++ [⟨bucket, path, data, none⟩],
                       objects := w.objects.put bucket path data }, ?_, ?_⟩
      · simp [retryLoop, UploadObject, hsucc]
      · simp
    | succ k =>
      have h0 := hfail 0 (Nat.succ_pos k)
      rw [Nat.add_zero] at h0
      obtain ⟨e, he⟩ := Option.ne_none_iff_exists'.mp h0
      have hfail1 : ∀ j < k,
          client (({ w with uploads := w.uploads ++ [⟨bucket, path, data, some e⟩] } :
            World).uploads.length + j) ≠ none := by
        intro j hj
        have := hfail (j + 1) (Nat.succ_lt_succ hj)
        simpa [Nat.add_assoc, Nat.add_comm 1 j] using this
      have hsucc1 : client (({ w with uploads := w.uploads ++ [⟨bucket, path, data, some e⟩] } :
            World).uploads.length + k) = none := by
        simpa [Nat.add_assoc, Nat.add_comm 1 k] using hsucc
      obtain ⟨w1, h1, h2, h3, h4, h5, h6⟩ :=
        ih k { w with uploads := w.uploads ++ [⟨bucket, path, data, some e⟩] } (some e)
          (Nat.lt_of_succ_lt_succ hk) hfail1 hsucc1
      refine ⟨w1, ?_, ?_, h3, h4, h5, h6⟩
      · simp only [retryLoop, UploadObject, he]
        exact h1
      · rw [h2]
        simp only [List.length_append, List.length_singleton]
        omega

theorem checkSlash_of_ne_nil (uploadPath : Bytes) (h : uploadPath ≠ []) :
    ∃ p, checkSlash uploadPath = some p ∧ p ≠ [] ∧ p.getLast? = some slash ∧
      (uploadPath.getLast? = some slash → p = uploadPath) ∧
      (uploadPath.getLast? ≠ some slash → p = uploadPath ++ [slash]) := by
  by_cases hs : uploadPath.getLast? = some slash
  · exact ⟨uploadPath, by simp [checkSlash, h, hs], h, hs, fun _ => rfl, fun h2 => absurd hs h2⟩
  · refine ⟨uploadPath ++ [slash], by simp [checkSlash, h, hs], by simp, by simp,
      fun h2 => absurd h2 hs, fun _ => rfl⟩

theorem ConnectUpload_success (client : Nat → Option GoError) (DEBUG : Bool)
    (fuel : Nat) (w : World) (bucket data databaseName : Bytes) (fileNamesDEBUG : List Bytes)
    (configStorj : ConfigStorj) (k : Nat) (p : Bytes)
    (hp : checkSlash configStorj.UploadPath = some p) (hk : k < 5)
    (hfail : ∀ j < k, client (w.uploads.length + j) ≠ none)
    (hsucc : client (w.uploads.length + k) = none) :
    ∃ w1, ConnectUpload client DEBUG (fuel + 1) w bucket data databaseName fileNamesDEBUG
        configStorj
        = ⟨.returned (if DEBUG then fileNamesDEBUG ++ [databaseName] else fileNamesDEBUG, true),
            w1⟩ ∧
      w1.uploads.length = w.uploads.length + k + 1 ∧
      w1.objects = w.objects.put bucket (p ++ databaseName) data ∧
      w1.connects = w.connects ++ [⟨databaseName, true, w.uploads.length + k + 1⟩] ∧
      w1.added = w.added ∧ w1.shareable = w.shareable := by
  obtain ⟨w1, h1, h2, h3, h4, h5, h6⟩ := retryLoop_success client bucket (p ++ databaseName)
    data 5 k w (some .errShortBuffer) false hk hfail hsucc
  refine ⟨{ w1 with connects := w1.connects ++ [⟨databaseName, true, w1.uploads.length⟩] },
    ?_, h2, h3, ?_, h5, h6⟩
  · simp [ConnectUpload, uploadRounds, hp, h1]
  · simp [h4, h2]

theorem ConnectUpload_exhausted (client : Nat → Option GoError) (DEBUG : Bool)
    (fuel : Nat) (w : World) (bucket data databaseName : Bytes) (fileNamesDEBUG : List Bytes)
    (configStorj : ConfigStorj) (p : Bytes)
    (hp : checkSlash configStorj.UploadPath = some p)
    (hfail : ∀ j < 5, client (w.uploads.length + j) ≠ none)
    (hesb : client (w.uploads.length + 4) ≠ some .errShortBuffer) :
    ∃ w1, ConnectUpload client DEBUG (fuel + 1) w bucket data databaseName fileNamesDEBUG
        configStorj = ⟨.returned ([], false), w1⟩ ∧
      w1.uploads.length = w.uploads.length + 5 ∧
      w1.objects = w.objects ∧
      w1.connects = w.connects ++ [⟨databaseName, false, w.uploads.length + 5⟩] ∧
      w1.added = w.added ∧ w1.shareable = w.shareable := by
  obtain ⟨w1, h1, h2, h3, h4, h5, h6⟩ := retryLoop_all_fail client bucket (p ++ databaseName)
    data 5 w (some .errShortBuffer) false (by decide) hfail
  have hne : client (w.uploads.length + 4) ≠ none := hfail 4 (by decide)
  refine ⟨{ w1 with connects := w1.connects ++ [⟨databaseName, false, w1.uploads.length⟩] },
    ?_, h2, h3, ?_, h5, h6⟩
  · simp [ConnectUpload, uploadRounds, hp, h1, hesb, hne]
  · simp [h4, h2]

/-- C7, as the code has it. For a non-empty upload path and every object-store client:
when the first `k` attempts of one call of `ConnectUpload` fail and the next one succeeds
(`k < 5`), the call makes exactly `k + 1` attempts and returns `uploadComplete = true`;
when the first five fail and the fifth error is not `io.ErrShortBuffer` (`k = 5`), it makes
exactly five attempts and returns `uploadComplete = false`. -/
theorem ConnectUpload_bounded_retry (client : Nat → Option GoError) (DEBUG : Bool)
    (fuel : Nat) (w : World) (bucket data databaseName : Bytes) (fileNamesDEBUG : List Bytes)
    (configStorj : ConfigStorj) (k : Nat)
    (hpath : configStorj.UploadPath ≠ []) (hk : k ≤ 5)
    (hfail : ∀ j < k, client (w.uploads.length + j) ≠ none)
    (hsucc : k < 5 → client (w.uploads.length + k) = none)
    (hesb : k = 5 → client (w.uploads.length + 4) ≠ some .errShortBuffer) :
    ∃ file w1, ConnectUpload client DEBUG (fuel + 1) w bucket data databaseName fileNamesDEBUG
        configStorj = ⟨.returned (file, decide (k < 5)), w1⟩ ∧
      w1.uploads.length = w.uploads.length + min (k + 1) 5 := by
  obtain ⟨p, hp, -, -, -, -⟩ := checkSlash_of_ne_nil configStorj.UploadPath hpath
  by_cases h5 : k < 5
  · obtain ⟨w1, h1, h2, -⟩ := ConnectUpload_success client DEBUG fuel w bucket data
      databaseName fileNamesDEBUG configStorj k p hp h5 hfail (hsucc h5)
    refine ⟨if DEBUG then fileNamesDEBUG ++ [databaseName] else fileNamesDEBUG, w1, ?_, ?_⟩
    · rw [h1]
      simp [h5]
    · rw [h2]
      omega
  · have hk5 : k = 5 := by omega
    subst hk5
    obtain ⟨w1, h1, h2, -⟩ := ConnectUpload_exhausted client DEBUG fuel w bucket data
      databaseName fileNamesDEBUG configStorj p hp hfail (hesb rfl)
    refine ⟨[], w1, ?_, ?_⟩
    · rw [h1]
      simp
    · rw [h2]
      rfl

theorem ConnectUpload_bounded_retry_witness :
    (exampleEnv [] 4 failingClient).configStorj.UploadPath ≠ [] ∧ (2 : Nat) ≤ 5 ∧
    (∀ j < 2, (fun n => if n < 2 then some (GoError.other 1) else none)
      (emptyWorld.uploads.length + j) ≠ none) ∧
    ∃ file w1, ConnectUpload (fun n => if n < 2 then some (GoError.other 1) else none) false
        (0 + 1) emptyWorld (ofString "b") [1, 2, 3] (ofString "name") []
        (exampleEnv [] 4 failingClient).configStorj
        = ⟨.returned (file, decide (2 < 5)), w1⟩ ∧
      w1.uploads.length = emptyWorld.uploads.length + min (2 + 1) 5 :=
  ⟨by decide, by decide, by decide,
    ConnectUpload_bounded_retry (fun n => if n < 2 then some (GoError.other 1) else none) false
      0 emptyWorld (ofString "b") [1, 2, 3] (ofString "name") []
      (exampleEnv [] 4 failingClient).configStorj 2 (by decide) (by decide) (by decide)
      (by decide) (by decide)⟩

/-- C7 as stated fails: with a client whose first five uploads fail with
`io.ErrShortBuffer`, one call of `ConnectUpload` makes a sixth attempt, and it returns
`uploadComplete = true` although the first five attempts all failed. -/
theorem ConnectUpload_sixth_attempt :
    (∀ j < 5, shortBufferClient j ≠ none) ∧
    (ConnectUpload shortBufferClient false 2 emptyWorld (ofString "b") [1, 2, 3]
      (ofString "name") [] ⟨ofString "b", ofString "p", exampleKey⟩).exit
      = .returned ([], true) ∧
    ((ConnectUpload shortBufferClient false 2 emptyWorld (ofString "b") [1, 2, 3]
      (ofString "name") [] ⟨ofString "b", ofString "p", exampleKey⟩).world.uploads.map
        (fun u => u.err))
      = [some .errShortBuffer, some .errShortBuffer, some .errShortBuffer,
          some .errShortBuffer, some .errShortBuffer, none] := by
  decide

/-! ## C8: retry exhaustion stops the pipeline -/

theorem retryLoop_frame (client : Nat → Option GoError) (bucket path data : Bytes) (n : Nat)
    (w : World) (err : Option GoError) (c : Bool) :
    (retryLoop client bucket path data n w err c).2.2.connects = w.connects ∧
    (retryLoop client bucket path data n w err c).2.2.added = w.added ∧
    (retryLoop client bucket path data n w err c).2.2.shareable = w.shareable := by
  induction n generalizing w err with
  | zero => simp [retryLoop]
  | succ n ih =>
    cases h : client w.uploads.length with
    | none => simp [retryLoop, UploadObject, h]
    | some e =>
      simp only [retryLoop, UploadObject, h]
      exact ih _ _

theorem uploadRounds_frame (client : Nat → Option GoError) (DEBUG : Bool)
    (bucket data databaseName : Bytes) (fuel : Nat) (uploadPath : Bytes) (w : World)
    (file : List Bytes) (c : Bool) :
    (uploadRounds client DEBUG bucket data databaseName fuel uploadPath w file c).world.connects
      = w.connects ∧
    (uploadRounds client DEBUG bucket data databaseName fuel uploadPath w file c).world.added
      = w.added ∧
    (uploadRounds client DEBUG bucket data databaseName fuel uploadPath w file c).world.shareable
      = w.shareable := by
  induction fuel generalizing uploadPath w file c with
  | zero => simp [uploadRounds]
  | succ fuel ih =>
    cases hp : checkSlash uploadPath with
    | none => simp [uploadRounds, hp]
    | some p =>
      obtain ⟨f1, f2, f3⟩ := retryLoop_frame client bucket (p ++ databaseName) data 5 w
        (some .errShortBuffer) c
      rcases hr : retryLoop client bucket (p ++ databaseName) data 5 w
        (some .errShortBuffer) c with ⟨err, c1, w1⟩
      rw [hr] at f1 f2 f3
      simp only [uploadRounds, hp, hr]
      split
      · obtain ⟨g1, g2, g3⟩ := ih p w1 (if DEBUG then file ++ [databaseName] else file) c1
        exact ⟨g1.trans f1, g2.trans f2, g3.trans f3⟩
      · exact ⟨f1, f2, f3⟩

/-- What one call of `ConnectUpload` leaves of the logs: one more entry of `connects` when
it returns, none otherwise; `added` and `shareable` are untouched. -/
theorem ConnectUpload_frame (client : Nat → Option GoError) (DEBUG : Bool)
    (fuel : Nat) (w : World) (bucket data databaseName : Bytes) (fileNamesDEBUG : List Bytes)
    (configStorj : ConfigStorj) :
    (ConnectUpload client DEBUG fuel w bucket data databaseName fileNamesDEBUG
      configStorj).world.added = w.added ∧
    (ConnectUpload client DEBUG fuel w bucket data databaseName fileNamesDEBUG
      configStorj).world.shareable = w.shareable ∧
    ((∃ file c w1, ConnectUpload client DEBUG fuel w bucket data databaseName fileNamesDEBUG
        configStorj = ⟨.returned (file, c), w1⟩ ∧
        w1.connects = w.connects ++ [⟨databaseName, c, w1.uploads.length⟩]) ∨
     ((∀ x, (ConnectUpload client DEBUG fuel w bucket data databaseName fileNamesDEBUG
        configStorj).exit ≠ .returned x) ∧
      (ConnectUpload client DEBUG fuel w bucket data databaseName fileNamesDEBUG
        configStorj).world.connects = w.connects)) := by
  obtain ⟨f1, f2, f3⟩ := uploadRounds_frame client DEBUG bucket data databaseName fuel
    configStorj.UploadPath w fileNamesDEBUG false
  rcases hr : uploadRounds client DEBUG bucket data databaseName fuel configStorj.UploadPath w
    fileNamesDEBUG false with ⟨exit0, w1⟩
  rw [hr] at f1 f2 f3
  simp only at f1 f2 f3
  cases exit0 with
  | returned a =>
    obtain ⟨err, file, c⟩ := a
    by_cases he : err = none
    · refine ⟨by simp [ConnectUpload, hr, he, f2], by simp [ConnectUpload, hr, he, f3], ?_⟩
      left
      exact ⟨file, c,
        { w1 with connects := w1.connects ++ [⟨databaseName, c, w1.uploads.length⟩] },
        by simp [ConnectUpload, hr, he], by simp [f1]⟩
    · refine ⟨by simp [ConnectUpload, hr, he, f2], by simp [ConnectUpload, hr, he, f3], ?_⟩
      left
      exact ⟨[], c,
        { w1 with connects := w1.connects ++ [⟨databaseName, c, w1.uploads.length⟩] },
        by simp [ConnectUpload, hr, he], by simp [f1]⟩
  | fatal =>
    exact ⟨by simp [ConnectUpload, hr, f2], by simp [ConnectUpload, hr, f3],
      Or.inr ⟨by simp [ConnectUpload, hr], by simp [ConnectUpload, hr, f1]⟩⟩
  | panicked =>
    exact ⟨by simp [ConnectUpload, hr, f2], by simp [ConnectUpload, hr, f3],
      Or.inr ⟨by simp [ConnectUpload, hr], by simp [ConnectUpload, hr, f1]⟩⟩
  | running =>
    exact ⟨by simp [ConnectUpload, hr, f2], by simp [ConnectUpload, hr, f3],
      Or.inr ⟨by simp [ConnectUpload, hr], by simp [ConnectUpload, hr, f1]⟩⟩

/-- The entries the chunk loop adds to `connects`: one for every iteration that reaches the
return of `ConnectUpload`; a failed one is the last, and the command returns `errr` right
after it, with no further call of `UploadObject`. -/
theorem chunkLoop_connects (env : StoreEnv) (fuel : Nat) (encryptCID : Bytes) (n i : Nat)
    (unread metadata : Bytes) (files : List Bytes) (w : World) :
    ∃ new : List ConnectReturn,
      (chunkLoop env fuel encryptCID n i unread metadata files w).2.connects
        = w.connects ++ new ∧
      (chunkLoop env fuel encryptCID n i unread metadata files w).2.added = w.added ∧
      (chunkLoop env fuel encryptCID n i unread metadata files w).2.shareable = w.shareable ∧
      (∀ md fs, (chunkLoop env fuel encryptCID n i unread metadata files w).1 = .done md fs →
        new.length = n ∧ ∀ c ∈ new, c.uploadComplete = true) ∧
      (∀ j c, new.get? j = some c → c.uploadComplete = false →
        new.length = j + 1 ∧
        (chunkLoop env fuel encryptCID n i unread metadata files w).1
          = .stop (.returned env.errr) ∧
        (chunkLoop env fuel encryptCID n i unread metadata files w).2.uploads.length
          = c.uploadsMade) := by
  induction n generalizing i unread metadata files w with
  | zero =>
    refine ⟨[], by simp [chunkLoop], by simp [chunkLoop], by simp [chunkLoop], ?_, ?_⟩
    · intro md fs _
      simp
    · intro j c hj
      simp at hj
  | succ n ih =>
    cases henc : encrypt env.aes (env.rand i) chunkKey (unread.take (NewSizeSplitter env.ChunkSize)) with
    | error e =>
      have hstep : chunkLoop env fuel encryptCID (n + 1) i unread metadata files w
          = (.stop .fatal, w) := by
        simp only [chunkLoop, NextBytes, henc]
      rw [hstep]
      refine ⟨[], by simp, rfl, rfl, ?_, ?_⟩
      · intro md fs h
        simp at h
      · intro j c hj
        simp at hj
    | ok encryptData =>
      have hf := ConnectUpload_frame env.client env.DEBUG fuel w env.configStorj.Bucket
        encryptData (encryptCID ++ [slash] ++ env.cid encryptData) files env.configStorj
      rcases hr : ConnectUpload env.client env.DEBUG fuel w env.configStorj.Bucket
        encryptData (encryptCID ++ [slash] ++ env.cid encryptData) files env.configStorj
        with ⟨exit0, w1⟩
      rw [hr] at hf
      obtain ⟨hf1, hf2, hf3⟩ := hf
      simp only at hf1 hf2
      cases exit0 with
      | returned a =>
        obtain ⟨files1, c⟩ := a
        have hcon : w1.connects = w.connects ++
            [⟨encryptCID ++ [slash] ++ env.cid encryptData, c, w1.uploads.length⟩] := by
          rcases hf3 with ⟨file, c2, w2, heq, hc⟩ | ⟨hx, -⟩
          · simp only [Run.mk.injEq, Outcome.returned.injEq, Prod.mk.injEq] at heq
            obtain ⟨⟨-, rfl⟩, rfl⟩ := heq
            exact hc
          · exact absurd rfl (hx (files1, c))
        cases c with
        | false =>
          have hstep : chunkLoop env fuel encryptCID (n + 1) i unread metadata files w
              = (.stop (.returned env.errr), w1) := by
            simp only [chunkLoop, NextBytes, henc, hr]
            simp
          rw [hstep]
          refine ⟨[⟨encryptCID ++ [slash] ++ env.cid encryptData, false, w1.uploads.length⟩],
            hcon, hf1, hf2, ?_, ?_⟩
          · intro md fs h
            simp at h
          · intro j c hj hc
            cases j with
            | zero =>
              simp only [List.get?_cons_zero, Option.some.injEq] at hj
              subst hj
              simp
            | succ j => simp at hj
        | true =>
          obtain ⟨new, g1, g2, g3, g4, g5⟩ := ih (i + 1) (unread.drop (NewSizeSplitter env.ChunkSize))
            (metadata ++ env.cid encryptData ++ [comma]) files1 w1
          have hstep : chunkLoop env fuel encryptCID (n + 1) i unread metadata files w
              = chunkLoop env fuel encryptCID n (i + 1) (unread.drop (NewSizeSplitter env.ChunkSize))
                (metadata ++ env.cid encryptData ++ [comma]) files1 w1 := by
            simp only [chunkLoop, NextBytes, henc, hr]
            simp
          rw [hstep]
          refine ⟨⟨encryptCID ++ [slash] ++ env.cid encryptData, true, w1.uploads.length⟩ :: new,
            by rw [g1, hcon]; simp, g2.trans hf1, g3.trans hf2, ?_, ?_⟩
          · intro md fs h
            obtain ⟨h1, h2⟩ := g4 md fs h
            refine ⟨by simp [h1], ?_⟩
            intro c hc
            simp only [List.mem_cons] at hc
            rcases hc with rfl | hc
            · rfl
            · exact h2 c hc
          · intro j c hj hc
            cases j with
            | zero =>
              simp only [List.get?_cons_zero, Option.some.injEq] at hj
              subst hj
              simp at hc
            | succ j =>
              simp only [List.get?_cons_succ] at hj
              obtain ⟨h1, h2, h3⟩ := g5 j c hj hc
              exact ⟨by simp [h1], h2, h3⟩
      | fatal =>
        obtain ⟨-, hc⟩ := hf3.resolve_left (by
          rintro ⟨file, c2, w2, heq, -⟩
          simp at heq)
        simp only at hc
        have hstep : chunkLoop env fuel encryptCID (n + 1) i unread metadata files w
            = (.stop .fatal, w1) := by
          simp only [chunkLoop, NextBytes, henc, hr]
        rw [hstep]
        refine ⟨[], by simp [hc], hf1, hf2, ?_, ?_⟩
        · intro md fs h
          simp at h
        · intro j c hj
          simp at hj
      | panicked =>
        obtain ⟨-, hc⟩ := hf3.resolve_left (by
          rintro ⟨file, c2, w2, heq, -⟩
          simp at heq)
        simp only at hc
        have hstep : chunkLoop env fuel encryptCID (n + 1) i unread metadata files w
            = (.stop .panicked, w1) := by
          simp only [chunkLoop, NextBytes, henc, hr]
        rw [hstep]
        refine ⟨[], by simp [hc], hf1, hf2, ?_, ?_⟩
        · intro md fs h
          simp at h
        · intro j c hj
          simp at hj
      | running =>
        obtain ⟨-, hc⟩ := hf3.resolve_left (by
          rintro ⟨file, c2, w2, heq, -⟩
          simp at heq)
        simp only at hc
        have hstep : chunkLoop env fuel encryptCID (n + 1) i unread metadata files w
            = (.stop .running, w1) := by
          simp only [chunkLoop, NextBytes, henc, hr]
        rw [hstep]
        refine ⟨[], by simp [hc], hf1, hf2, ?_, ?_⟩
        · intro md fs h
          simp at h
        · intro j c hj
          simp at hj

theorem getOpt_append_add {α : Type} (l new : List α) (i : Nat) :
    (l ++ new).get? (l.length + i) = new.get? i := by
  induction l with
  | nil => simp
  | cons a l ih =>
    have : (a :: l).length + i = (l.length + i) + 1 := by simp; omega
    rw [List.cons_append, this, List.get?_cons_succ, ih]

theorem getOpt_mem {α : Type} (l : List α) (i : Nat) (c : α) (h : l.get? i = some c) :
    c ∈ l := by
  induction l generalizing i with
  | nil => simp at h
  | cons a l ih =>
    cases i with
    | zero =>
      simp only [List.get?_cons_zero, Option.some.injEq] at h
      simp [h]
    | succ i =>
      simp only [List.get?_cons_succ] at h
      exact List.mem_cons_of_mem a (ih i h)

theorem getOpt_append_of_lt {α : Type} (l extra : List α) (i : Nat) (h : i < l.length) :
    (l ++ extra).get? i = l.get? i := by
  induction l generalizing i with
  | nil => simp at h
  | cons a l ih =>
    cases i with
    | zero => simp
    | succ i =>
      simp only [List.cons_append, List.get?_cons_succ]
      exact ih i (by simpa using h)

/-- After a chunk loop that ran to its end the store command only appends to `connects`. -/
theorem storeCommand_after_loop (env : StoreEnv) (fuel : Nat) (w w1 : World)
    (md : Bytes) (fs : List Bytes)
    (hl : chunkLoop env fuel (env.cid env.file)
      (noOfChunkFiles env.file.length env.ChunkSize) 0 env.file [] [] w = (.done md fs, w1)) :
    ∃ extra, (storeCommand env fuel w).world.connects = w1.connects ++ extra := by
  have hf := ConnectUpload_frame env.client env.DEBUG fuel w1 env.configStorj.Bucket md
    (env.cid env.file ++ [slash] ++ env.cid env.file ++ dotTxt) fs env.configStorj
  rcases hr : ConnectUpload env.client env.DEBUG fuel w1 env.configStorj.Bucket md
    (env.cid env.file ++ [slash] ++ env.cid env.file ++ dotTxt) fs env.configStorj
    with ⟨exit0, w2⟩
  rw [hr] at hf
  obtain ⟨-, -, hf3⟩ := hf
  have hcon : ∃ extra, w2.connects = w1.connects ++ extra := by
    rcases hf3 with ⟨file, c2, w3, heq, hc⟩ | ⟨-, hc⟩
    · simp only [Run.mk.injEq] at heq
      obtain ⟨-, rfl⟩ := heq
      exact ⟨_, hc⟩
    · exact ⟨[], by simpa using hc⟩
  obtain ⟨extra, hextra⟩ := hcon
  refine ⟨extra, ?_⟩
  rw [← hextra]
  simp only [storeCommand, hl, hr]
  cases exit0 with
  | returned a =>
    simp only
    cases Debug env.DEBUG w2.objects env.configStorj.Bucket
      (env.cid env.file ++ [slash] ++ env.cid env.file ++ dotTxt) env.configStorj
      env.debugFileOK with
    | returned u =>
      simp only
      cases checkSlash env.configStorj.UploadPath with
      | none => rfl
      | some uploadPath =>
        simp only
        cases encrypt env.aes (env.rand (noOfChunkFiles env.file.length env.ChunkSize))
          env.configStorj.Key
          (routingPayload env.configStorj.Bucket uploadPath env.lastFileName) with
        | error e => rfl
        | ok storjEncryptData => rfl
    | fatal => rfl
    | panicked => rfl
    | running => rfl
  | fatal => rfl
  | panicked => rfl
  | running => rfl

/-- When the call of `ConnectUpload` for chunk `i` returns `uploadComplete = false`, the
store command returns right there: that call is the last call of `ConnectUpload` (no later
chunk, no manifest), no `UploadObject` call follows it, and no locator is added to the
content store or printed. -/
theorem failed_connect_is_last (env : StoreEnv) (fuel : Nat) (w : World) (i : Nat)
    (c : ConnectReturn) (hi : i < noOfChunkFiles env.file.length env.ChunkSize)
    (hget : (storeCommand env fuel w).world.connects.get? (w.connects.length + i) = some c)
    (hfail : c.uploadComplete = false) :
    (storeCommand env fuel w).exit = .returned env.errr ∧
    (storeCommand env fuel w).world.connects.length = w.connects.length + i + 1 ∧
    (storeCommand env fuel w).world.uploads.length = c.uploadsMade ∧
    (storeCommand env fuel w).world.added = w.added ∧
    (storeCommand env fuel w).world.shareable = w.shareable := by
  obtain ⟨new, g1, g2, g3, g4, g5⟩ := chunkLoop_connects env fuel (env.cid env.file)
    (noOfChunkFiles env.file.length env.ChunkSize) 0 env.file [] [] w
  rcases hl : chunkLoop env fuel (env.cid env.file)
    (noOfChunkFiles env.file.length env.ChunkSize) 0 env.file [] [] w with ⟨e, w1⟩
  rw [hl] at g1 g2 g3 g4 g5
  simp only at g1 g2 g3 g4 g5
  cases e with
  | stop exit =>
    have hs : storeCommand env fuel w = ⟨exit, w1⟩ := by simp only [storeCommand, hl]
    rw [hs] at hget ⊢
    simp only at hget ⊢
    rw [g1, getOpt_append_add] at hget
    obtain ⟨h1, h2, h3⟩ := g5 i c hget hfail
    simp only [LoopEnd.stop.injEq] at h2
    exact ⟨h2, by rw [g1, List.length_append, h1]; omega, h3, g2, g3⟩
  | done md fs =>
    obtain ⟨h1, h2⟩ := g4 md fs rfl
    obtain ⟨extra, hextra⟩ := storeCommand_after_loop env fuel w w1 md fs hl
    rw [hextra, g1, List.append_assoc, getOpt_append_add,
      getOpt_append_of_lt new extra i (by rw [h1]; exact hi)] at hget
    have := h2 c (getOpt_mem new i c hget)
    rw [hfail] at this
    exact absurd this (by decide)

theorem failed_connect_is_last_example :
    1 < noOfChunkFiles (exampleEnv (ofString "0123456789") 4
      (fun n => if n = 0 then none else some (.other 1))).file.length
      (exampleEnv (ofString "0123456789") 4
        (fun n => if n = 0 then none else some (.other 1))).ChunkSize ∧
    (storeCommand (exampleEnv (ofString "0123456789") 4
      (fun n => if n = 0 then none else some (.other 1))) 1 emptyWorld).world.connects.get?
        (emptyWorld.connects.length + 1)
      = some ⟨exampleCid (ofString "0123456789") ++ [slash] ++
          exampleCid ((List.replicate 16 2) ++ XORKeyStream
            (NewCFBEncrypter (exampleAes chunkKey) (List.replicate 16 2))
            (base64Encode (ofString "4567"))), false, 6⟩ ∧
    (storeCommand (exampleEnv (ofString "0123456789") 4
      (fun n => if n = 0 then none else some (.other 1))) 1 emptyWorld).exit
      = .returned none ∧
    (storeCommand (exampleEnv (ofString "0123456789") 4
      (fun n => if n = 0 then none else some (.other 1))) 1 emptyWorld).world.connects.length
      = emptyWorld.connects.length + 1 + 1 ∧
    (storeCommand (exampleEnv (ofString "0123456789") 4
      (fun n => if n = 0 then none else some (.other 1))) 1 emptyWorld).world.uploads.length
      = 6 ∧
    (storeCommand (exampleEnv (ofString "0123456789") 4
      (fun n => if n = 0 then none else some (.other 1))) 1 emptyWorld).world.added
      = emptyWorld.added ∧
    (storeCommand (exampleEnv (ofString "0123456789") 4
      (fun n => if n = 0 then none else some (.other 1))) 1 emptyWorld).world.shareable
      = emptyWorld.shareable :=
  ⟨by decide, by decide,
    failed_connect_is_last (exampleEnv (ofString "0123456789") 4
      (fun n => if n = 0 then none else some (.other 1))) 1 emptyWorld 1
      ⟨exampleCid (ofString "0123456789") ++ [slash] ++
          exampleCid ((List.replicate 16 2) ++ XORKeyStream
            (NewCFBEncrypter (exampleAes chunkKey) (List.replicate 16 2))
            (base64Encode (ofString "4567"))), false, 6⟩ (by decide) (by decide) rfl⟩

/-- The chunk loop over `a + b` iterations is the loop over the first `a` iterations, when
these run to their end, followed by the loop over the next `b`. -/
theorem chunkLoop_split (env : StoreEnv) (fuel : Nat) (encryptCID : Bytes) (a b i : Nat)
    (unread metadata : Bytes) (files : List Bytes) (w : World) (md : Bytes) (fs : List Bytes)
    (h : (chunkLoop env fuel encryptCID a i unread metadata files w).1 = .done md fs) :
    chunkLoop env fuel encryptCID (a + b) i unread metadata files w
      = chunkLoop env fuel encryptCID b (i + a)
          (unread.drop (a * NewSizeSplitter env.ChunkSize)) md fs
          (chunkLoop env fuel encryptCID a i unread metadata files w).2 := by
  induction a generalizing i unread metadata files w with
  | zero =>
    simp only [chunkLoop, LoopEnd.done.injEq] at h
    obtain ⟨h1, h2⟩ := h
    subst h1 h2
    simp [chunkLoop]
  | succ a ih =>
    have hab : a + 1 + b = (a + b) + 1 := by omega
    rw [hab]
    cases henc : encrypt env.aes (env.rand i) chunkKey
        (unread.take (NewSizeSplitter env.ChunkSize)) with
    | error e =>
      simp only [chunkLoop, NextBytes, henc] at h
      cases h
    | ok encryptData =>
      rcases hr : ConnectUpload env.client env.DEBUG fuel w env.configStorj.Bucket encryptData
        (encryptCID ++ [slash] ++ env.cid encryptData) files env.configStorj with ⟨exit0, w1⟩
      cases exit0 with
      | returned r =>
        obtain ⟨files1, flag⟩ := r
        cases flag with
        | false =>
          simp only [chunkLoop, NextBytes, henc, hr] at h
          simp at h
        | true =>
          have hstep : ∀ n, chunkLoop env fuel encryptCID (n + 1) i unread metadata files w
              = chunkLoop env fuel encryptCID n (i + 1)
                  (unread.drop (NewSizeSplitter env.ChunkSize))
                  (metadata ++ env.cid encryptData ++ [comma]) files1 w1 := by
            intro n
            simp only [chunkLoop, NextBytes, henc, hr]
            simp
          rw [hstep a] at h ⊢
          rw [hstep (a + b), ih (i + 1) _ _ _ _ h, List.drop_drop]
          have e1 : i + 1 + a = i + (a + 1) := by omega
          have e2 : NewSizeSplitter env.ChunkSize + a * NewSizeSplitter env.ChunkSize
              = (a + 1) * NewSizeSplitter env.ChunkSize := by
            rw [Nat.succ_mul, Nat.add_comm]
          rw [e1, e2]
      | fatal =>
        simp only [chunkLoop, NextBytes, henc, hr] at h
        cases h
      | panicked =>
        simp only [chunkLoop, NextBytes, henc, hr] at h
        cases h
      | running =>
        simp only [chunkLoop, NextBytes, henc, hr] at h
        cases h

/-! ## C9: what the store command returns after an exhausted upload -/

/-- C9, at a run in which the bucket was opened (`errr = nil`) and every attempt to upload
the first chunk fails: the store command makes five attempts, prints the failure and
returns `errr`, that is `nil`, to its caller. -/
theorem store_returns_nil_after_exhaustion :
    (exampleEnv (ofString "0123456789") 4 failingClient).errr = none ∧
    (storeCommand (exampleEnv (ofString "0123456789") 4 failingClient) 1 emptyWorld).exit
      = .returned none ∧
    ((storeCommand (exampleEnv (ofString "0123456789") 4 failingClient) 1
      emptyWorld).world.connects.map (fun c => c.uploadComplete)) = [false] ∧
    ((storeCommand (exampleEnv (ofString "0123456789") 4 failingClient) 1
      emptyWorld).world.uploads.map (fun u => u.err))
      = [some (.other 1), some (.other 1), some (.other 1), some (.other 1), some (.other 1)] := by
  decide

/-! ## C10: the locator after an exhausted manifest upload -/

/-- C10, at a run in which the three chunk uploads succeed and every attempt to upload the
manifest fails: the store command ignores the result of that `ConnectUpload`, adds the
locator to the content store, prints its hash and returns `nil`; the manifest object is
not in the bucket. -/
theorem locator_after_failed_manifest :
    ((storeCommand (exampleEnv (ofString "0123456789") 4 manifestFailingClient) 1
      emptyWorld).world.connects.map (fun c => c.uploadComplete)) = [true, true, true, false] ∧
    (storeCommand (exampleEnv (ofString "0123456789") 4 manifestFailingClient) 1
      emptyWorld).world.uploads.length = 8 ∧
    (storeCommand (exampleEnv (ofString "0123456789") 4 manifestFailingClient) 1
      emptyWorld).exit = .returned none ∧
    (storeCommand (exampleEnv (ofString "0123456789") 4 manifestFailingClient) 1
      emptyWorld).world.added.length = 1 ∧
    (storeCommand (exampleEnv (ofString "0123456789") 4 manifestFailingClient) 1
      emptyWorld).world.shareable.length = 1 ∧
    (storeCommand (exampleEnv (ofString "0123456789") 4 manifestFailingClient) 1
      emptyWorld).world.objects (ofString "b")
        (ofString "p/" ++ exampleCid (ofString "0123456789") ++ [slash] ++
          exampleCid (ofString "0123456789") ++ dotTxt) = none := by
  decide

/-! ## C2: end-to-end round trip -/

theorem chunkKey_length : chunkKey.length = 16 ∨ chunkKey.length = 24 ∨ chunkKey.length = 32 := by
  decide

theorem chunkCiphertextsFrom_decrypt (env : StoreEnv)
    (hrand : ∀ i, ∃ iv, env.rand i = .ok iv ∧ iv.length = 16) (n i : Nat) (unread : Bytes) :
    (chunkCiphertextsFrom env n i unread).length = n ∧
    (chunkCiphertextsFrom env n i unread).map (decrypt env.aes chunkKey)
      = (chunkSlices (NewSizeSplitter env.ChunkSize) n unread).1.map .ok := by
  induction n generalizing i unread with
  | zero => simp [chunkCiphertextsFrom, chunkSlices]
  | succ n ih =>
    obtain ⟨iv, hiv, hlen⟩ := hrand i
    obtain ⟨h1, h2⟩ := ih (i + 1) (unread.drop (NewSizeSplitter env.ChunkSize))
    have henc := encrypt_ok env.aes chunkKey (unread.take (NewSizeSplitter env.ChunkSize)) iv chunkKey_length
    have hdec := decrypt_encrypted env.aes chunkKey (unread.take (NewSizeSplitter env.ChunkSize)) iv
      chunkKey_length hlen
    simp only [chunkCiphertextsFrom, NextBytes, hiv, henc, chunkSlices, List.length_cons, h1,
      List.map_cons, hdec, h2, and_self]

theorem putChunks_append (cid : Bytes → Bytes) (bucket objectPrefix : Bytes) (o : Objects)
    (cts : List Bytes) (ct : Bytes) :
    putChunks cid bucket objectPrefix o (cts ++ [ct])
      = (putChunks cid bucket objectPrefix o cts).put bucket (objectPrefix ++ cid ct) ct := by
  induction cts generalizing o with
  | nil => rfl
  | cons a cts ih => simp [putChunks, ih]

/-- Every uploaded chunk is found under its address when the address function is
injective on the uploaded ciphertexts. -/
theorem putChunks_lookup (cid : Bytes → Bytes) (bucket objectPrefix : Bytes) (o : Objects)
    (cts : List Bytes)
    (hinj : ∀ x ∈ cts, ∀ y ∈ cts, cid x = cid y → x = y) (ct : Bytes) (hct : ct ∈ cts) :
    putChunks cid bucket objectPrefix o cts bucket (objectPrefix ++ cid ct) = some ct := by
  induction cts using List.reverseRecOn with
  | nil => simp at hct
  | append_singleton cts last ih =>
    rw [putChunks_append]
    by_cases hk : cid ct = cid last
    · have : ct = last := hinj ct hct last (by simp) hk
      subst this
      simp [Objects.put]
    · have hne : ct ≠ last := fun e => hk (by rw [e])
      have hmem : ct ∈ cts := by
        simp only [List.mem_append, List.mem_singleton] at hct
        exact hct.resolve_right hne
      have hih := ih (fun x hx y hy => hinj x (by simp [hx]) y (by simp [hy])) hmem
      simp only [Objects.put, List.append_cancel_left_eq, hk, and_false, if_false]
      exact hih

/-- The chunk loop when every upload succeeds at once: it runs to its end, writes the
manifest text of the chunk addresses and leaves every ciphertext in the bucket. -/
theorem chunkLoop_all_succeed (env : StoreEnv) (fuel : Nat) (encryptCID p : Bytes)
    (hp : checkSlash env.configStorj.UploadPath = some p)
    (hclient : ∀ n, env.client n = none)
    (hrand : ∀ i, ∃ iv, env.rand i = .ok iv ∧ iv.length = 16)
    (n i : Nat) (unread metadata : Bytes) (files : List Bytes) (w : World) :
    ∃ files1 w1,
      chunkLoop env (fuel + 1) encryptCID n i unread metadata files w
        = (.done (metadata ++ manifestText ((chunkCiphertextsFrom env n i unread).map env.cid))
            files1, w1) ∧
      w1.objects = putChunks env.cid env.configStorj.Bucket (p ++ encryptCID ++ [slash])
        w.objects (chunkCiphertextsFrom env n i unread) ∧
      w1.added = w.added ∧ w1.shareable = w.shareable := by
  induction n generalizing i unread metadata files w with
  | zero =>
    exact ⟨files, w, by simp [chunkLoop, chunkCiphertextsFrom, manifestText], rfl, rfl, rfl⟩
  | succ n ih =>
    obtain ⟨iv, hiv, hlen⟩ := hrand i
    have henc := encrypt_ok env.aes chunkKey (unread.take (NewSizeSplitter env.ChunkSize)) iv chunkKey_length
    rw [← hiv] at henc
    obtain ⟨w1, hr, -, ho, -, ha, hs⟩ := ConnectUpload_success env.client env.DEBUG fuel w
      env.configStorj.Bucket
      (iv ++ XORKeyStream (NewCFBEncrypter (env.aes chunkKey) iv)
        (base64Encode (unread.take (NewSizeSplitter env.ChunkSize))))
      (encryptCID ++ [slash] ++ env.cid (iv ++ XORKeyStream (NewCFBEncrypter (env.aes chunkKey) iv)
        (base64Encode (unread.take (NewSizeSplitter env.ChunkSize)))))
      files env.configStorj 0 p hp (by decide) (fun j hj => absurd hj (Nat.not_lt_zero j))
      (hclient _)
    obtain ⟨files2, w2, g1, g2, g3, g4⟩ := ih (i + 1) (unread.drop (NewSizeSplitter env.ChunkSize))
      (metadata ++ env.cid (iv ++ XORKeyStream (NewCFBEncrypter (env.aes chunkKey) iv)
        (base64Encode (unread.take (NewSizeSplitter env.ChunkSize)))) ++ [comma])
      (if env.DEBUG then files ++ [encryptCID ++ [slash] ++
        env.cid (iv ++ XORKeyStream (NewCFBEncrypter (env.aes chunkKey) iv)
          (base64Encode (unread.take (NewSizeSplitter env.ChunkSize))))] else files) w1
    refine ⟨files2, w2, ?_, ?_, g3.trans ha, g4.trans hs⟩
    · simp only [chunkLoop, NextBytes, henc, hr, chunkCiphertextsFrom]
      simp only [ne_eq, not_true_eq_false, if_false, g1, List.map_cons, manifestText_cons]
      simp
    · simp only [chunkCiphertextsFrom, NextBytes, henc, putChunks]
      rw [g2, ho]
      simp

/-- The store command when every upload succeeds at once, without debug output: it
returns `nil`, leaves chunks and manifest in the bucket and adds the locator. -/
theorem storeCommand_all_succeed (env : StoreEnv) (fuel : Nat) (w : World) (p : Bytes)
    (hp : checkSlash env.configStorj.UploadPath = some p)
    (hclient : ∀ n, env.client n = none)
    (hrand : ∀ i, ∃ iv, env.rand i = .ok iv ∧ iv.length = 16)
    (hkey : env.configStorj.Key.length = 16 ∨ env.configStorj.Key.length = 24 ∨
      env.configStorj.Key.length = 32)
    (hdebug : env.DEBUG = false) :
    ∃ iv w2, iv.length = 16 ∧
      storeCommand env (fuel + 1) w = ⟨.returned none, w2⟩ ∧
      w2.added = w.added ++ [packLocator (env.cid env.file)
        (iv ++ XORKeyStream (NewCFBEncrypter (env.aes env.configStorj.Key) iv)
          (base64Encode (routingPayload env.configStorj.Bucket p env.lastFileName)))] ∧
      w2.objects = (putChunks env.cid env.configStorj.Bucket (p ++ env.cid env.file ++ [slash])
          w.objects (chunkCiphertexts env)).put env.configStorj.Bucket
        (p ++ (env.cid env.file ++ [slash] ++ env.cid env.file ++ dotTxt))
        (manifestText ((chunkCiphertexts env).map env.cid)) := by
  obtain ⟨files1, w1, g1, g2, g3, g4⟩ := chunkLoop_all_succeed env fuel (env.cid env.file) p hp
    hclient hrand (noOfChunkFiles env.file.length env.ChunkSize) 0 env.file [] [] w
  rw [List.nil_append] at g1
  obtain ⟨w2, hr, -, ho, -, ha, hs⟩ := ConnectUpload_success env.client env.DEBUG fuel w1
    env.configStorj.Bucket
    (manifestText ((chunkCiphertextsFrom env (noOfChunkFiles env.file.length env.ChunkSize) 0
      env.file).map env.cid))
    (env.cid env.file ++ [slash] ++ env.cid env.file ++ dotTxt) files1 env.configStorj 0 p hp
    (by decide) (fun j hj => absurd hj (Nat.not_lt_zero j)) (hclient _)
  obtain ⟨iv, hiv, hlen⟩ := hrand (noOfChunkFiles env.file.length env.ChunkSize)
  have henc := encrypt_ok env.aes env.configStorj.Key
    (routingPayload env.configStorj.Bucket p env.lastFileName) iv hkey
  rw [← hiv] at henc
  refine ⟨iv,
    { w2 with
      added := w2.added ++ [packLocator (env.cid env.file)
        (iv ++ XORKeyStream (NewCFBEncrypter (env.aes env.configStorj.Key) iv)
          (base64Encode (routingPayload env.configStorj.Bucket p env.lastFileName)))],
      shareable := w2.shareable ++ [env.cid (packLocator (env.cid env.file)
        (iv ++ XORKeyStream (NewCFBEncrypter (env.aes env.configStorj.Key) iv)
          (base64Encode (routingPayload env.configStorj.Bucket p env.lastFileName))))] },
    hlen, ?_, ?_, ?_⟩
  · rw [hdebug] at hr
    simp only [storeCommand, g1, hdebug, hr, Debug, hp, henc]
    simp
  · simp [ha, g3]
  · simp only [ho, g2, chunkCiphertexts]

theorem Split_routingPayload (bucket uploadPath lastFileName : Bytes)
    (hb : comma ∉ bucket) (hu : comma ∉ uploadPath) (hf : comma ∉ lastFileName) :
    Split comma (routingPayload bucket uploadPath lastFileName)
      = [bucket, uploadPath, lastFileName] := by
  have h : routingPayload bucket uploadPath lastFileName
      = bucket ++ comma :: (uploadPath ++ comma :: lastFileName) := by
    simp [routingPayload]
  rw [h, Split_append_sep comma bucket _ hb, Split_append_sep comma uploadPath _ hu,
    Split_of_not_mem comma lastFileName hf]

theorem checkSlash_comma (uploadPath p : Bytes) (h : checkSlash uploadPath = some p)
    (hc : comma ∉ uploadPath) : comma ∉ p := by
  unfold checkSlash at h
  split at h
  · simp at h
  · split at h
    · simp only [Option.some.injEq] at h
      subst h
      simp only [List.mem_append, List.mem_singleton, not_or]
      exact ⟨hc, by decide⟩
    · simp only [Option.some.injEq] at h
      subst h
      exact hc

/-- The download loop over the addresses of ciphertexts that are in the bucket and
decrypt to `slices`, when the output file can be opened and written: it returns `nil`, has
appended the slices in order and has opened exactly the objects of the addresses. -/
theorem downloadLoop_all (env : DownloadEnv) (cid : Bytes → Bytes)
    (bucket objectPrefix name : Bytes) (cts slices : List Bytes)
    (hdec : cts.map (decrypt env.aes chunkKey) = slices.map .ok)
    (hobj : ∀ ct ∈ cts, env.objects bucket (objectPrefix ++ cid ct) = some ct)
    (hopen : env.openFile name = none) (hwrite : env.writeOK = true)
    (w : DownloadWorld) :
    (downloadLoop env bucket objectPrefix name (cts.map cid) w).exit = .returned none ∧
    (downloadLoop env bucket objectPrefix name (cts.map cid) w).world.disk name
      = (if cts = [] then w.disk name else some ((w.disk name).getD [] ++ slices.flatten)) ∧
    (downloadLoop env bucket objectPrefix name (cts.map cid) w).world.calls
      = w.calls ++ cts.map (fun ct => StorjCall.openObject bucket (objectPrefix ++ cid ct)) := by
  induction cts generalizing slices w with
  | nil => simp [downloadLoop]
  | cons ct cts ih =>
    cases slices with
    | nil => simp at hdec
    | cons a rest =>
      simp only [List.map_cons, List.cons.injEq] at hdec
      obtain ⟨hd, hrest⟩ := hdec
      have ho := hobj ct (by simp)
      obtain ⟨h1, h2, h3⟩ := ih rest hrest (fun x hx => hobj x (by simp [hx]))
        { disk := appendFile w.disk name a,
          calls := w.calls ++ [.openObject bucket (objectPrefix ++ cid ct)] }
      simp only [List.map_cons, downloadLoop, ho, hd, hopen, hwrite, if_true]
      refine ⟨h1, ?_, ?_⟩
      · rw [h2]
        by_cases hn : cts = []
        · subst hn
          cases rest with
          | nil => simp [appendFile]
          | cons b rest => simp at hrest
        · simp [appendFile, hn]
      · rw [h3]
        simp

/-- The download on the locator of a store run, for the objects that run left: it returns
`nil`, the output file holds the slices of the chunk loop in order, and the objects it has
opened are the manifest and then every chunk, under the keys of the store run. -/
theorem download_of_store (env : StoreEnv) (denv : DownloadEnv) (dw : DownloadWorld)
    (p iv : Bytes) (o : Objects)
    (hcb : comma ∉ env.configStorj.Bucket) (hcp : comma ∉ p)
    (hrand : ∀ i, ∃ iv, env.rand i = .ok iv ∧ iv.length = 16)
    (hcid : ∀ x, (env.cid x).length = 46 ∧ comma ∉ env.cid x)
    (hinj : ∀ x ∈ chunkCiphertexts env, ∀ y ∈ chunkCiphertexts env,
      env.cid x = env.cid y → x = y)
    (hkey : env.configStorj.Key.length = 16 ∨ env.configStorj.Key.length = 24 ∨
      env.configStorj.Key.length = 32)
    (hiv : iv.length = 16)
    (hdkey : denv.Key = env.configStorj.Key) (haes : denv.aes = env.aes)
    (hdir : denv.dirOK = true) (hconn : denv.connect env.configStorj.Bucket = .opened)
    (hopen : denv.openFile
      (denv.DownloadPath ++ [slash] ++ (Split comma env.lastFileName).headD []) = none)
    (hwrite : denv.writeOK = true)
    (hobj : denv.objects = (putChunks env.cid env.configStorj.Bucket
          (p ++ env.cid env.file ++ [slash]) o (chunkCiphertexts env)).put
        env.configStorj.Bucket
        (p ++ (env.cid env.file ++ [slash] ++ env.cid env.file ++ dotTxt))
        (manifestText ((chunkCiphertexts env).map env.cid))) :
    (ConnectStorjReadDownloadData denv dw (packLocator (env.cid env.file)
      (iv ++ XORKeyStream (NewCFBEncrypter (env.aes env.configStorj.Key) iv)
        (base64Encode (routingPayload env.configStorj.Bucket p env.lastFileName))))).exit
      = .returned none ∧
    (ConnectStorjReadDownloadData denv dw (packLocator (env.cid env.file)
      (iv ++ XORKeyStream (NewCFBEncrypter (env.aes env.configStorj.Key) iv)
        (base64Encode (routingPayload env.configStorj.Bucket p env.lastFileName))))).world.disk
        (denv.DownloadPath ++ [slash] ++ (Split comma env.lastFileName).headD [])
      = some (chunkSlices (NewSizeSplitter env.ChunkSize)
          (noOfChunkFiles env.file.length env.ChunkSize) env.file).1.flatten ∧
    (ConnectStorjReadDownloadData denv dw (packLocator (env.cid env.file)
      (iv ++ XORKeyStream (NewCFBEncrypter (env.aes env.configStorj.Key) iv)
        (base64Encode (routingPayload env.configStorj.Bucket p env.lastFileName))))).world.calls
      = dw.calls ++ [.connect env.configStorj.Bucket,
          .openObject env.configStorj.Bucket
            (p ++ (env.cid env.file ++ [slash] ++ env.cid env.file ++ dotTxt))] ++
        (chunkCiphertexts env).map (fun ct => StorjCall.openObject env.configStorj.Bucket
          (p ++ (env.cid env.file ++ [slash] ++ env.cid ct))) := by
  obtain ⟨hlen, hdec⟩ := chunkCiphertextsFrom_decrypt env hrand
    (noOfChunkFiles env.file.length env.ChunkSize) 0 env.file
  have hne : chunkCiphertexts env ≠ [] := by
    intro e
    have : (chunkCiphertexts env).length = 0 := by rw [e]; rfl
    rw [chunkCiphertexts, hlen] at this
    simp [noOfChunkFiles] at this
  have hmanifest : denv.objects env.configStorj.Bucket
      (p ++ (env.cid env.file ++ [slash] ++ env.cid env.file ++ dotTxt))
      = some (manifestText ((chunkCiphertexts env).map env.cid)) := by
    rw [hobj]
    simp [Objects.put]
  have hparse : parseManifest (manifestText ((chunkCiphertexts env).map env.cid))
      = (chunkCiphertexts env).map env.cid :=
    parseManifest_manifestText _ (by simpa using hne) (by
      intro a ha
      simp only [List.mem_map] at ha
      obtain ⟨x, -, rfl⟩ := ha
      exact (hcid x).2)
  have hchunks : ∀ ct ∈ chunkCiphertexts env,
      denv.objects env.configStorj.Bucket (p ++ env.cid env.file ++ [slash] ++ env.cid ct)
        = some ct := by
    intro ct hct
    have hkeys : (p ++ env.cid env.file ++ [slash]) ++ env.cid ct
        ≠ p ++ (env.cid env.file ++ [slash] ++ env.cid env.file ++ dotTxt) := by
      intro e
      have hl := congrArg List.length e
      simp only [List.length_append, (hcid _).1, List.length_singleton] at hl
      have : dotTxt.length = 4 := by decide
      omega
    rw [hobj]
    simp only [Objects.put, hkeys, and_false, if_false]
    exact putChunks_lookup env.cid env.configStorj.Bucket (p ++ env.cid env.file ++ [slash]) o
      (chunkCiphertexts env) hinj ct hct
  have hdec2 : (chunkCiphertexts env).map (decrypt denv.aes chunkKey)
      = (chunkSlices (NewSizeSplitter env.ChunkSize)
          (noOfChunkFiles env.file.length env.ChunkSize) env.file).1.map .ok := by
    rw [haes]
    exact hdec
  obtain ⟨f1, rest, hf⟩ : ∃ f1 rest, Split comma env.lastFileName = f1 :: rest := by
    cases hs : Split comma env.lastFileName with
    | nil => exact absurd hs (Split_ne_nil comma env.lastFileName)
    | cons f1 rest => exact ⟨f1, rest, rfl⟩
  have hf1 : (Split comma env.lastFileName).headD [] = f1 := by rw [hf]; rfl
  rw [hf1] at hopen ⊢
  obtain ⟨l1, l2, l3⟩ := downloadLoop_all denv env.cid env.configStorj.Bucket
    (p ++ env.cid env.file ++ [slash]) (denv.DownloadPath ++ [slash] ++ f1)
    (chunkCiphertexts env) _ hdec2 hchunks hopen hwrite
    { disk := removeFile dw.disk (denv.DownloadPath ++ [slash] ++ f1),
      calls := dw.calls ++ [.connect env.configStorj.Bucket] ++
        [.openObject env.configStorj.Bucket
          (p ++ (env.cid env.file ++ [slash] ++ env.cid env.file ++ dotTxt))] }
  have hread := readLocator_packLocator (env.cid env.file)
    (iv ++ XORKeyStream (NewCFBEncrypter (env.aes env.configStorj.Key) iv)
      (base64Encode (routingPayload env.configStorj.Bucket p env.lastFileName))) (hcid _).1
  have hpay := decrypt_encrypted env.aes env.configStorj.Key
    (routingPayload env.configStorj.Bucket p env.lastFileName) iv hkey hiv
  have hpayload : routingPayload env.configStorj.Bucket p env.lastFileName
      = env.configStorj.Bucket ++ comma :: (p ++ comma :: env.lastFileName) := by
    simp [routingPayload]
  have hsplit : Split comma (routingPayload env.configStorj.Bucket p env.lastFileName)
      = env.configStorj.Bucket :: p :: f1 :: rest := by
    rw [hpayload, Split_append_sep comma _ _ hcb, Split_append_sep comma p _ hcp, hf]
  have hrun : ConnectStorjReadDownloadData denv dw (packLocator (env.cid env.file)
      (iv ++ XORKeyStream (NewCFBEncrypter (env.aes env.configStorj.Key) iv)
        (base64Encode (routingPayload env.configStorj.Bucket p env.lastFileName))))
      = downloadLoop denv env.configStorj.Bucket (p ++ env.cid env.file ++ [slash])
          (denv.DownloadPath ++ [slash] ++ f1)
          ((chunkCiphertexts env).map env.cid)
          { disk := removeFile dw.disk (denv.DownloadPath ++ [slash] ++ f1),
            calls := dw.calls ++ [.connect env.configStorj.Bucket] ++
              [.openObject env.configStorj.Bucket
                (p ++ (env.cid env.file ++ [slash] ++ env.cid env.file ++ dotTxt))] } := by
    simp only [ConnectStorjReadDownloadData, hread, haes, hdkey, hpay, hdir, hsplit, hconn,
      hmanifest, hparse]
    simp
  rw [hrun]
  refine ⟨l1, ?_, ?_⟩
  · rw [l2, if_neg hne]
    simp [removeFile]
  · rw [l3]
    simp [List.append_assoc]

/-- A chunk size below `2^32` is the size the splitter keeps. -/
theorem NewSizeSplitter_of_lt (S : Nat) (h : S < 2 ^ 32) : NewSizeSplitter S = S :=
  Nat.mod_eq_of_lt h

theorem letter_ne_comma : ∀ b : Byte, (Fin.ofNat (65 + b.val % 16) : Byte) ≠ comma := by
  decide

theorem exampleCid_spec (x : Bytes) : (exampleCid x).length = 46 ∧ comma ∉ exampleCid x := by
  refine ⟨by simp [exampleCid, ofString], ?_⟩
  intro h
  simp only [exampleCid, List.mem_append, List.mem_map] at h
  rcases h with h | ⟨b, -, hb⟩
  · revert h
    decide
  · exact absurd hb (letter_ne_comma b)

/-- C2, as the code has it. For every file content, chunk size `0 < S < 2^32`, non-empty
upload path, comma-free bucket, path and file name, over an object store in which every
upload succeeds and a read returns the bytes last written, with a random source that
delivers 16-byte IVs, a content-address function whose addresses have exactly 46 bytes and
no comma and which is injective on the chunk ciphertexts, a configuration key of length
16, 24 or 32 that the download configuration shares, a run without debug output, a
download directory that exists or can be made and an output file that can be opened and
written: the store command returns and adds one locator, and
`ConnectStorjReadDownloadData` on that locator returns `nil` and leaves an output file
whose bytes are the source file. -/
theorem store_download_round_trip (env : StoreEnv) (denv : DownloadEnv) (fuel : Nat)
    (w : World) (dw : DownloadWorld)
    (hS : 0 < env.ChunkSize) (hlt : env.ChunkSize < 2 ^ 32)
    (hpath : env.configStorj.UploadPath ≠ [])
    (hcb : comma ∉ env.configStorj.Bucket) (hcp : comma ∉ env.configStorj.UploadPath)
    (hcf : comma ∉ env.lastFileName)
    (hclient : ∀ n, env.client n = none)
    (hrand : ∀ i, ∃ iv, env.rand i = .ok iv ∧ iv.length = 16)
    (hcid : ∀ x, (env.cid x).length = 46 ∧ comma ∉ env.cid x)
    (hinj : ∀ x ∈ chunkCiphertexts env, ∀ y ∈ chunkCiphertexts env,
      env.cid x = env.cid y → x = y)
    (hkey : env.configStorj.Key.length = 16 ∨ env.configStorj.Key.length = 24 ∨
      env.configStorj.Key.length = 32)
    (hdebug : env.DEBUG = false)
    (hdkey : denv.Key = env.configStorj.Key) (haes : denv.aes = env.aes)
    (hdir : denv.dirOK = true) (hconn : denv.connect env.configStorj.Bucket = .opened)
    (hopen : denv.openFile (denv.DownloadPath ++ [slash] ++ env.lastFileName) = none)
    (hwrite : denv.writeOK = true)
    (hobj : denv.objects = (storeCommand env (fuel + 1) w).world.objects) :
    ∃ token, (storeCommand env (fuel + 1) w).exit = .returned none ∧
      (storeCommand env (fuel + 1) w).world.added = w.added ++ [token] ∧
      (ConnectStorjReadDownloadData denv dw token).exit = .returned none ∧
      (ConnectStorjReadDownloadData denv dw token).world.disk
        (denv.DownloadPath ++ [slash] ++ env.lastFileName) = some env.file := by
  obtain ⟨p, hp, -, -, -, -⟩ := checkSlash_of_ne_nil env.configStorj.UploadPath hpath
  have hcp2 := checkSlash_comma env.configStorj.UploadPath p hp hcp
  obtain ⟨iv, w2, hiv, hstore, hadded, hobjs⟩ :=
    storeCommand_all_succeed env fuel w p hp hclient hrand hkey hdebug
  rw [hstore] at hobj ⊢
  simp only at hobj ⊢
  rw [hobjs] at hobj
  have hname : (Split comma env.lastFileName).headD [] = env.lastFileName := by
    rw [Split_of_not_mem comma env.lastFileName hcf]
    rfl
  rw [← hname] at hopen
  obtain ⟨d1, d2, -⟩ := download_of_store env denv dw p iv w.objects hcb hcp2 hrand hcid
    hinj hkey hiv hdkey haes hdir hconn hopen hwrite hobj
  rw [hname, NewSizeSplitter_of_lt env.ChunkSize hlt,
    (chunkSlices_noOfChunkFiles env.file env.ChunkSize hS).1] at d2
  exact ⟨_, trivial, hadded, d1, d2⟩

theorem store_download_round_trip_witness :
    0 < (exampleEnv (ofString "0123456789") 4 (fun _ => none)).ChunkSize ∧
    (exampleEnv (ofString "0123456789") 4 (fun _ => none)).ChunkSize < 2 ^ 32 ∧
    (exampleEnv (ofString "0123456789") 4 (fun _ => none)).configStorj.UploadPath ≠ [] ∧
    (∀ x ∈ chunkCiphertexts (exampleEnv (ofString "0123456789") 4 (fun _ => none)),
      ∀ y ∈ chunkCiphertexts (exampleEnv (ofString "0123456789") 4 (fun _ => none)),
        exampleCid x = exampleCid y → x = y) ∧
    ∃ token,
      (storeCommand (exampleEnv (ofString "0123456789") 4 (fun _ => none)) (0 + 1)
        emptyWorld).exit = .returned none ∧
      (storeCommand (exampleEnv (ofString "0123456789") 4 (fun _ => none)) (0 + 1)
        emptyWorld).world.added = emptyWorld.added ++ [token] ∧
      (ConnectStorjReadDownloadData
        (exampleDownloadEnv (storeCommand (exampleEnv (ofString "0123456789") 4 (fun _ => none))
          (0 + 1) emptyWorld).world.objects) emptyDisk token).exit = .returned none ∧
      (ConnectStorjReadDownloadData
        (exampleDownloadEnv (storeCommand (exampleEnv (ofString "0123456789") 4 (fun _ => none))
          (0 + 1) emptyWorld).world.objects) emptyDisk token).world.disk
        ((exampleDownloadEnv (storeCommand (exampleEnv (ofString "0123456789") 4
          (fun _ => none)) (0 + 1) emptyWorld).world.objects).DownloadPath ++ [slash] ++
          (exampleEnv (ofString "0123456789") 4 (fun _ => none)).lastFileName)
        = some (ofString "0123456789") :=
  ⟨by decide, by decide, by decide, by decide,
    store_download_round_trip (exampleEnv (ofString "0123456789") 4 (fun _ => none))
      (exampleDownloadEnv (storeCommand (exampleEnv (ofString "0123456789") 4 (fun _ => none))
        (0 + 1) emptyWorld).world.objects) 0 emptyWorld emptyDisk
      (by decide) (by decide) (by decide) (by decide) (by decide) (by decide) (fun _ => rfl)
      (fun i => ⟨_, rfl, by simp⟩) exampleCid_spec (by decide) (by decide) rfl rfl rfl rfl rfl
      rfl rfl rfl⟩

/-- C2 as stated fails: with an address function whose addresses are one byte long
(comma-free, injective on the chunk ciphertexts of the run), every other premise of the
claim in place and matching keys, the store command returns and adds its locator, but the
locator has fewer than 46 bytes, `ConnectStorjReadDownloadData` panics on it and no output
file is written. -/
theorem short_address_breaks_round_trip :
    0 < ({ exampleEnv (ofString "0123456789") 4 (fun _ => none) with cid := shortCid }
      : StoreEnv).ChunkSize ∧
    (exampleEnv (ofString "0123456789") 4 (fun _ => none)).configStorj.UploadPath ≠ [] ∧
    comma ∉ (exampleEnv (ofString "0123456789") 4 (fun _ => none)).configStorj.Bucket ∧
    comma ∉ (exampleEnv (ofString "0123456789") 4 (fun _ => none)).configStorj.UploadPath ∧
    comma ∉ (exampleEnv (ofString "0123456789") 4 (fun _ => none)).lastFileName ∧
    (∀ x, comma ∉ shortCid x) ∧
    (∀ x ∈ chunkCiphertexts
        { exampleEnv (ofString "0123456789") 4 (fun _ => none) with cid := shortCid },
      ∀ y ∈ chunkCiphertexts
        { exampleEnv (ofString "0123456789") 4 (fun _ => none) with cid := shortCid },
        shortCid x = shortCid y → x = y) ∧
    (storeCommand { exampleEnv (ofString "0123456789") 4 (fun _ => none) with cid := shortCid }
      1 emptyWorld).exit = .returned none ∧
    ((storeCommand { exampleEnv (ofString "0123456789") 4 (fun _ => none) with cid := shortCid }
      1 emptyWorld).world.added.map List.length) = [33] ∧
    (ConnectStorjReadDownloadData
      (exampleDownloadEnv (storeCommand
        { exampleEnv (ofString "0123456789") 4 (fun _ => none) with cid := shortCid }
        1 emptyWorld).world.objects) emptyDisk
      ((storeCommand { exampleEnv (ofString "0123456789") 4 (fun _ => none) with cid := shortCid }
        1 emptyWorld).world.added.headD [])).exit = .panicked ∧
    (ConnectStorjReadDownloadData
      (exampleDownloadEnv (storeCommand
        { exampleEnv (ofString "0123456789") 4 (fun _ => none) with cid := shortCid }
        1 emptyWorld).world.objects) emptyDisk
      ((storeCommand { exampleEnv (ofString "0123456789") 4 (fun _ => none) with cid := shortCid }
        1 emptyWorld).world.added.headD [])).world.disk (ofString "out/f.bin")
      ≠ some (ofString "0123456789") := by
  refine ⟨by decide, by decide, by decide, by decide, by decide, ?_, by decide, by decide,
    by decide, by decide, by decide⟩
  intro x h
  simp only [shortCid, List.mem_singleton] at h
  exact letter_ne_comma (x.headD 0) h.symm

/-! ## C14: when decrypt fails -/

theorem base64DecodeFrom_error (s : Bytes) (dbuf : List Nat) (e : GoError)
    (h : base64DecodeFrom s dbuf = .error e) : e = .corruptInput := by
  induction s generalizing dbuf with
  | nil =>
    unfold base64DecodeFrom at h
    split at h
    · cases h
    · cases h; rfl
  | cons c rest ih =>
    unfold base64DecodeFrom at h
    split at h
    · split at h
      · split at h
        · cases h
        · cases h
          exact ih [] (by assumption)
      · exact ih _ h
    · split at h
      · exact ih _ h
      · split at h
        · cases h; rfl
        · split at h
          · split at h
            · cases h; rfl
            · split at h
              · cases h; rfl
              · split at h
                · cases h
                · cases h; rfl
          · split at h
            · split at h
              · cases h
              · cases h; rfl
            · cases h; rfl

theorem decrypt_of_length (aes : Bytes → Bytes → Bytes) (key t : Bytes)
    (hk : key.length = 16 ∨ key.length = 24 ∨ key.length = 32) (ht : 16 ≤ t.length) :
    decrypt aes key t
      = base64Decode (XORKeyStream (NewCFBDecrypter (aes key) (t.take 16)) (t.drop 16)) := by
  have h1 : ¬ t.length < 16 := by omega
  simp only [decrypt, NewCipher, hk, if_true, aesBlockSize, h1, if_false]
  cases base64Decode (XORKeyStream (NewCFBDecrypter (aes key) (t.take 16)) (t.drop 16)) <;> rfl

/-- C14. For every key of length 16, 24 or 32 and every input `t`: `decrypt` fails with
"ciphertext too short" exactly when `t` has fewer than 16 bytes; otherwise its result,
success or failure, is the result of `base64.StdEncoding.DecodeString` on the
CFB-decrypted bytes of `t[16:]`: it succeeds exactly when those bytes are accepted as
padded standard base64 and then returns their decoding. -/
theorem decrypt_failure_conditions (aes : Bytes → Bytes → Bytes) (key t : Bytes)
    (hk : key.length = 16 ∨ key.length = 24 ∨ key.length = 32) :
    (decrypt aes key t = .error .ciphertextTooShort ↔ t.length < 16) ∧
    (16 ≤ t.length → decrypt aes key t
      = base64Decode (XORKeyStream (NewCFBDecrypter (aes key) (t.take 16)) (t.drop 16))) := by
  refine ⟨⟨?_, ?_⟩, decrypt_of_length aes key t hk⟩
  · intro h
    by_contra hlt
    rw [decrypt_of_length aes key t hk (by omega)] at h
    have := base64DecodeFrom_error _ _ _ h
    cases this
  · intro h
    have h1 : t.length < aesBlockSize := h
    simp [decrypt, NewCipher, hk, h1]

theorem decrypt_failure_conditions_witness :
    (exampleKey.length = 16 ∨ exampleKey.length = 24 ∨ exampleKey.length = 32) ∧
    (decrypt exampleAes exampleKey (List.replicate 20 5) = .error .ciphertextTooShort ↔
      (List.replicate 20 (5 : Byte)).length < 16) ∧
    (16 ≤ (List.replicate 20 (5 : Byte)).length → decrypt exampleAes exampleKey (List.replicate 20 5)
      = base64Decode (XORKeyStream (NewCFBDecrypter (exampleAes exampleKey)
          ((List.replicate 20 (5 : Byte)).take 16)) ((List.replicate 20 (5 : Byte)).drop 16))) :=
  ⟨by decide, decrypt_failure_conditions exampleAes exampleKey (List.replicate 20 5) (by decide)⟩

/-! ## C15: key length check -/

/-- C15. For every plaintext and every ciphertext, `encrypt` and `decrypt` return an error
(the key size error) and no data when the key length is not 16, 24 or 32; for a key of
valid length `encrypt` succeeds whenever the random source delivers the 16 IV bytes. -/
theorem key_length_check (aes : Bytes → Bytes → Bytes) (key text t : Bytes)
    (rnd : Except GoError Bytes) :
    (¬ (key.length = 16 ∨ key.length = 24 ∨ key.length = 32) →
      encrypt aes rnd key text = .error (.keySize key.length) ∧
      decrypt aes key t = .error (.keySize key.length)) ∧
    ((key.length = 16 ∨ key.length = 24 ∨ key.length = 32) →
      ∀ iv : Bytes, iv.length = 16 → ∃ c, encrypt aes (.ok iv) key text = .ok c) := by
  refine ⟨?_, ?_⟩
  · intro h
    simp [encrypt, decrypt, NewCipher, h]
  · intro h iv _
    exact ⟨_, encrypt_ok aes key text iv h⟩

theorem key_length_check_witness :
    (¬ (([1, 2, 3] : Bytes).length = 16 ∨ ([1, 2, 3] : Bytes).length = 24 ∨
        ([1, 2, 3] : Bytes).length = 32)) ∧
    (encrypt exampleAes (exampleRand 0) [1, 2, 3] [7, 8] = .error (.keySize 3) ∧
      decrypt exampleAes [1, 2, 3] (List.replicate 20 5) = .error (.keySize 3)) ∧
    (exampleKey.length = 16 ∨ exampleKey.length = 24 ∨ exampleKey.length = 32) ∧
    ∃ c, encrypt exampleAes (.ok (List.replicate 16 9)) exampleKey [7, 8] = .ok c :=
  ⟨by decide,
    (key_length_check exampleAes [1, 2, 3] [7, 8] (List.replicate 20 5) (exampleRand 0)).1
      (by decide),
    by decide,
    (key_length_check exampleAes exampleKey [7, 8] [] (exampleRand 0)).2 (by decide)
      (List.replicate 16 9) (by decide)⟩

/-! ## C20: ciphertext format -/

theorem base64Encode_length (p : Bytes) : (base64Encode p).length = 4 * ((p.length + 2) / 3) := by
  induction p using base64Encode.induct with
  | case1 a b c rest ih =>
    simp only [base64Encode, List.length_cons, ih]
    omega
  | case2 a b => simp [base64Encode]
  | case3 a => simp [base64Encode]
  | case4 => simp [base64Encode]

/-- C20. For every valid key, plaintext `P` of length `n` and 16-byte IV that `encrypt`
draws, the output has length `16 + 4 * ceil(n / 3)`, its first 16 bytes are the IV, and an
encryption of the same plaintext under the same key with a different IV is a different
byte string. -/
theorem ciphertext_format (aes : Bytes → Bytes → Bytes) (key P iv : Bytes)
    (hk : key.length = 16 ∨ key.length = 24 ∨ key.length = 32) (hiv : iv.length = 16) :
    ∃ c, encrypt aes (.ok iv) key P = .ok c ∧
      c.length = 16 + 4 * ((P.length + 2) / 3) ∧ c.take 16 = iv ∧
      ∀ iv2 c2 : Bytes, iv2.length = 16 → iv2 ≠ iv →
        encrypt aes (.ok iv2) key P = .ok c2 → c2 ≠ c := by
  refine ⟨_, encrypt_ok aes key P iv hk, ?_, List.take_left' hiv, ?_⟩
  · simp [XORKeyStream_length, base64Encode_length, hiv]
  · intro iv2 c2 hiv2 hne h2 heq
    rw [encrypt_ok aes key P iv2 hk] at h2
    simp only [Except.ok.injEq] at h2
    have h3 := congrArg (List.take 16) (h2.trans heq)
    rw [List.take_left' hiv2, List.take_left' hiv] at h3
    exact hne h3

theorem ciphertext_format_witness :
    (exampleKey.length = 16 ∨ exampleKey.length = 24 ∨ exampleKey.length = 32) ∧
    (List.replicate 16 (9 : Byte)).length = 16 ∧
    ∃ c, encrypt exampleAes (.ok (List.replicate 16 9)) exampleKey [1, 2, 3, 4] = .ok c ∧
      c.length = 16 + 4 * ((([1, 2, 3, 4] : Bytes).length + 2) / 3) ∧
      c.take 16 = List.replicate 16 9 ∧
      ∀ iv2 c2 : Bytes, iv2.length = 16 → iv2 ≠ List.replicate 16 9 →
        encrypt exampleAes (.ok iv2) exampleKey [1, 2, 3, 4] = .ok c2 → c2 ≠ c :=
  ⟨by decide, by decide,
    ciphertext_format exampleAes exampleKey [1, 2, 3, 4] (List.replicate 16 9) (by decide)
      (by decide)⟩

/-! ## C12: malformed locator -/

/-- C12, as the code behaves: for every token of fewer than 46 bytes (the empty one
included) `ConnectStorjReadDownloadData` panics at `make([]byte, downloadFileSize-46)`; it
returns no error, and it has made no object-store call and written nothing. -/
theorem short_locator_panics (env : DownloadEnv) (w : DownloadWorld) (token : Bytes)
    (h : token.length < 46) :
    (ConnectStorjReadDownloadData env w token).exit = .panicked ∧
    (ConnectStorjReadDownloadData env w token).world.calls = w.calls ∧
    (ConnectStorjReadDownloadData env w token).world.disk = w.disk := by
  have hr : readLocator token = .panicked := by
    simp only [readLocator, h, if_true]
  simp only [ConnectStorjReadDownloadData, hr, and_self]

theorem short_locator_panics_witness :
    ([] : Bytes).length < 46 ∧
    (ConnectStorjReadDownloadData (exampleDownloadEnv (fun _ _ => none)) emptyDisk []).exit
      = .panicked ∧
    (ConnectStorjReadDownloadData (exampleDownloadEnv (fun _ _ => none)) emptyDisk
      []).world.calls = emptyDisk.calls ∧
    (ConnectStorjReadDownloadData (exampleDownloadEnv (fun _ _ => none)) emptyDisk
      []).world.disk = emptyDisk.disk :=
  ⟨by decide, short_locator_panics (exampleDownloadEnv (fun _ _ => none)) emptyDisk []
    (by decide)⟩

/-! ## C13: address-format validation -/

/-- C13, as the code behaves: for a host name other than `""` and `"ipfsHostName"`, a hash
of fewer than two bytes makes `ConnectToIPFSForDownload` panic at `hash[0:2]`; a hash of
at least two bytes that does not both start with `Qm` and have length 46 gives the error
"Invalid Shareable Hash". In both cases no IPFS node is contacted. -/
theorem hash_validation (node : IPFSNode) (hash hostName : Bytes)
    (hh : ¬ (hostName = ofString "ipfsHostName" ∨ hostName = []))
    (hbad : ¬ (hash.take 2 = ofString "Qm" ∧ hash.length = 46)) :
    (hash.length < 2 → ConnectToIPFSForDownload node hash hostName = ⟨.panicked, []⟩) ∧
    (2 ≤ hash.length → ConnectToIPFSForDownload node hash hostName
      = ⟨.returned (none, some (.message "Invalid Shareable Hash")), []⟩) := by
  refine ⟨?_, ?_⟩
  · intro h
    simp only [ConnectToIPFSForDownload, hh, if_false, h, if_true]
  · intro h
    have h2 : ¬ hash.length < 2 := by omega
    have h3 : hash.take 2 ≠ ofString "Qm" ∨ hash.length ≠ 46 := by
      by_cases h4 : hash.take 2 = ofString "Qm"
      · exact Or.inr (fun h5 => hbad ⟨h4, h5⟩)
      · exact Or.inl h4
    simp only [ConnectToIPFSForDownload, hh, if_false, h2, h3, if_true]

theorem hash_validation_witness :
    (¬ (ofString "localhost" = ofString "ipfsHostName" ∨ ofString "localhost" = [])) ∧
    (¬ ((ofString "Q").take 2 = ofString "Qm" ∧ (ofString "Q").length = 46)) ∧
    (ofString "Q").length < 2 ∧
    ConnectToIPFSForDownload ⟨none, fun _ => .ok []⟩ (ofString "Q") (ofString "localhost")
      = ⟨.panicked, []⟩ :=
  ⟨by decide, by decide, by decide,
    (hash_validation ⟨none, fun _ => .ok []⟩ (ofString "Q") (ofString "localhost") (by decide)
      (by decide)).1 (by decide)⟩

/-! ## C18: download failures -/

/-- C18, at a download for which the bucket holds the manifest of a store run but none of
its chunks: `ConnectStorjReadDownloadData` writes no chunk and returns the error "Could not
open object at", and the download command, which does not use that result, returns `nil`
to its caller; when the manifest object itself is missing, `ConnectStorjReadDownloadData`
does not return at all (`log.Fatal`). -/
theorem download_error_is_dropped :
    (ConnectStorjReadDownloadData
      (exampleDownloadEnv (onlyManifest
        (storeCommand (exampleEnv (ofString "0123456789") 4 (fun _ => none)) 1
          emptyWorld).world.objects
        (ofString "p/" ++ exampleCid (ofString "0123456789") ++ [slash] ++
          exampleCid (ofString "0123456789") ++ dotTxt)))
      emptyDisk
      ((storeCommand (exampleEnv (ofString "0123456789") 4 (fun _ => none)) 1
        emptyWorld).world.added.headD [])).exit
      = .returned (some (.message "Could not open object at")) ∧
    (ConnectStorjReadDownloadData
      (exampleDownloadEnv (onlyManifest
        (storeCommand (exampleEnv (ofString "0123456789") 4 (fun _ => none)) 1
          emptyWorld).world.objects
        (ofString "p/" ++ exampleCid (ofString "0123456789") ++ [slash] ++
          exampleCid (ofString "0123456789") ++ dotTxt)))
      emptyDisk
      ((storeCommand (exampleEnv (ofString "0123456789") 4 (fun _ => none)) 1
        emptyWorld).world.added.headD [])).world.disk (ofString "out/f.bin") = none ∧
    (downloadCommand
      { configErr := none, HostName := ofString "localhost",
        FileHash := exampleCid ((storeCommand (exampleEnv (ofString "0123456789") 4
          (fun _ => none)) 1 emptyWorld).world.added.headD []),
        node := ⟨none, fun _ => .ok ((storeCommand (exampleEnv (ofString "0123456789") 4
          (fun _ => none)) 1 emptyWorld).world.added.headD [])⟩,
        download := exampleDownloadEnv (onlyManifest
          (storeCommand (exampleEnv (ofString "0123456789") 4 (fun _ => none)) 1
            emptyWorld).world.objects
          (ofString "p/" ++ exampleCid (ofString "0123456789") ++ [slash] ++
            exampleCid (ofString "0123456789") ++ dotTxt)) }
      emptyDisk).exit = .returned none ∧
    (ConnectStorjReadDownloadData (exampleDownloadEnv (fun _ _ => none)) emptyDisk
      ((storeCommand (exampleEnv (ofString "0123456789") 4 (fun _ => none)) 1
        emptyWorld).world.added.headD [])).exit = .fatal := by
  decide

/-! ## C19: invalid chunk size -/

/-- C19, at the chunk size text `99999999999999999999x`, which is not a number:
`strconv.ParseInt` leaves its digit loop at the twentieth digit with `ErrRange` and the
value `1<<63 - 1`, the code discards the error, and `ConnectToIPFSStorj` returns an
`IPFSdata` with that chunk size. The empty text, `abc`, `0` and `-5` are rejected. -/
theorem chunk_size_overflow_accepted :
    ParseInt (ofString "99999999999999999999x") = (2 ^ 63 - 1, some (.message "value out of range")) ∧
    ConnectToIPFSStorj
      (.ok ⟨ofString "localhost", ofString "5001", ofString "f.bin",
        ofString "99999999999999999999x"⟩) none none
      = .ok ⟨ofString "f.bin", 2 ^ 63 - 1⟩ ∧
    ConnectToIPFSStorj
      (.ok ⟨ofString "localhost", ofString "5001", ofString "f.bin", []⟩) none none
      = .error (.message "Invalid chunk size entered") ∧
    ConnectToIPFSStorj
      (.ok ⟨ofString "localhost", ofString "5001", ofString "f.bin", ofString "abc"⟩) none none
      = .error (.message "Invalid chunk size entered") ∧
    ConnectToIPFSStorj
      (.ok ⟨ofString "localhost", ofString "5001", ofString "f.bin", ofString "0"⟩) none none
      = .error (.message "Invalid chunk size entered") ∧
    ConnectToIPFSStorj
      (.ok ⟨ofString "localhost", ofString "5001", ofString "f.bin", ofString "-5"⟩) none none
      = .error (.message "Invalid chunk size entered") ∧
    ConnectToIPFSStorj
      (.ok ⟨ofString "localhost", ofString "5001", ofString "f.bin", ofString "4"⟩) none none
      = .ok ⟨ofString "f.bin", 4⟩ := by
  decide

/-! ## C16: routing payload round trip -/

/-- `ConnectStorjReadDownloadData` is its head (reads, decrypt, directory, split) followed
by `downloadObjects` on the first three fields. -/
theorem ConnectStorjReadDownloadData_fields (env : DownloadEnv) (w : DownloadWorld)
    (token downloadFileName dataEnc decryptData downloadBucket downloadPath lastFileName : Bytes)
    (rest : List Bytes)
    (hread : readLocator token = .returned (downloadFileName, dataEnc))
    (hdec : decrypt env.aes env.Key dataEnc = .ok decryptData)
    (hdir : env.dirOK = true)
    (hsplit : Split comma decryptData = downloadBucket :: downloadPath :: lastFileName :: rest) :
    ConnectStorjReadDownloadData env w token
      = downloadObjects env w downloadFileName downloadBucket downloadPath lastFileName := by
  simp only [ConnectStorjReadDownloadData, hread, hdec, hdir, hsplit, downloadObjects]
  simp

/-- C16. For every bucket name, non-empty upload path and file name without `,`: the
string `bucket + "," + normalisedPath + "," + fileName` that the store command encrypts
splits on `,` into exactly these three fields, where `normalisedPath` is the upload path
with a `/` appended unless it ends in one, and `ConnectStorjReadDownloadData` on a locator
that carries its encryption goes on with `downloadBucket = bucket`,
`downloadPath = normalisedPath` and `lastFileName = fileName`. -/
theorem routing_payload_round_trip (denv : DownloadEnv) (dw : DownloadWorld)
    (bucket uploadPath fileName baseAddress iv c : Bytes)
    (hpath : uploadPath ≠ [])
    (hcb : comma ∉ bucket) (hcp : comma ∉ uploadPath) (hcf : comma ∉ fileName)
    (hbase : baseAddress.length = 46)
    (hkey : denv.Key.length = 16 ∨ denv.Key.length = 24 ∨ denv.Key.length = 32)
    (hiv : iv.length = 16) (hdir : denv.dirOK = true)
    (henc : ∀ normalisedPath, checkSlash uploadPath = some normalisedPath →
      encrypt denv.aes (.ok iv) denv.Key (routingPayload bucket normalisedPath fileName)
        = .ok c) :
    ∃ normalisedPath, checkSlash uploadPath = some normalisedPath ∧
      normalisedPath = (if uploadPath.getLast? = some slash then uploadPath
        else uploadPath ++ [slash]) ∧
      Split comma (routingPayload bucket normalisedPath fileName)
        = [bucket, normalisedPath, fileName] ∧
      ConnectStorjReadDownloadData denv dw (packLocator baseAddress c)
        = downloadObjects denv dw baseAddress bucket normalisedPath fileName := by
  obtain ⟨p, hp, -, -, h1, h2⟩ := checkSlash_of_ne_nil uploadPath hpath
  have hcp2 := checkSlash_comma uploadPath p hp hcp
  have hsplit := Split_routingPayload bucket p fileName hcb hcp2 hcf
  refine ⟨p, hp, ?_, hsplit, ?_⟩
  · by_cases hs : uploadPath.getLast? = some slash
    · rw [if_pos hs]
      exact h1 hs
    · rw [if_neg hs]
      exact h2 hs
  · have hc := henc p hp
    rw [encrypt_ok denv.aes denv.Key _ iv hkey] at hc
    simp only [Except.ok.injEq] at hc
    subst hc
    exact ConnectStorjReadDownloadData_fields denv dw _ baseAddress _ _ bucket p fileName []
      (readLocator_packLocator baseAddress _ hbase)
      (decrypt_encrypted denv.aes denv.Key _ iv hkey hiv) hdir hsplit

theorem routing_payload_round_trip_witness :
    ofString "p" ≠ [] ∧ comma ∉ ofString "b" ∧ comma ∉ ofString "p" ∧
    comma ∉ ofString "f.bin" ∧ (exampleCid []).length = 46 ∧
    ∃ normalisedPath, checkSlash (ofString "p") = some normalisedPath ∧
      normalisedPath = (if (ofString "p").getLast? = some slash then ofString "p"
        else ofString "p" ++ [slash]) ∧
      Split comma (routingPayload (ofString "b") normalisedPath (ofString "f.bin"))
        = [ofString "b", normalisedPath, ofString "f.bin"] ∧
      ConnectStorjReadDownloadData (exampleDownloadEnv (fun _ _ => none)) emptyDisk
          (packLocator (exampleCid [])
            (List.replicate 16 9 ++ XORKeyStream
              (NewCFBEncrypter (exampleAes exampleKey) (List.replicate 16 9))
              (base64Encode (routingPayload (ofString "b") (ofString "p/") (ofString "f.bin")))))
        = downloadObjects (exampleDownloadEnv (fun _ _ => none)) emptyDisk (exampleCid [])
            (ofString "b") normalisedPath (ofString "f.bin") :=
  ⟨by decide, by decide, by decide, by decide, by decide,
    routing_payload_round_trip (exampleDownloadEnv (fun _ _ => none)) emptyDisk (ofString "b")
      (ofString "p") (ofString "f.bin") (exampleCid []) (List.replicate 16 9)
      (List.replicate 16 9 ++ XORKeyStream
        (NewCFBEncrypter (exampleAes exampleKey) (List.replicate 16 9))
        (base64Encode (routingPayload (ofString "b") (ofString "p/") (ofString "f.bin"))))
      (by decide) (by decide) (by decide) (by decide) (by decide) (by decide) (by decide) rfl
      (by
        intro normalisedPath h
        have hp : normalisedPath = ofString "p/" := by
          have h2 : checkSlash (ofString "p") = some (ofString "p/") := by decide
          rw [h2] at h
          exact (Option.some.inj h).symm
        subst hp
        exact encrypt_ok exampleAes exampleKey _ (List.replicate 16 9) (by decide))⟩

/-! ## C17: object keys of upload and download -/

theorem retryLoop_uploads (client : Nat → Option GoError) (bucket path data : Bytes) (n : Nat)
    (w : World) (err : Option GoError) (c : Bool) :
    ∃ new : List UploadCall,
      (retryLoop client bucket path data n w err c).2.2.uploads = w.uploads ++ new ∧
      ∀ u ∈ new, u.bucket = bucket ∧ u.path = path ∧ u.data = data := by
  induction n generalizing w err with
  | zero => exact ⟨[], by simp [retryLoop], by simp⟩
  | succ n ih =>
    cases h : client w.uploads.length with
    | none =>
      refine ⟨[⟨bucket, path, data, none⟩], by simp [retryLoop, UploadObject, h], ?_⟩
      intro u hu
      rw [List.mem_singleton] at hu
      subst hu
      exact ⟨rfl, rfl, rfl⟩
    | some e =>
      obtain ⟨new, h1, h2⟩ :=
        ih { w with uploads := w.uploads ++ [⟨bucket, path, data, some e⟩] } (some e)
      refine ⟨⟨bucket, path, data, some e⟩ :: new, ?_, ?_⟩
      · simp only [retryLoop, UploadObject, h]
        rw [h1]
        simp
      · intro u hu
        rcases List.mem_cons.mp hu with hu | hu
        · subst hu
          exact ⟨rfl, rfl, rfl⟩
        · exact h2 u hu

theorem checkSlash_idem (uploadPath p : Bytes) (h : checkSlash uploadPath = some p) :
    checkSlash p = some p := by
  have hne : uploadPath ≠ [] := by
    intro h0
    rw [h0] at h
    simp [checkSlash] at h
  obtain ⟨q, hq, h1, h2, -, -⟩ := checkSlash_of_ne_nil uploadPath hne
  rw [hq] at h
  have hqp : q = p := Option.some.inj h
  subst hqp
  simp [checkSlash, h1, h2]

theorem uploadRounds_uploads (client : Nat → Option GoError) (DEBUG : Bool)
    (bucket data databaseName : Bytes) (fuel : Nat) (uploadPath p : Bytes) (w : World)
    (file : List Bytes) (c : Bool) (hp : checkSlash uploadPath = some p) :
    ∃ new : List UploadCall,
      (uploadRounds client DEBUG bucket data databaseName fuel uploadPath w file c).world.uploads
        = w.uploads ++ new ∧
      ∀ u ∈ new, u.bucket = bucket ∧ u.path = p ++ databaseName ∧ u.data = data := by
  induction fuel generalizing uploadPath w file c with
  | zero => exact ⟨[], by simp [uploadRounds], by simp⟩
  | succ fuel ih =>
    obtain ⟨new1, f1, f2⟩ := retryLoop_uploads client bucket (p ++ databaseName) data 5 w
      (some .errShortBuffer) c
    rcases hr : retryLoop client bucket (p ++ databaseName) data 5 w
      (some .errShortBuffer) c with ⟨err, c1, w1⟩
    rw [hr] at f1
    simp only at f1
    simp only [uploadRounds, hp, hr]
    split
    · obtain ⟨new2, g1, g2⟩ := ih p w1 (if DEBUG then file ++ [databaseName] else file) c1
        (checkSlash_idem uploadPath p hp)
      refine ⟨new1 ++ new2, ?_, ?_⟩
      · rw [g1, f1, List.append_assoc]
      · intro u hu
        rcases List.mem_append.mp hu with hu | hu
        · exact f2 u hu
        · exact g2 u hu
    · exact ⟨new1, f1, f2⟩

/-- Every call of `UploadObject` that one call of `ConnectUpload` makes is for the bucket
of the handle and the object path `normalisedPath ++ databaseName`. -/
theorem ConnectUpload_uploads (client : Nat → Option GoError) (DEBUG : Bool)
    (fuel : Nat) (w : World) (bucket data databaseName : Bytes) (fileNamesDEBUG : List Bytes)
    (configStorj : ConfigStorj) (p : Bytes)
    (hp : checkSlash configStorj.UploadPath = some p) :
    ∃ new : List UploadCall,
      (ConnectUpload client DEBUG fuel w bucket data databaseName fileNamesDEBUG
        configStorj).world.uploads = w.uploads ++ new ∧
      ∀ u ∈ new, u.bucket = bucket ∧ u.path = p ++ databaseName ∧ u.data = data := by
  obtain ⟨new, f1, f2⟩ := uploadRounds_uploads client DEBUG bucket data databaseName fuel
    configStorj.UploadPath p w fileNamesDEBUG false hp
  rcases hr : uploadRounds client DEBUG bucket data databaseName fuel configStorj.UploadPath w
    fileNamesDEBUG false with ⟨exit0, w1⟩
  rw [hr] at f1
  simp only at f1
  refine ⟨new, ?_, f2⟩
  cases exit0 with
  | returned a =>
    obtain ⟨err, file, c⟩ := a
    by_cases he : err = none
    · simp [ConnectUpload, hr, he, f1]
    · simp [ConnectUpload, hr, he, f1]
  | fatal => simp [ConnectUpload, hr, f1]
  | panicked => simp [ConnectUpload, hr, f1]
  | running => simp [ConnectUpload, hr, f1]

/-- C17 as stated fails: with the non-empty upload path `a,b` the store command uploads
its last object, the manifest, under the key `a,b/` + `B/B.txt`, while
`ConnectStorjReadDownloadData` on the locator of that run opens `a` + `B/B.txt`, a key no
upload of the run has written, finds no object there and ends the process. -/
theorem comma_path_keys_differ :
    commaPathEnv.configStorj.UploadPath ≠ [] ∧
    (storeCommand commaPathEnv 1 emptyWorld).exit = .returned none ∧
    ((storeCommand commaPathEnv 1 emptyWorld).world.uploads.map (fun u => u.path)).getLast?
      = some (ofString "a,b/" ++ (exampleCid (ofString "0123") ++ [slash] ++
          exampleCid (ofString "0123") ++ dotTxt)) ∧
    (ConnectStorjReadDownloadData
      (exampleDownloadEnv (storeCommand commaPathEnv 1 emptyWorld).world.objects) emptyDisk
      ((storeCommand commaPathEnv 1 emptyWorld).world.added.headD [])).world.calls
      = [.connect (ofString "b"),
          .openObject (ofString "b") (ofString "a" ++ (exampleCid (ofString "0123") ++ [slash] ++
            exampleCid (ofString "0123") ++ dotTxt))] ∧
    (ofString "a" ++ (exampleCid (ofString "0123") ++ [slash] ++
        exampleCid (ofString "0123") ++ dotTxt))
      ∉ (storeCommand commaPathEnv 1 emptyWorld).world.uploads.map (fun u => u.path) ∧
    (ConnectStorjReadDownloadData
      (exampleDownloadEnv (storeCommand commaPathEnv 1 emptyWorld).world.objects) emptyDisk
      ((storeCommand commaPathEnv 1 emptyWorld).world.added.headD [])).exit = .fatal := by
  decide

/-! ## C11: re-running the store command -/

/-- One call of `ConnectUpload` whose first attempt succeeds: it makes that one call of
`UploadObject`, under `normalisedPath ++ databaseName`, and the object is stored. -/
theorem ConnectUpload_first_try (client : Nat → Option GoError) (DEBUG : Bool)
    (fuel : Nat) (w : World) (bucket data databaseName : Bytes) (fileNamesDEBUG : List Bytes)
    (configStorj : ConfigStorj) (p : Bytes)
    (hp : checkSlash configStorj.UploadPath = some p)
    (hsucc : client w.uploads.length = none) :
    (ConnectUpload client DEBUG (fuel + 1) w bucket data databaseName fileNamesDEBUG
      configStorj).world.uploads = w.uploads ++ [⟨bucket, p ++ databaseName, data, none⟩] := by
  have h5 : retryLoop client bucket (p ++ databaseName) data (4 + 1) w
      (some .errShortBuffer) false
      = (none, true, { w with uploads := w.uploads ++ [⟨bucket, p ++ databaseName, data, none⟩],
                              objects := w.objects.put bucket (p ++ databaseName) data }) := by
    simp [retryLoop, UploadObject, hsucc]
  simp only [Nat.reduceAdd] at h5
  simp [ConnectUpload, uploadRounds, hp, h5]

/-- The uploads of the chunk loop when every upload succeeds at once: one per chunk
ciphertext, under `normalisedPath ++ encryptCID ++ "/" ++ cid ciphertext`. -/
theorem chunkLoop_uploads (env : StoreEnv) (fuel : Nat) (encryptCID p : Bytes)
    (hp : checkSlash env.configStorj.UploadPath = some p)
    (hclient : ∀ n, env.client n = none)
    (hrand : ∀ i, ∃ iv, env.rand i = .ok iv ∧ iv.length = 16)
    (n i : Nat) (unread metadata : Bytes) (files : List Bytes) (w : World) :
    (chunkLoop env (fuel + 1) encryptCID n i unread metadata files w).2.uploads
      = w.uploads ++ (chunkCiphertextsFrom env n i unread).map
          (fun ct => (⟨env.configStorj.Bucket, p ++ (encryptCID ++ [slash] ++ env.cid ct), ct,
            none⟩ : UploadCall)) := by
  induction n generalizing i unread metadata files w with
  | zero => simp [chunkLoop, chunkCiphertextsFrom]
  | succ n ih =>
    obtain ⟨iv, hiv, hlen⟩ := hrand i
    have henc := encrypt_ok env.aes chunkKey (unread.take (NewSizeSplitter env.ChunkSize)) iv
      chunkKey_length
    rw [← hiv] at henc
    obtain ⟨w1, hr, -⟩ := ConnectUpload_success env.client env.DEBUG fuel w
      env.configStorj.Bucket
      (iv ++ XORKeyStream (NewCFBEncrypter (env.aes chunkKey) iv)
        (base64Encode (unread.take (NewSizeSplitter env.ChunkSize))))
      (encryptCID ++ [slash] ++ env.cid (iv ++ XORKeyStream (NewCFBEncrypter (env.aes chunkKey) iv)
        (base64Encode (unread.take (NewSizeSplitter env.ChunkSize)))))
      files env.configStorj 0 p hp (by decide) (fun j hj => absurd hj (Nat.not_lt_zero j))
      (hclient _)
    have hup := ConnectUpload_first_try env.client env.DEBUG fuel w
      env.configStorj.Bucket
      (iv ++ XORKeyStream (NewCFBEncrypter (env.aes chunkKey) iv)
        (base64Encode (unread.take (NewSizeSplitter env.ChunkSize))))
      (encryptCID ++ [slash] ++ env.cid (iv ++ XORKeyStream (NewCFBEncrypter (env.aes chunkKey) iv)
        (base64Encode (unread.take (NewSizeSplitter env.ChunkSize)))))
      files env.configStorj p hp (hclient _)
    rw [hr] at hup
    simp only at hup
    have hstep : chunkLoop env (fuel + 1) encryptCID (n + 1) i unread metadata files w
        = chunkLoop env (fuel + 1) encryptCID n (i + 1)
            (unread.drop (NewSizeSplitter env.ChunkSize))
            (metadata ++ env.cid (iv ++ XORKeyStream (NewCFBEncrypter (env.aes chunkKey) iv)
              (base64Encode (unread.take (NewSizeSplitter env.ChunkSize)))) ++ [comma])
            (if env.DEBUG then files ++ [encryptCID ++ [slash] ++
              env.cid (iv ++ XORKeyStream (NewCFBEncrypter (env.aes chunkKey) iv)
                (base64Encode (unread.take (NewSizeSplitter env.ChunkSize))))] else files)
            w1 := by
      simp only [chunkLoop, NextBytes, henc, hr]
      simp
    rw [hstep, ih, hup]
    simp only [chunkCiphertextsFrom, NextBytes, henc, List.map_cons]
    simp

/-- The store command leaves the object store and the upload log as the upload of the
manifest left them, however `Debug` and the last step end. -/
theorem storeCommand_world_of_manifest (env : StoreEnv) (fuel : Nat) (w w1 w2 : World)
    (metadataBytes : Bytes) (fileNamesDEBUG : List Bytes) (r : List Bytes × Bool)
    (hloop : chunkLoop env fuel (env.cid env.file)
      (noOfChunkFiles env.file.length env.ChunkSize) 0 env.file [] [] w
        = (.done metadataBytes fileNamesDEBUG, w1))
    (hup : ConnectUpload env.client env.DEBUG fuel w1 env.configStorj.Bucket metadataBytes
      (env.cid env.file ++ [slash] ++ env.cid env.file ++ dotTxt) fileNamesDEBUG
        env.configStorj = ⟨.returned r, w2⟩) :
    (storeCommand env fuel w).world.uploads = w2.uploads ∧
    (storeCommand env fuel w).world.objects = w2.objects := by
  simp only [storeCommand, hloop, hup]
  split
  · exact ⟨rfl, rfl⟩
  · exact ⟨rfl, rfl⟩
  · exact ⟨rfl, rfl⟩
  · split
    · exact ⟨rfl, rfl⟩
    · split <;> exact ⟨rfl, rfl⟩

/-- The uploads and the object store of a run of the store command in which every upload
succeeds at once: the chunks in loop order, each under its key, then the manifest. -/
theorem storeCommand_uploads_objects (env : StoreEnv) (fuel : Nat) (w : World) (p : Bytes)
    (hp : checkSlash env.configStorj.UploadPath = some p)
    (hclient : ∀ n, env.client n = none)
    (hrand : ∀ i, ∃ iv, env.rand i = .ok iv ∧ iv.length = 16) :
    (storeCommand env (fuel + 1) w).world.uploads
      = w.uploads ++ (chunkCiphertexts env).map
          (fun ct => (⟨env.configStorj.Bucket,
            p ++ (env.cid env.file ++ [slash] ++ env.cid ct), ct, none⟩ : UploadCall))
        ++ [⟨env.configStorj.Bucket,
            p ++ (env.cid env.file ++ [slash] ++ env.cid env.file ++ dotTxt),
            manifestText ((chunkCiphertexts env).map env.cid), none⟩] ∧
    (storeCommand env (fuel + 1) w).world.objects
      = (putChunks env.cid env.configStorj.Bucket (p ++ env.cid env.file ++ [slash])
          w.objects (chunkCiphertexts env)).put env.configStorj.Bucket
        (p ++ (env.cid env.file ++ [slash] ++ env.cid env.file ++ dotTxt))
        (manifestText ((chunkCiphertexts env).map env.cid)) := by
  obtain ⟨files1, w1, g1, g2, -, -⟩ := chunkLoop_all_succeed env fuel (env.cid env.file) p hp
    hclient hrand (noOfChunkFiles env.file.length env.ChunkSize) 0 env.file [] [] w
  have hloop := chunkLoop_uploads env fuel (env.cid env.file) p hp hclient hrand
    (noOfChunkFiles env.file.length env.ChunkSize) 0 env.file [] [] w
  rw [g1] at hloop
  simp only at hloop
  rw [List.nil_append] at g1
  obtain ⟨w2, hr, -, ho, -⟩ := ConnectUpload_success env.client env.DEBUG fuel w1
    env.configStorj.Bucket
    (manifestText ((chunkCiphertextsFrom env (noOfChunkFiles env.file.length env.ChunkSize)
      0 env.file).map env.cid))
    (env.cid env.file ++ [slash] ++ env.cid env.file ++ dotTxt) files1 env.configStorj 0 p hp
    (by decide) (fun j hj => absurd hj (Nat.not_lt_zero j)) (hclient _)
  have hman := ConnectUpload_first_try env.client env.DEBUG fuel w1
    env.configStorj.Bucket
    (manifestText ((chunkCiphertextsFrom env (noOfChunkFiles env.file.length env.ChunkSize)
      0 env.file).map env.cid))
    (env.cid env.file ++ [slash] ++ env.cid env.file ++ dotTxt) files1 env.configStorj p hp
    (hclient _)
  rw [hr] at hman
  simp only at hman
  obtain ⟨hu, hob⟩ := storeCommand_world_of_manifest env (fuel + 1) w w1 w2 _ files1 _ g1 hr
  rw [hu, hob, hman, hloop, ho, g2]
  exact ⟨rfl, rfl⟩

/-- Uploading chunks leaves every object alone whose key is not the key of a chunk. -/
theorem putChunks_frame (cid : Bytes → Bytes) (bucket objectPrefix : Bytes) (o : Objects)
    (cts : List Bytes) (b key : Bytes)
    (h : ∀ ct ∈ cts, key ≠ objectPrefix ++ cid ct) :
    putChunks cid bucket objectPrefix o cts b key = o b key := by
  induction cts generalizing o with
  | nil => rfl
  | cons ct cts ih =>
    simp only [putChunks]
    rw [ih _ (fun x hx => h x (by simp [hx]))]
    simp [Objects.put, h ct (by simp)]

theorem chunkCiphertextsFrom_length (env : StoreEnv)
    (hrand : ∀ i, ∃ iv, env.rand i = .ok iv ∧ iv.length = 16) (n i : Nat) (unread : Bytes) :
    (chunkCiphertextsFrom env n i unread).length = n := by
  induction n generalizing i unread with
  | zero => rfl
  | succ n ih =>
    obtain ⟨iv, hiv, -⟩ := hrand i
    have henc := encrypt_ok env.aes chunkKey (unread.take (NewSizeSplitter env.ChunkSize)) iv chunkKey_length
    rw [← hiv] at henc
    simp only [chunkCiphertextsFrom, NextBytes, henc, List.length_cons, ih]

/-- The ciphertext of chunk `j`: the IV drawn for it, then the CFB encryption under that
IV of the base64 text of the slice. -/
theorem chunkCiphertextsFrom_get (env : StoreEnv)
    (hrand : ∀ i, ∃ iv, env.rand i = .ok iv ∧ iv.length = 16) (n i : Nat) (unread : Bytes)
    (j : Nat) (hj : j < n) :
    ∃ iv, env.rand (i + j) = .ok iv ∧ iv.length = 16 ∧
      (chunkCiphertextsFrom env n i unread).get? j
        = some (iv ++ XORKeyStream (NewCFBEncrypter (env.aes chunkKey) iv)
            (base64Encode ((unread.drop (j * NewSizeSplitter env.ChunkSize)).take (NewSizeSplitter env.ChunkSize)))) := by
  induction n generalizing i unread j with
  | zero => exact absurd hj (Nat.not_lt_zero j)
  | succ n ih =>
    obtain ⟨iv, hiv, hlen⟩ := hrand i
    have henc := encrypt_ok env.aes chunkKey (unread.take (NewSizeSplitter env.ChunkSize)) iv chunkKey_length
    rw [← hiv] at henc
    cases j with
    | zero =>
      refine ⟨iv, hiv, hlen, ?_⟩
      simp [chunkCiphertextsFrom, NextBytes, henc]
    | succ j =>
      obtain ⟨iv2, h1, h2, h3⟩ := ih (i + 1) (unread.drop (NewSizeSplitter env.ChunkSize)) j
        (Nat.lt_of_succ_lt_succ hj)
      refine ⟨iv2, ?_, h2, ?_⟩
      · rw [← h1]
        congr 1
        omega
      · simp only [chunkCiphertextsFrom, NextBytes, henc, List.get?_cons_succ]
        rw [h3, List.drop_drop]
        have harith : NewSizeSplitter env.ChunkSize + j * NewSizeSplitter env.ChunkSize
            = (j + 1) * NewSizeSplitter env.ChunkSize := by
          rw [Nat.succ_mul, Nat.add_comm]
        rw [harith]

/-- The key of chunk `j` in the list of chunk object keys of a run. -/
theorem chunkObjectKeys_get (env : StoreEnv) (p : Bytes)
    (hp : checkSlash env.configStorj.UploadPath = some p)
    (hrand : ∀ i, ∃ iv, env.rand i = .ok iv ∧ iv.length = 16)
    (j : Nat) (hj : j < noOfChunkFiles env.file.length env.ChunkSize) :
    ∃ iv, env.rand j = .ok iv ∧ iv.length = 16 ∧
      (chunkObjectKeys env).get? j
        = some (p ++ (env.cid env.file ++ [slash] ++
            env.cid (iv ++ XORKeyStream (NewCFBEncrypter (env.aes chunkKey) iv)
              (base64Encode ((env.file.drop (j * NewSizeSplitter env.ChunkSize)).take (NewSizeSplitter env.ChunkSize)))))) := by
  obtain ⟨iv, h1, h2, h3⟩ := chunkCiphertextsFrom_get env hrand
    (noOfChunkFiles env.file.length env.ChunkSize) 0 env.file j hj
  rw [Nat.zero_add] at h1
  refine ⟨iv, h1, h2, ?_⟩
  rw [List.get?_eq_getElem?] at h3 ⊢
  simp only [chunkObjectKeys, hp, chunkCiphertexts, List.getElem?_map, h3, Option.map_some']

/-- C11, as the code has it. For two runs of the store command on the same file with the
same chunk size and bucket/path configuration, a non-empty upload path, the same
injective content-address function, random sources that deliver 16-byte IVs and an object
store that accepts every upload, the second run started on the object store the first
left: each run uploads its chunk keys in loop order and then the manifest key; the
manifest key is the same in both runs; both runs write the same number of chunk keys; the
key of chunk `i` of the second run is the key of chunk `j` of the first run exactly when
the second run draws for chunk `i` the IV the first run drew for chunk `j` and the two
chunks hold the same bytes; and the second run changes no object other than those under
its own chunk keys and the manifest key. -/
theorem rerun_chunk_keys (env1 env2 : StoreEnv) (fuel1 fuel2 : Nat) (w : World)
    (haes : env2.aes = env1.aes) (hcid : env2.cid = env1.cid)
    (hcfg : env2.configStorj = env1.configStorj) (hfile : env2.file = env1.file)
    (hsize : env2.ChunkSize = env1.ChunkSize)
    (hinj : Function.Injective env1.cid)
    (hpath : env1.configStorj.UploadPath ≠ [])
    (hrand1 : ∀ i, ∃ iv, env1.rand i = .ok iv ∧ iv.length = 16)
    (hrand2 : ∀ i, ∃ iv, env2.rand i = .ok iv ∧ iv.length = 16)
    (hclient1 : ∀ n, env1.client n = none) (hclient2 : ∀ n, env2.client n = none) :
    ∃ manifestKey,
      (storeCommand env1 (fuel1 + 1) w).world.uploads.map (fun u => u.path)
        = w.uploads.map (fun u => u.path) ++ chunkObjectKeys env1 ++ [manifestKey] ∧
      (storeCommand env2 (fuel2 + 1) (storeCommand env1 (fuel1 + 1) w).world).world.uploads.map
          (fun u => u.path)
        = (storeCommand env1 (fuel1 + 1) w).world.uploads.map (fun u => u.path)
          ++ chunkObjectKeys env2 ++ [manifestKey] ∧
      (chunkObjectKeys env1).length = noOfChunkFiles env1.file.length env1.ChunkSize ∧
      (chunkObjectKeys env2).length = noOfChunkFiles env1.file.length env1.ChunkSize ∧
      (∀ i < noOfChunkFiles env1.file.length env1.ChunkSize,
        ∀ j < noOfChunkFiles env1.file.length env1.ChunkSize,
          ((chunkObjectKeys env2).get? i = (chunkObjectKeys env1).get? j ↔
            env2.rand i = env1.rand j ∧
            (env1.file.drop (i * NewSizeSplitter env1.ChunkSize)).take
                (NewSizeSplitter env1.ChunkSize)
              = (env1.file.drop (j * NewSizeSplitter env1.ChunkSize)).take
                (NewSizeSplitter env1.ChunkSize))) ∧
      (∀ bucket key, key ∉ chunkObjectKeys env2 → key ≠ manifestKey →
        (storeCommand env2 (fuel2 + 1) (storeCommand env1 (fuel1 + 1) w).world).world.objects
            bucket key
          = (storeCommand env1 (fuel1 + 1) w).world.objects bucket key) := by
  obtain ⟨p, hp, -, -, -, -⟩ := checkSlash_of_ne_nil env1.configStorj.UploadPath hpath
  have hp2 : checkSlash env2.configStorj.UploadPath = some p := by rw [hcfg]; exact hp
  obtain ⟨hu1, -⟩ := storeCommand_uploads_objects env1 fuel1 w p hp hclient1 hrand1
  obtain ⟨hu2, ho2⟩ := storeCommand_uploads_objects env2 fuel2
    (storeCommand env1 (fuel1 + 1) w).world p hp2 hclient2 hrand2
  refine ⟨p ++ (env1.cid env1.file ++ [slash] ++ env1.cid env1.file ++ dotTxt),
    ?_, ?_, ?_, ?_, ?_, ?_⟩
  · rw [hu1]
    simp [chunkObjectKeys, hp, Function.comp_def]
  · rw [hu2]
    simp [chunkObjectKeys, hp2, Function.comp_def, hcid, hfile]
  · simp only [chunkObjectKeys, hp, chunkCiphertexts, List.length_map]
    exact chunkCiphertextsFrom_length env1 hrand1 _ _ _
  · simp only [chunkObjectKeys, hp2, chunkCiphertexts, List.length_map]
    rw [chunkCiphertextsFrom_length env2 hrand2, hfile, hsize]
  · intro i hi j hj
    obtain ⟨iv1, a1, a2, a3⟩ := chunkObjectKeys_get env1 p hp hrand1 j hj
    obtain ⟨iv2, b1, b2, b3⟩ := chunkObjectKeys_get env2 p hp2 hrand2 i
      (by rw [hfile, hsize]; exact hi)
    rw [a3, b3, a1, b1, hcid, hfile, hsize, haes]
    have d1 := decrypt_encrypted env1.aes chunkKey
      ((env1.file.drop (j * NewSizeSplitter env1.ChunkSize)).take
        (NewSizeSplitter env1.ChunkSize)) iv1 chunkKey_length a2
    have d2 := decrypt_encrypted env1.aes chunkKey
      ((env1.file.drop (i * NewSizeSplitter env1.ChunkSize)).take
        (NewSizeSplitter env1.ChunkSize)) iv2 chunkKey_length b2
    constructor
    · intro h
      simp only [Option.some.injEq, List.append_cancel_left_eq] at h
      have h2 := hinj h
      have h3 := (List.append_inj h2 (by rw [a2, b2])).1
      rw [h2] at d2
      refine ⟨by rw [h3], ?_⟩
      exact Except.ok.inj (d2.symm.trans d1)
    · intro h
      obtain ⟨h1, h2⟩ := h
      simp only [Except.ok.injEq] at h1
      rw [h1, h2]
  · intro bucket key hk hm
    rw [ho2]
    have hm2 : ¬ (bucket = env2.configStorj.Bucket ∧
        key = p ++ (env2.cid env2.file ++ [slash] ++ env2.cid env2.file ++ dotTxt)) := by
      rw [hcid, hfile]
      exact fun h => hm h.2
    simp only [Objects.put, hm2, if_false]
    apply putChunks_frame
    intro ct hct e
    apply hk
    simp only [chunkObjectKeys, hp2, List.mem_map]
    refine ⟨ct, hct, ?_⟩
    rw [e]
    simp [List.append_assoc]

theorem rerun_chunk_keys_witness :
    Function.Injective (idCidEnv exampleRand).cid ∧
    (idCidEnv exampleRand).configStorj.UploadPath ≠ [] ∧
    ∃ manifestKey,
      (storeCommand (idCidEnv exampleRand) (0 + 1) emptyWorld).world.uploads.map
          (fun u => u.path)
        = emptyWorld.uploads.map (fun u => u.path) ++ chunkObjectKeys (idCidEnv exampleRand)
            ++ [manifestKey] ∧
      (storeCommand (idCidEnv freshRand) (0 + 1)
          (storeCommand (idCidEnv exampleRand) (0 + 1) emptyWorld).world).world.uploads.map
          (fun u => u.path)
        = (storeCommand (idCidEnv exampleRand) (0 + 1) emptyWorld).world.uploads.map
            (fun u => u.path)
          ++ chunkObjectKeys (idCidEnv freshRand) ++ [manifestKey] ∧
      (chunkObjectKeys (idCidEnv exampleRand)).length
        = noOfChunkFiles (idCidEnv exampleRand).file.length (idCidEnv exampleRand).ChunkSize ∧
      (chunkObjectKeys (idCidEnv freshRand)).length
        = noOfChunkFiles (idCidEnv exampleRand).file.length (idCidEnv exampleRand).ChunkSize ∧
      (∀ i < noOfChunkFiles (idCidEnv exampleRand).file.length (idCidEnv exampleRand).ChunkSize,
        ∀ j < noOfChunkFiles (idCidEnv exampleRand).file.length
            (idCidEnv exampleRand).ChunkSize,
          ((chunkObjectKeys (idCidEnv freshRand)).get? i
              = (chunkObjectKeys (idCidEnv exampleRand)).get? j ↔
            (idCidEnv freshRand).rand i = (idCidEnv exampleRand).rand j ∧
            ((idCidEnv exampleRand).file.drop
                (i * NewSizeSplitter (idCidEnv exampleRand).ChunkSize)).take
                (NewSizeSplitter (idCidEnv exampleRand).ChunkSize)
              = ((idCidEnv exampleRand).file.drop
                (j * NewSizeSplitter (idCidEnv exampleRand).ChunkSize)).take
                (NewSizeSplitter (idCidEnv exampleRand).ChunkSize))) ∧
      (∀ bucket key, key ∉ chunkObjectKeys (idCidEnv freshRand) → key ≠ manifestKey →
        (storeCommand (idCidEnv freshRand) (0 + 1)
            (storeCommand (idCidEnv exampleRand) (0 + 1) emptyWorld).world).world.objects
            bucket key
          = (storeCommand (idCidEnv exampleRand) (0 + 1) emptyWorld).world.objects
            bucket key) :=
  ⟨fun _ _ h => h, by decide,
    rerun_chunk_keys (idCidEnv exampleRand) (idCidEnv freshRand) 0 0 emptyWorld
      rfl rfl rfl rfl rfl (fun _ _ h => h) (by decide)
      (fun i => ⟨_, rfl, by simp⟩) (fun i => ⟨_, rfl, by simp⟩) (fun _ => rfl) (fun _ => rfl)⟩

/-- C11 as stated fails: two runs of the store command on the same file `0123` with the
same chunk size, key and bucket/path configuration and the same injective
content-address function (the identity), the first with the IVs of `exampleRand` and the
second with those of `freshRand`, both return `nil`; each uploads two chunk keys and the
manifest key; no chunk key of the second run is a chunk key of the first, so the second
run, started on the object store the first run left, overwrites none of the first run's
chunk objects: they are all still there, with the first run's ciphertexts. -/
theorem fresh_ivs_change_chunk_keys :
    Function.Injective (idCidEnv exampleRand).cid ∧
    (idCidEnv freshRand).cid = (idCidEnv exampleRand).cid ∧
    (idCidEnv freshRand).file = (idCidEnv exampleRand).file ∧
    (idCidEnv freshRand).ChunkSize = (idCidEnv exampleRand).ChunkSize ∧
    (idCidEnv freshRand).configStorj = (idCidEnv exampleRand).configStorj ∧
    (storeCommand (idCidEnv exampleRand) 1 emptyWorld).exit = .returned none ∧
    (storeCommand (idCidEnv freshRand) 1
      (storeCommand (idCidEnv exampleRand) 1 emptyWorld).world).exit = .returned none ∧
    (storeCommand (idCidEnv exampleRand) 1 emptyWorld).world.uploads.map (fun u => u.path)
      = chunkObjectKeys (idCidEnv exampleRand) ++ [ofString "p/0123/0123.txt"] ∧
    ((storeCommand (idCidEnv freshRand) 1
      (storeCommand (idCidEnv exampleRand) 1 emptyWorld).world).world.uploads.map
        (fun u => u.path)).drop 3
      = chunkObjectKeys (idCidEnv freshRand) ++ [ofString "p/0123/0123.txt"] ∧
    (chunkObjectKeys (idCidEnv exampleRand)).length = 2 ∧
    (chunkObjectKeys (idCidEnv freshRand)).length = 2 ∧
    (∀ k ∈ chunkObjectKeys (idCidEnv freshRand), k ∉ chunkObjectKeys (idCidEnv exampleRand)) ∧
    (∀ k ∈ chunkObjectKeys (idCidEnv exampleRand),
      (storeCommand (idCidEnv exampleRand) 1 emptyWorld).world.objects (ofString "b") k ≠ none ∧
      (storeCommand (idCidEnv freshRand) 1
        (storeCommand (idCidEnv exampleRand) 1 emptyWorld).world).world.objects (ofString "b") k
        = (storeCommand (idCidEnv exampleRand) 1 emptyWorld).world.objects (ofString "b") k) := by
  refine ⟨fun _ _ h => h, rfl, rfl, rfl, rfl, by decide, by decide, by decide, by decide,
    by decide, by decide, by decide, by decide⟩

/-! ## C17: the keys of a store run and of the download of its locator -/

/-- C17, as the code has it. For a store run with a non-empty upload path, a bucket name
and upload path without `,`, an object store that accepts every upload, a random source
that delivers 16-byte IVs, a content-address function whose addresses have exactly 46
bytes and no `,` and which is injective on the chunk ciphertexts, a valid configuration
key that the download shares, no debug output, and a download that can open its bucket
and write its output file: with `B` the base address and `a_i` the address of chunk `i`,
the store command uploads chunk `i` under `normalisedPath + B + "/" + a_i` (in loop order)
and then the manifest under `normalisedPath + B + "/" + B + ".txt"`, all in the configured
bucket, and `ConnectStorjReadDownloadData` on the locator of that run opens, in that
bucket, exactly the manifest key and then the chunk keys in the same order. -/
theorem upload_download_keys_agree (env : StoreEnv) (denv : DownloadEnv) (fuel : Nat)
    (w : World) (dw : DownloadWorld)
    (hpath : env.configStorj.UploadPath ≠ [])
    (hcb : comma ∉ env.configStorj.Bucket) (hcp : comma ∉ env.configStorj.UploadPath)
    (hclient : ∀ n, env.client n = none)
    (hrand : ∀ i, ∃ iv, env.rand i = .ok iv ∧ iv.length = 16)
    (hcid : ∀ x, (env.cid x).length = 46 ∧ comma ∉ env.cid x)
    (hinj : ∀ x ∈ chunkCiphertexts env, ∀ y ∈ chunkCiphertexts env,
      env.cid x = env.cid y → x = y)
    (hkey : env.configStorj.Key.length = 16 ∨ env.configStorj.Key.length = 24 ∨
      env.configStorj.Key.length = 32)
    (hdebug : env.DEBUG = false)
    (hdkey : denv.Key = env.configStorj.Key) (haes : denv.aes = env.aes)
    (hdir : denv.dirOK = true) (hconn : denv.connect env.configStorj.Bucket = .opened)
    (hopen : denv.openFile
      (denv.DownloadPath ++ [slash] ++ (Split comma env.lastFileName).headD []) = none)
    (hwrite : denv.writeOK = true)
    (hobj : denv.objects = (storeCommand env (fuel + 1) w).world.objects) :
    ∃ normalisedPath token,
      checkSlash env.configStorj.UploadPath = some normalisedPath ∧
      (storeCommand env (fuel + 1) w).world.added = w.added ++ [token] ∧
      (storeCommand env (fuel + 1) w).world.uploads.map (fun u => (u.bucket, u.path))
        = w.uploads.map (fun u => (u.bucket, u.path)) ++
          (chunkCiphertexts env).map (fun ct => (env.configStorj.Bucket,
            normalisedPath ++ (env.cid env.file ++ [slash] ++ env.cid ct))) ++
          [(env.configStorj.Bucket,
            normalisedPath ++ (env.cid env.file ++ [slash] ++ env.cid env.file ++ dotTxt))] ∧
      (ConnectStorjReadDownloadData denv dw token).world.calls
        = dw.calls ++ [.connect env.configStorj.Bucket,
            .openObject env.configStorj.Bucket
              (normalisedPath ++ (env.cid env.file ++ [slash] ++ env.cid env.file ++ dotTxt))]
          ++ (chunkCiphertexts env).map (fun ct => StorjCall.openObject env.configStorj.Bucket
              (normalisedPath ++ (env.cid env.file ++ [slash] ++ env.cid ct))) := by
  obtain ⟨p, hp, -, -, -, -⟩ := checkSlash_of_ne_nil env.configStorj.UploadPath hpath
  have hcp2 := checkSlash_comma env.configStorj.UploadPath p hp hcp
  obtain ⟨iv, w2, hiv, hstore, hadded, -⟩ :=
    storeCommand_all_succeed env fuel w p hp hclient hrand hkey hdebug
  obtain ⟨hu, ho⟩ := storeCommand_uploads_objects env fuel w p hp hclient hrand
  rw [ho] at hobj
  obtain ⟨-, -, d3⟩ := download_of_store env denv dw p iv w.objects hcb hcp2 hrand hcid
    hinj hkey hiv hdkey haes hdir hconn hopen hwrite hobj
  refine ⟨p, _, hp, ?_, ?_, d3⟩
  · rw [hstore]
    exact hadded
  · rw [hu]
    simp [Function.comp_def]

theorem upload_download_keys_agree_witness :
    (exampleEnv (ofString "0123456789") 4 (fun _ => none)).configStorj.UploadPath ≠ [] ∧
    comma ∉ (exampleEnv (ofString "0123456789") 4 (fun _ => none)).configStorj.Bucket ∧
    comma ∉ (exampleEnv (ofString "0123456789") 4 (fun _ => none)).configStorj.UploadPath ∧
    (∀ x ∈ chunkCiphertexts (exampleEnv (ofString "0123456789") 4 (fun _ => none)),
      ∀ y ∈ chunkCiphertexts (exampleEnv (ofString "0123456789") 4 (fun _ => none)),
        exampleCid x = exampleCid y → x = y) ∧
    ∃ normalisedPath token,
      checkSlash (exampleEnv (ofString "0123456789") 4 (fun _ => none)).configStorj.UploadPath
        = some normalisedPath ∧
      (storeCommand (exampleEnv (ofString "0123456789") 4 (fun _ => none)) (0 + 1)
        emptyWorld).world.added = emptyWorld.added ++ [token] ∧
      (storeCommand (exampleEnv (ofString "0123456789") 4 (fun _ => none)) (0 + 1)
          emptyWorld).world.uploads.map (fun u => (u.bucket, u.path))
        = emptyWorld.uploads.map (fun u => (u.bucket, u.path)) ++
          (chunkCiphertexts (exampleEnv (ofString "0123456789") 4 (fun _ => none))).map
            (fun ct => ((exampleEnv (ofString "0123456789") 4 (fun _ => none)).configStorj.Bucket,
              normalisedPath ++
                ((exampleEnv (ofString "0123456789") 4 (fun _ => none)).cid
                  (exampleEnv (ofString "0123456789") 4 (fun _ => none)).file ++ [slash] ++
                  (exampleEnv (ofString "0123456789") 4 (fun _ => none)).cid ct))) ++
          [((exampleEnv (ofString "0123456789") 4 (fun _ => none)).configStorj.Bucket,
            normalisedPath ++
              ((exampleEnv (ofString "0123456789") 4 (fun _ => none)).cid
                (exampleEnv (ofString "0123456789") 4 (fun _ => none)).file ++ [slash] ++
                (exampleEnv (ofString "0123456789") 4 (fun _ => none)).cid
                  (exampleEnv (ofString "0123456789") 4 (fun _ => none)).file ++ dotTxt))] ∧
      (ConnectStorjReadDownloadData
          (exampleDownloadEnv (storeCommand (exampleEnv (ofString "0123456789") 4
            (fun _ => none)) (0 + 1) emptyWorld).world.objects) emptyDisk token).world.calls
        = emptyDisk.calls ++
          [.connect (exampleEnv (ofString "0123456789") 4 (fun _ => none)).configStorj.Bucket,
            .openObject (exampleEnv (ofString "0123456789") 4 (fun _ => none)).configStorj.Bucket
              (normalisedPath ++
                ((exampleEnv (ofString "0123456789") 4 (fun _ => none)).cid
                  (exampleEnv (ofString "0123456789") 4 (fun _ => none)).file ++ [slash] ++
                  (exampleEnv (ofString "0123456789") 4 (fun _ => none)).cid
                    (exampleEnv (ofString "0123456789") 4 (fun _ => none)).file ++ dotTxt))]
          ++ (chunkCiphertexts (exampleEnv (ofString "0123456789") 4 (fun _ => none))).map
              (fun ct => StorjCall.openObject
                (exampleEnv (ofString "0123456789") 4 (fun _ => none)).configStorj.Bucket
                (normalisedPath ++
                  ((exampleEnv (ofString "0123456789") 4 (fun _ => none)).cid
                    (exampleEnv (ofString "0123456789") 4 (fun _ => none)).file ++ [slash] ++
                    (exampleEnv (ofString "0123456789") 4 (fun _ => none)).cid ct))) :=
  ⟨by decide, by decide, by decide, by decide,
    upload_download_keys_agree (exampleEnv (ofString "0123456789") 4 (fun _ => none))
      (exampleDownloadEnv (storeCommand (exampleEnv (ofString "0123456789") 4 (fun _ => none))
        (0 + 1) emptyWorld).world.objects) 0 emptyWorld emptyDisk
      (by decide) (by decide) (by decide) (fun _ => rfl)
      (fun i => ⟨_, rfl, by simp⟩) exampleCid_spec (by decide) (by decide) rfl rfl rfl rfl rfl
      rfl rfl rfl⟩

/-! ## C21: upload-path normalisation -/

/-- The store command ends with `locatorStep` once the chunk loop, the upload of the
manifest and `Debug` have returned. -/
theorem storeCommand_locatorStep (env : StoreEnv) (fuel : Nat) (w w1 w2 : World)
    (metadataBytes : Bytes) (fileNamesDEBUG : List Bytes) (r : List Bytes × Bool)
    (hloop : chunkLoop env fuel (env.cid env.file)
      (noOfChunkFiles env.file.length env.ChunkSize) 0 env.file [] [] w
        = (.done metadataBytes fileNamesDEBUG, w1))
    (hup : ConnectUpload env.client env.DEBUG fuel w1 env.configStorj.Bucket metadataBytes
      (env.cid env.file ++ [slash] ++ env.cid env.file ++ dotTxt) fileNamesDEBUG
        env.configStorj = ⟨.returned r, w2⟩)
    (hdebug : Debug env.DEBUG w2.objects env.configStorj.Bucket
      (env.cid env.file ++ [slash] ++ env.cid env.file ++ dotTxt) env.configStorj
        env.debugFileOK = .returned ()) :
    storeCommand env fuel w = locatorStep env w2 := by
  simp only [storeCommand, hloop, hup, hdebug, locatorStep]

/-- The loop `for retryCount < 5` makes at least one call of `UploadObject`, and all its
calls are for the same bucket, path and data. -/
theorem retryLoop_uploads_pos (client : Nat → Option GoError) (bucket path data : Bytes)
    (n : Nat) (w : World) (err : Option GoError) (c : Bool) :
    ∃ new : List UploadCall,
      (retryLoop client bucket path data (n + 1) w err c).2.2.uploads = w.uploads ++ new ∧
      new ≠ [] ∧ ∀ u ∈ new, u.bucket = bucket ∧ u.path = path ∧ u.data = data := by
  cases h : client w.uploads.length with
  | none =>
    refine ⟨[⟨bucket, path, data, none⟩], by simp [retryLoop, UploadObject, h], by simp, ?_⟩
    intro u hu
    rw [List.mem_singleton] at hu
    subst hu
    exact ⟨rfl, rfl, rfl⟩
  | some e =>
    obtain ⟨new, h1, h2⟩ := retryLoop_uploads client bucket path data n
      { w with uploads := w.uploads ++ [⟨bucket, path, data, some e⟩] } (some e) c
    refine ⟨⟨bucket, path, data, some e⟩ :: new, ?_, by simp, ?_⟩
    · simp only [retryLoop, UploadObject, h]
      rw [h1]
      simp
    · intro u hu
      rcases List.mem_cons.mp hu with hu | hu
      · subst hu
        exact ⟨rfl, rfl, rfl⟩
      · exact h2 u hu

/-- One call of `ConnectUpload` with a path that `checkSlash` accepts makes at least one
call of `UploadObject`, and all its calls are for the key `normalisedPath ++ databaseName`. -/
theorem ConnectUpload_uploads_pos (client : Nat → Option GoError) (DEBUG : Bool)
    (fuel : Nat) (w : World) (bucket data databaseName : Bytes) (fileNamesDEBUG : List Bytes)
    (configStorj : ConfigStorj) (p : Bytes)
    (hp : checkSlash configStorj.UploadPath = some p) :
    ∃ new : List UploadCall,
      (ConnectUpload client DEBUG (fuel + 1) w bucket data databaseName fileNamesDEBUG
        configStorj).world.uploads = w.uploads ++ new ∧
      new ≠ [] ∧
      ∀ u ∈ new, u.bucket = bucket ∧ u.path = p ++ databaseName ∧ u.data = data := by
  obtain ⟨new, h1, h2⟩ := ConnectUpload_uploads client DEBUG (fuel + 1) w bucket data
    databaseName fileNamesDEBUG configStorj p hp
  refine ⟨new, h1, ?_, h2⟩
  intro hnil
  rw [hnil, List.append_nil] at h1
  obtain ⟨new1, f1, f2, -⟩ := retryLoop_uploads_pos client bucket (p ++ databaseName) data 4 w
    (some .errShortBuffer) false
  rcases hr : retryLoop client bucket (p ++ databaseName) data 5 w
    (some .errShortBuffer) false with ⟨err, c1, w1⟩
  rw [hr] at f1
  simp only at f1
  have hlen1 : w.uploads.length < w1.uploads.length := by
    rw [f1, List.length_append]
    have : 0 < new1.length := List.length_pos.mpr f2
    omega
  have hrest : ∃ new2 : List UploadCall,
      (uploadRounds client DEBUG bucket data databaseName (fuel + 1) configStorj.UploadPath w
        fileNamesDEBUG false).world.uploads = w1.uploads ++ new2 := by
    simp only [uploadRounds, hp, hr]
    split
    · obtain ⟨new2, g1, -⟩ := uploadRounds_uploads client DEBUG bucket data databaseName fuel
        p p w1 (if DEBUG then fileNamesDEBUG ++ [databaseName] else fileNamesDEBUG) c1
        (checkSlash_idem configStorj.UploadPath p hp)
      exact ⟨new2, g1⟩
    · exact ⟨[], by simp⟩
  obtain ⟨new2, hrest⟩ := hrest
  have hsame : (ConnectUpload client DEBUG (fuel + 1) w bucket data databaseName
      fileNamesDEBUG configStorj).world.uploads
      = (uploadRounds client DEBUG bucket data databaseName (fuel + 1) configStorj.UploadPath w
        fileNamesDEBUG false).world.uploads := by
    rcases hu : uploadRounds client DEBUG bucket data databaseName (fuel + 1)
      configStorj.UploadPath w fileNamesDEBUG false with ⟨exit0, w3⟩
    cases exit0 with
    | returned a =>
      obtain ⟨err2, file, c2⟩ := a
      by_cases he : err2 = none
      · simp [ConnectUpload, hu, he]
      · simp [ConnectUpload, hu, he]
    | fatal => simp [ConnectUpload, hu]
    | panicked => simp [ConnectUpload, hu]
    | running => simp [ConnectUpload, hu]
  rw [hsame, hrest] at h1
  have := congrArg List.length h1
  rw [List.length_append] at this
  omega

/-- C21. For every non-empty `UploadPath` and object name `f`, one call of `ConnectUpload`
calls `UploadObject` at least once and only under the key `UploadPath + f` when the path
ends with `/` and `UploadPath + "/" + f` otherwise; the normalised path ends with `/` and
normalising it again changes nothing. For the empty `UploadPath` the expression
`UploadPath[len(UploadPath)-1:]` is out of range: `ConnectUpload` panics without an upload,
and so does the routing-payload step of the store command. -/
theorem upload_path_normalisation (client : Nat → Option GoError) (DEBUG : Bool)
    (fuel : Nat) (w : World) (bucket data f : Bytes) (fileNamesDEBUG : List Bytes)
    (configStorj : ConfigStorj) (env : StoreEnv) (w2 : World)
    (hpath : configStorj.UploadPath ≠ []) :
    (∃ new : List UploadCall,
      (ConnectUpload client DEBUG (fuel + 1) w bucket data f fileNamesDEBUG
        configStorj).world.uploads = w.uploads ++ new ∧
      new ≠ [] ∧
      ∀ u ∈ new, u.path = (if configStorj.UploadPath.getLast? = some slash
        then configStorj.UploadPath ++ f else configStorj.UploadPath ++ [slash] ++ f)) ∧
    (∃ p, checkSlash configStorj.UploadPath = some p ∧ p.getLast? = some slash ∧
      checkSlash p = some p) ∧
    ConnectUpload client DEBUG (fuel + 1) w bucket data f fileNamesDEBUG
      { configStorj with UploadPath := [] } = ⟨.panicked, w⟩ ∧
    locatorStep { env with configStorj := { env.configStorj with UploadPath := [] } } w2
      = ⟨.panicked, w2⟩ := by
  obtain ⟨p, hp, -, hlast, h1, h2⟩ := checkSlash_of_ne_nil configStorj.UploadPath hpath
  refine ⟨?_, ⟨p, hp, hlast, checkSlash_idem _ p hp⟩, ?_, ?_⟩
  · obtain ⟨new, g1, g2, g3⟩ := ConnectUpload_uploads_pos client DEBUG fuel w bucket data f
      fileNamesDEBUG configStorj p hp
    refine ⟨new, g1, g2, ?_⟩
    intro u hu
    rw [(g3 u hu).2.1]
    by_cases hs : configStorj.UploadPath.getLast? = some slash
    · rw [if_pos hs, h1 hs]
    · rw [if_neg hs, h2 hs]
  · simp [ConnectUpload, uploadRounds, checkSlash]
  · simp [locatorStep, checkSlash]

theorem upload_path_normalisation_witness :
    (exampleEnv [] 4 (fun _ => none)).configStorj.UploadPath ≠ [] ∧
    (∃ new : List UploadCall,
      (ConnectUpload failingClient false (0 + 1) emptyWorld (ofString "b") [1, 2, 3]
        (ofString "name") [] (exampleEnv [] 4 (fun _ => none)).configStorj).world.uploads
        = emptyWorld.uploads ++ new ∧
      new ≠ [] ∧
      ∀ u ∈ new, u.path
        = (if (exampleEnv [] 4 (fun _ => none)).configStorj.UploadPath.getLast? = some slash
          then (exampleEnv [] 4 (fun _ => none)).configStorj.UploadPath ++ ofString "name"
          else (exampleEnv [] 4 (fun _ => none)).configStorj.UploadPath ++ [slash] ++
            ofString "name")) ∧
    (∃ p, checkSlash (exampleEnv [] 4 (fun _ => none)).configStorj.UploadPath = some p ∧
      p.getLast? = some slash ∧ checkSlash p = some p) ∧
    ConnectUpload failingClient false (0 + 1) emptyWorld (ofString "b") [1, 2, 3]
      (ofString "name") []
      { (exampleEnv [] 4 (fun _ => none)).configStorj with UploadPath := [] }
      = ⟨.panicked, emptyWorld⟩ ∧
    locatorStep { exampleEnv [] 4 (fun _ => none) with
      configStorj := { (exampleEnv [] 4 (fun _ => none)).configStorj with UploadPath := [] } }
      emptyWorld = ⟨.panicked, emptyWorld⟩ :=
  ⟨by decide,
    upload_path_normalisation failingClient false 0 emptyWorld (ofString "b") [1, 2, 3]
      (ofString "name") [] (exampleEnv [] 4 (fun _ => none)).configStorj
      (exampleEnv [] 4 (fun _ => none)) emptyWorld (by decide)⟩

/-! ## C8: retry exhaustion, by attempts -/

/-- C8, as the code has it. If the first `i` iterations of the chunk loop run to their
end, the encryption of chunk `i` succeeds, and the next five calls of `UploadObject` (the
five attempts for chunk `i`) all fail, the fifth with an error other than
`io.ErrShortBuffer`, then the store command returns `errr` right there: the uploads of the
run are those of the first `i` iterations followed by exactly the five attempts, all for
the key and ciphertext of chunk `i` (no later chunk, no manifest object), the object store
is as the first `i` iterations left it, and no locator is added or printed. -/
theorem retry_exhaustion_stops (env : StoreEnv) (fuel : Nat) (w : World) (i : Nat)
    (md : Bytes) (fs : List Bytes)
    (hi : i < noOfChunkFiles env.file.length env.ChunkSize)
    (hpath : env.configStorj.UploadPath ≠ [])
    (hrand : ∃ iv, env.rand i = .ok iv)
    (hdone : (chunkLoop env (fuel + 1) (env.cid env.file) i 0 env.file [] [] w).1
      = .done md fs)
    (hfail : ∀ j < 5, env.client
      ((chunkLoop env (fuel + 1) (env.cid env.file) i 0 env.file [] [] w).2.uploads.length + j)
        ≠ none)
    (hesb : env.client
      ((chunkLoop env (fuel + 1) (env.cid env.file) i 0 env.file [] [] w).2.uploads.length + 4)
        ≠ some .errShortBuffer) :
    (storeCommand env (fuel + 1) w).exit = .returned env.errr ∧
    (∃ (attempts : List UploadCall) (normalisedPath encryptData : Bytes),
      checkSlash env.configStorj.UploadPath = some normalisedPath ∧
      encrypt env.aes (env.rand i) chunkKey
        ((env.file.drop (i * NewSizeSplitter env.ChunkSize)).take
          (NewSizeSplitter env.ChunkSize)) = .ok encryptData ∧
      (storeCommand env (fuel + 1) w).world.uploads
        = (chunkLoop env (fuel + 1) (env.cid env.file) i 0 env.file [] [] w).2.uploads
          ++ attempts ∧
      attempts.length = 5 ∧
      ∀ u ∈ attempts, u.bucket = env.configStorj.Bucket ∧
        u.path = normalisedPath ++ (env.cid env.file ++ [slash] ++ env.cid encryptData) ∧
        u.data = encryptData) ∧
    (storeCommand env (fuel + 1) w).world.objects
      = (chunkLoop env (fuel + 1) (env.cid env.file) i 0 env.file [] [] w).2.objects ∧
    (storeCommand env (fuel + 1) w).world.added = w.added ∧
    (storeCommand env (fuel + 1) w).world.shareable = w.shareable := by
  obtain ⟨p, hp, -, -, -, -⟩ := checkSlash_of_ne_nil env.configStorj.UploadPath hpath
  obtain ⟨iv, hiv⟩ := hrand
  have henc := encrypt_ok env.aes chunkKey
    ((env.file.drop (i * NewSizeSplitter env.ChunkSize)).take (NewSizeSplitter env.ChunkSize))
    iv chunkKey_length
  rw [← hiv] at henc
  obtain ⟨cs, -, g2, g3, -, -⟩ := chunkLoop_connects env (fuel + 1) (env.cid env.file) i 0
    env.file [] [] w
  obtain ⟨b, hb⟩ : ∃ b, noOfChunkFiles env.file.length env.ChunkSize = i + (b + 1) :=
    ⟨noOfChunkFiles env.file.length env.ChunkSize - i - 1, by omega⟩
  have hsplit := chunkLoop_split env (fuel + 1) (env.cid env.file) i (b + 1) 0 env.file [] []
    w md fs hdone
  rw [← hb, Nat.zero_add] at hsplit
  obtain ⟨w1, hr, hlen, hobj, -, hadd, hshare⟩ := ConnectUpload_exhausted env.client env.DEBUG
    fuel (chunkLoop env (fuel + 1) (env.cid env.file) i 0 env.file [] [] w).2
    env.configStorj.Bucket
    (iv ++ XORKeyStream (NewCFBEncrypter (env.aes chunkKey) iv)
      (base64Encode ((env.file.drop (i * NewSizeSplitter env.ChunkSize)).take
        (NewSizeSplitter env.ChunkSize))))
    (env.cid env.file ++ [slash] ++ env.cid
      (iv ++ XORKeyStream (NewCFBEncrypter (env.aes chunkKey) iv)
        (base64Encode ((env.file.drop (i * NewSizeSplitter env.ChunkSize)).take
          (NewSizeSplitter env.ChunkSize)))))
    fs env.configStorj p hp hfail hesb
  obtain ⟨new, hnew, hall⟩ := ConnectUpload_uploads env.client env.DEBUG (fuel + 1)
    (chunkLoop env (fuel + 1) (env.cid env.file) i 0 env.file [] [] w).2
    env.configStorj.Bucket
    (iv ++ XORKeyStream (NewCFBEncrypter (env.aes chunkKey) iv)
      (base64Encode ((env.file.drop (i * NewSizeSplitter env.ChunkSize)).take
        (NewSizeSplitter env.ChunkSize))))
    (env.cid env.file ++ [slash] ++ env.cid
      (iv ++ XORKeyStream (NewCFBEncrypter (env.aes chunkKey) iv)
        (base64Encode ((env.file.drop (i * NewSizeSplitter env.ChunkSize)).take
          (NewSizeSplitter env.ChunkSize)))))
    fs env.configStorj p hp
  rw [hr] at hnew
  simp only at hnew
  have hloop : chunkLoop env (fuel + 1) (env.cid env.file)
      (noOfChunkFiles env.file.length env.ChunkSize) 0 env.file [] [] w
      = (.stop (.returned env.errr), w1) := by
    rw [hsplit]
    simp only [chunkLoop, NextBytes, henc, hr]
    simp
  have hstore : storeCommand env (fuel + 1) w = ⟨.returned env.errr, w1⟩ := by
    simp only [storeCommand, hloop]
  rw [hstore]
  refine ⟨rfl, ⟨new, p, _, hp, henc, hnew, ?_, hall⟩, hobj, hadd.trans g2, hshare.trans g3⟩
  have := congrArg List.length hnew
  rw [hlen, List.length_append] at this
  omega

theorem retry_exhaustion_stops_witness :
    1 < noOfChunkFiles (exampleEnv (ofString "0123456789") 4
      (fun n => if n = 0 then none else some (.other 1))).file.length
      (exampleEnv (ofString "0123456789") 4
        (fun n => if n = 0 then none else some (.other 1))).ChunkSize ∧
    (storeCommand (exampleEnv (ofString "0123456789") 4
      (fun n => if n = 0 then none else some (.other 1))) (0 + 1) emptyWorld).exit
      = .returned (exampleEnv (ofString "0123456789") 4
        (fun n => if n = 0 then none else some (.other 1))).errr ∧
    (storeCommand (exampleEnv (ofString "0123456789") 4
      (fun n => if n = 0 then none else some (.other 1))) (0 + 1) emptyWorld).world.added
      = emptyWorld.added :=
  ⟨by decide,
    (retry_exhaustion_stops (exampleEnv (ofString "0123456789") 4
      (fun n => if n = 0 then none else some (.other 1))) 0 emptyWorld 1
      (exampleCid ((List.replicate 16 1) ++ XORKeyStream
        (NewCFBEncrypter (exampleAes chunkKey) (List.replicate 16 1))
        (base64Encode (ofString "0123"))) ++ [comma]) []
      (by decide) (by decide) ⟨_, rfl⟩ rfl (by decide) (by decide)).1,
    (retry_exhaustion_stops (exampleEnv (ofString "0123456789") 4
      (fun n => if n = 0 then none else some (.other 1))) 0 emptyWorld 1
      (exampleCid ((List.replicate 16 1) ++ XORKeyStream
        (NewCFBEncrypter (exampleAes chunkKey) (List.replicate 16 1))
        (base64Encode (ofString "0123"))) ++ [comma]) []
      (by decide) (by decide) ⟨_, rfl⟩ rfl (by decide) (by decide)).2.2.2.1⟩

/-- C8 as stated fails: with a client whose first five uploads fail with
`io.ErrShortBuffer`, all five attempts to upload chunk 0 fail, yet the store command goes
on: a sixth attempt uploads chunk 0, the two later chunks and the manifest object are
uploaded, and a locator is added to the content store. -/
theorem short_buffer_retry_continues :
    (∀ j < 5, shortBufferClient j = some .errShortBuffer) ∧
    ((storeCommand (exampleEnv (ofString "0123456789") 4 shortBufferClient) 2
      emptyWorld).world.uploads.map (fun u => u.err))
      = [some .errShortBuffer, some .errShortBuffer, some .errShortBuffer,
          some .errShortBuffer, some .errShortBuffer, none, none, none, none] ∧
    (((storeCommand (exampleEnv (ofString "0123456789") 4 shortBufferClient) 2
      emptyWorld).world.uploads.take 6).map (fun u => u.path)).eraseDups.length = 1 ∧
    ((storeCommand (exampleEnv (ofString "0123456789") 4 shortBufferClient) 2
      emptyWorld).world.uploads.map (fun u => u.path)).getLast?
      = some (ofString "p/" ++ (exampleCid (ofString "0123456789") ++ [slash] ++
          exampleCid (ofString "0123456789") ++ dotTxt)) ∧
    ((storeCommand (exampleEnv (ofString "0123456789") 4 shortBufferClient) 2
      emptyWorld).world.connects.map (fun c => c.uploadComplete)) = [true, true, true, true] ∧
    (storeCommand (exampleEnv (ofString "0123456789") 4 shortBufferClient) 2
      emptyWorld).world.added.length = 1 ∧
    (storeCommand (exampleEnv (ofString "0123456789") 4 shortBufferClient) 2
      emptyWorld).exit = .returned none := by
  decide

/-! ## C6: chunking completeness of the chunk loop -/

/-- C6, as the code has it. For every byte stream and chunk size `0 < S < 2^32`, the
slices that the chunk loop of the store command takes from the size splitter made by
`chunker.NewSizeSplitter(file, S)`, concatenated in loop order, are exactly the stream; no
unread bytes remain when the loop ends, and no slice is longer than `S`. These are the
slices of the loop itself: in every run on that stream with that chunk size in which the
IVs are delivered and the uploads succeed, the chunk loop uploads one ciphertext per
slice, in loop order, and each decrypts to its slice. -/
theorem chunking_completeness (file : Bytes) (S : Nat) (hS : 0 < S) (hlt : S < 2 ^ 32) :
    (chunkSlices (NewSizeSplitter S) (noOfChunkFiles file.length S) file).1.flatten = file ∧
    (chunkSlices (NewSizeSplitter S) (noOfChunkFiles file.length S) file).2 = [] ∧
    (∀ s ∈ (chunkSlices (NewSizeSplitter S) (noOfChunkFiles file.length S) file).1,
      s.length ≤ S) ∧
    (∀ (env : StoreEnv) (fuel : Nat) (w : World), env.file = file → env.ChunkSize = S →
      env.configStorj.UploadPath ≠ [] → (∀ n, env.client n = none) →
      (∀ i, ∃ iv, env.rand i = .ok iv ∧ iv.length = 16) →
      ((chunkLoop env (fuel + 1) (env.cid env.file)
          (noOfChunkFiles env.file.length env.ChunkSize) 0 env.file [] [] w).2.uploads.drop
          w.uploads.length).map (fun u => decrypt env.aes chunkKey u.data)
        = (chunkSlices (NewSizeSplitter S) (noOfChunkFiles file.length S) file).1.map .ok) := by
  have h : NewSizeSplitter S = S := Nat.mod_eq_of_lt hlt
  obtain ⟨h1, h2, h3⟩ := chunkSlices_noOfChunkFiles file S hS
  refine ⟨by rw [h]; exact h1, by rw [h]; exact h2, by rw [h]; exact h3, ?_⟩
  intro env fuel w hfile hsize hpath hclient hrand
  subst hfile hsize
  obtain ⟨p, hp, -, -, -, -⟩ := checkSlash_of_ne_nil env.configStorj.UploadPath hpath
  rw [chunkLoop_uploads env fuel (env.cid env.file) p hp hclient hrand, List.drop_left,
    List.map_map]
  exact (chunkCiphertextsFrom_decrypt env hrand _ 0 env.file).2

theorem chunking_completeness_witness :
    0 < 4 ∧ 4 < 2 ^ 32 ∧
    (chunkSlices (NewSizeSplitter 4) (noOfChunkFiles (ofString "0123456789").length 4)
      (ofString "0123456789")).1.flatten = ofString "0123456789" ∧
    (chunkSlices (NewSizeSplitter 4) (noOfChunkFiles (ofString "0123456789").length 4)
      (ofString "0123456789")).2 = [] ∧
    (∀ s ∈ (chunkSlices (NewSizeSplitter 4) (noOfChunkFiles (ofString "0123456789").length 4)
      (ofString "0123456789")).1, s.length ≤ 4) ∧
    ((chunkLoop (exampleEnv (ofString "0123456789") 4 (fun _ => none)) (0 + 1)
        ((exampleEnv (ofString "0123456789") 4 (fun _ => none)).cid
          (exampleEnv (ofString "0123456789") 4 (fun _ => none)).file)
        (noOfChunkFiles (exampleEnv (ofString "0123456789") 4 (fun _ => none)).file.length
          (exampleEnv (ofString "0123456789") 4 (fun _ => none)).ChunkSize) 0
        (exampleEnv (ofString "0123456789") 4 (fun _ => none)).file [] []
        emptyWorld).2.uploads.drop emptyWorld.uploads.length).map
        (fun u => decrypt (exampleEnv (ofString "0123456789") 4 (fun _ => none)).aes
          chunkKey u.data)
      = (chunkSlices (NewSizeSplitter 4) (noOfChunkFiles (ofString "0123456789").length 4)
          (ofString "0123456789")).1.map .ok :=
  ⟨by decide, by decide,
    (chunking_completeness (ofString "0123456789") 4 (by decide) (by decide)).1,
    (chunking_completeness (ofString "0123456789") 4 (by decide) (by decide)).2.1,
    (chunking_completeness (ofString "0123456789") 4 (by decide) (by decide)).2.2.1,
    (chunking_completeness (ofString "0123456789") 4 (by decide) (by decide)).2.2.2
      (exampleEnv (ofString "0123456789") 4 (fun _ => none)) 0 emptyWorld rfl rfl
      (by decide) (fun _ => rfl) (fun i => ⟨_, rfl, by simp⟩)⟩

/-- C6 as stated fails: with the chunk size `S = 2^32 + 1 > 0` the size splitter keeps
`uint32(S) = 1` while the number of iterations is `10 / S + 1 = 1`, so for the 10-byte
stream `0123456789` the chunk loop takes the single slice `0` and leaves nine bytes
unread; the one chunk the store command uploads decrypts to `0`. -/
theorem chunk_size_truncated :
    0 < 2 ^ 32 + 1 ∧
    NewSizeSplitter (2 ^ 32 + 1) = 1 ∧
    noOfChunkFiles (ofString "0123456789").length (2 ^ 32 + 1) = 1 ∧
    chunkSlices (NewSizeSplitter (2 ^ 32 + 1))
        (noOfChunkFiles (ofString "0123456789").length (2 ^ 32 + 1)) (ofString "0123456789")
      = ([ofString "0"], ofString "123456789") ∧
    (chunkCiphertexts (exampleEnv (ofString "0123456789") (2 ^ 32 + 1) (fun _ => none))).map
        (decrypt exampleAes chunkKey) = [.ok (ofString "0")] ∧
    (storeCommand (exampleEnv (ofString "0123456789") (2 ^ 32 + 1) (fun _ => none)) 1
      emptyWorld).exit = .returned none ∧
    ((storeCommand (exampleEnv (ofString "0123456789") (2 ^ 32 + 1) (fun _ => none)) 1
      emptyWorld).world.uploads.map (fun u => decrypt exampleAes chunkKey u.data)).head?
      = some (.ok (ofString "0")) ∧
    (storeCommand (exampleEnv (ofString "0123456789") (2 ^ 32 + 1) (fun _ => none)) 1
      emptyWorld).world.uploads.length = 2 := by
  decide

end StorjIPFS
